import Mathlib

/-!
# Export path of the Maxim runtime: `Exporter.cpp`

`Exporter.cpp` does two things.  At export time it fills an LLVM module with
globals (`Exporter::Exporter`, `addRuntime`, `finishModule`).  Nine of the
functions it puts there (`axiom_create_instrument`, ...) are the binary ABI a
host later runs against the exported definitions.

The development has three layers.

* A block memory with byte-granular cells, and on it the five ABI functions
  that deal with instruments (`buildCreateInstrumentFunc` ..
  `buildDestroyInstrumentFunc`).  Every `b.Create...` call of the source is
  one line of the Lean definition.
* The module under construction: a list of named global values with linkage,
  the symbol-table renaming LLVM applies on a name clash, and the operations
  `Exporter::Exporter`, `addRuntime` and `finishModule` on it.  What
  `addRuntime` needs of a `Runtime` is a parameter (`RuntimeOps`), since
  `Runtime` and `Surface` are outside `Exporter.cpp`; `specOps` is the runtime
  as the specification describes it.
* The memory image of a module, which lets the ABI functions run on a
  definition that `addRuntime` emitted.

Two smaller parts follow the same pattern.  `Node.cpp`: a node is its owning
surface and its dirty flag; the member functions of `Surface` it calls are a
parameter (`SurfaceOps`) and every call is logged.  `SchematicCanvas.cpp`: the
lasso selection of `mouseMoveEvent`, with `std::set` as an ascending list and
the member functions of `GridItem` as a parameter (`GridItemOps`).
-/

namespace MaximRuntime

/-! ## Target and values -/

/-- The target the exporter selected: `ptrBytes` is the size in bytes of a
pointer, which is also the size of `ctx->dataLayoutType()` (the integer type
that `malloc` and the offset tables use). -/
structure Target where
  ptrBytes : Nat
  ptrBytes_pos : 0 < ptrBytes

/-- Number of values of the data-layout integer type: arithmetic in that type
is modulo this. -/
def Target.modulus (T : Target) : Nat := 2 ^ (8 * T.ptrBytes)

/-- The usual 64-bit host. -/
def target64 : Target := ⟨8, by decide⟩

abbrev Byte := Fin 256

/-- A pointer: a memory block and a byte offset into it. -/
structure Ptr where
  block : Nat
  off : Nat
deriving DecidableEq, Repr

/-- A value of pointer width: an integer of the data-layout type or a
pointer (to data or to a function). -/
inductive Val where
  | int (n : Nat)
  | ptr (p : Ptr)
deriving DecidableEq, Repr

/-- One byte of memory.  A value of pointer width occupies `ptrBytes` cells,
the `i`-th of which is `frag v i`. -/
inductive Cell where
  | undef
  | byte (b : Byte)
  | frag (v : Val) (i : Nat)
deriving DecidableEq, Repr

inductive BlockKind where
  | constant
  | global
  | heap
  | function
deriving DecidableEq, Repr

/-- A memory block.  `constant` and `function` blocks cannot be stored to; a
`heap` block is `live` from `malloc` to `free`. -/
structure Block where
  kind : BlockKind
  live : Bool
  cells : List Cell
deriving DecidableEq, Repr

def Block.writable (b : Block) : Bool :=
  b.kind = BlockKind.global || b.kind = BlockKind.heap

abbrev Mem := List Block

/-- What the ABI functions do to the outside world, in order. -/
inductive Event where
  | malloc (size : Nat) (result : Ptr)
  | memcpy (dst src : Ptr) (len : Nat)
  | call (callee : Nat) (arg : Val)
  | free (p : Ptr)
deriving DecidableEq, Repr

structure World where
  mem : Mem
  trace : List Event
deriving DecidableEq, Repr

/-- The code behind function pointers: `call f arg m` is the memory after the
function in block `f` ran on `arg` in memory `m`. -/
structure Env where
  call : Nat → Val → Mem → Mem

/-! ## Memory operations -/

def readCells (m : Mem) (p : Ptr) (n : Nat) : Option (List Cell) :=
  match m[p.block]? with
  | some b =>
    if b.live = true ∧ p.off + n ≤ b.cells.length then
      some ((b.cells.drop p.off).take n)
    else none
  | none => none

def spliceCells (cells : List Cell) (off : Nat) (cs : List Cell) : List Cell :=
  cells.take off ++ cs ++ cells.drop (off + cs.length)

def writeCells (m : Mem) (p : Ptr) (cs : List Cell) : Option Mem :=
  match m[p.block]? with
  | some b =>
    if b.live = true ∧ b.writable = true ∧ p.off + cs.length ≤ b.cells.length then
      some (m.set p.block { b with cells := spliceCells b.cells p.off cs })
    else none
  | none => none

/-- The cells of a pointer-width value. -/
def frags (v : Val) (k : Nat) : List Cell := (List.range k).map (Cell.frag v)

/-- Embeds `CreateLoad` of a pointer-width value. -/
def loadWord (T : Target) (m : Mem) (p : Ptr) : Option Val :=
  match readCells m p T.ptrBytes with
  | some (Cell.frag v 0 :: rest) =>
    if Cell.frag v 0 :: rest = frags v T.ptrBytes then some v else none
  | _ => none

def loadInt (T : Target) (m : Mem) (p : Ptr) : Option Nat :=
  match loadWord T m p with
  | some (Val.int n) => some n
  | _ => none

def loadPtr (T : Target) (m : Mem) (p : Ptr) : Option Ptr :=
  match loadWord T m p with
  | some (Val.ptr q) => some q
  | _ => none

/-- Embeds `CreateStore` of a pointer-width value. -/
def storeWord (T : Target) (v : Val) (p : Ptr) (w : World) : Option World :=
  match writeCells w.mem p (frags v T.ptrBytes) with
  | some m => some { w with mem := m }
  | none => none

/-- The two struct types of the export ABI (`_exportDefinitionTy`,
`_exportInstrumentTy`). -/
inductive ExportTy where
  | exportDefinitionTy
  | exportInstrumentTy
deriving DecidableEq, Repr

/-- Every field of both struct types has pointer width. -/
def ExportTy.numFields : ExportTy → Nat
  | .exportDefinitionTy => 7
  | .exportInstrumentTy => 2

/-- Embeds `ctx->sizeOf(ty)`. -/
def sizeOf (T : Target) (ty : ExportTy) : Nat := ty.numFields * T.ptrBytes

/-- Embeds `CreateStructGEP(ty, p, i)`. -/
def structGEP (T : Target) (_ty : ExportTy) (p : Ptr) (i : Nat) : Ptr :=
  ⟨p.block, p.off + i * T.ptrBytes⟩

/-- Embeds `CreateGEP` on an `i8*` with an index of the data-layout integer type. -/
def gepBytes (T : Target) (p : Ptr) (n : Nat) : Ptr :=
  ⟨p.block, (p.off + n) % T.modulus⟩

/-- The signed reading of an `i32`. -/
def signed32 (i : Nat) : Int := if i < 2 ^ 31 then (i : Int) else (i : Int) - 2 ^ 32

/-- Embeds `CreateGEP` on a pointer to data-layout integers with an `i32` index: the
index is sign-extended and scaled by the element size. -/
def gepWords (T : Target) (p : Ptr) (i : Nat) : Ptr :=
  ⟨p.block, (((p.off : Int) + signed32 i * (T.ptrBytes : Int)) % (T.modulus : Int)).toNat⟩

/-- The allocator: `malloc` is taken to succeed; it hands out a fresh block of
`n` undefined bytes. -/
def malloc (n : Nat) (w : World) : Ptr × World :=
  let p : Ptr := ⟨w.mem.length, 0⟩
  (p, { mem := w.mem ++ [⟨BlockKind.heap, true, List.replicate n Cell.undef⟩],
        trace := w.trace ++ [Event.malloc n p] })

/-- The allocator: `free` releases a live heap block, given its start. -/
def free (p : Ptr) (w : World) : Option World :=
  match w.mem[p.block]? with
  | some b =>
    if b.kind = BlockKind.heap ∧ b.live = true ∧ p.off = 0 then
      some { mem := w.mem.set p.block { b with live := false },
             trace := w.trace ++ [Event.free p] }
    else none
  | none => none

/-- The `llvm.memcpy` intrinsic. -/
def memcpy (dst src : Ptr) (len : Nat) (w : World) : Option World :=
  match readCells w.mem src len with
  | some cs =>
    match writeCells w.mem dst cs with
    | some m => some { mem := m, trace := w.trace ++ [Event.memcpy dst src len] }
    | none => none
  | none => none

/-- Embeds `CreateCall` through a loaded function pointer with one argument. -/
def callPtr (E : Env) (f : Val) (arg : Val) (w : World) : Option World :=
  match f with
  | Val.ptr ⟨b, 0⟩ =>
    match w.mem[b]? with
    | some blk =>
      if blk.kind = BlockKind.function then
        some { mem := E.call b arg w.mem, trace := w.trace ++ [Event.call b arg] }
      else none
    | none => none
  | _ => none

/-! ## The ABI functions (`Exporter::build...Func`) -/

open ExportTy

/-- Embeds `Exporter::buildCreateInstrumentFunc`, lines 181-201. -/
def axiom_create_instrument (T : Target) (E : Env) (definition : Ptr) (w : World) :
    Option (Ptr × World) := do
  let allocSize ← loadInt T w.mem (structGEP T exportDefinitionTy definition 0)
  let instrumentSize := sizeOf T exportInstrumentTy
  let resultSize := (allocSize + instrumentSize) % T.modulus
  let (resultPtr, w) := malloc resultSize w
  let dataPtr := gepBytes T resultPtr instrumentSize
  let w ← storeWord T (Val.ptr dataPtr) (structGEP T exportInstrumentTy resultPtr 0) w
  let w ← storeWord T (Val.ptr definition) (structGEP T exportInstrumentTy resultPtr 1) w
  let copyBufferPtr ← loadPtr T w.mem (structGEP T exportDefinitionTy definition 1)
  let w ← memcpy dataPtr copyBufferPtr allocSize w
  let constructorFunc ← loadWord T w.mem (structGEP T exportDefinitionTy definition 4)
  let w ← callPtr E constructorFunc (Val.ptr dataPtr) w
  pure (resultPtr, w)

/-- Embeds `Exporter::buildGetInputFunc`, lines 215-219. -/
def axiom_get_input (T : Target) (instrument : Ptr) (inputIndex : Nat) (w : World) :
    Option (Ptr × World) := do
  let dataPtr ← loadPtr T w.mem (structGEP T exportInstrumentTy instrument 0)
  let definition ← loadPtr T w.mem (structGEP T exportInstrumentTy instrument 1)
  let inputIndexes ← loadPtr T w.mem (structGEP T exportDefinitionTy definition 2)
  let thisInputIndex ← loadInt T w.mem (gepWords T inputIndexes inputIndex)
  pure (gepBytes T dataPtr thisInputIndex, w)

/-- Embeds `Exporter::buildGetOutputFunc`, lines 233-237. -/
def axiom_get_output (T : Target) (instrument : Ptr) (outputIndex : Nat) (w : World) :
    Option (Ptr × World) := do
  let dataPtr ← loadPtr T w.mem (structGEP T exportInstrumentTy instrument 0)
  let definition ← loadPtr T w.mem (structGEP T exportInstrumentTy instrument 1)
  let outputIndexes ← loadPtr T w.mem (structGEP T exportDefinitionTy definition 3)
  let thisOutputIndex ← loadInt T w.mem (gepWords T outputIndexes outputIndex)
  pure (gepBytes T dataPtr thisOutputIndex, w)

/-- Embeds `Exporter::buildGenerateFunc`, lines 248-252. -/
def axiom_generate (T : Target) (E : Env) (instrument : Ptr) (w : World) : Option World := do
  let dataPtr ← loadWord T w.mem (structGEP T exportInstrumentTy instrument 0)
  let definition ← loadPtr T w.mem (structGEP T exportInstrumentTy instrument 1)
  let generateFunc := structGEP T exportDefinitionTy definition 5
  let w ← callPtr E (← loadWord T w.mem generateFunc) dataPtr w
  pure w

/-- Embeds `Exporter::buildDestroyInstrumentFunc`, lines 271-276. -/
def axiom_destroy_instrument (T : Target) (E : Env) (instrument : Ptr) (w : World) :
    Option World := do
  let dataPtr ← loadWord T w.mem (structGEP T exportInstrumentTy instrument 0)
  let definition ← loadPtr T w.mem (structGEP T exportInstrumentTy instrument 1)
  let destroyFunc := structGEP T exportDefinitionTy definition 6
  let w ← callPtr E (← loadWord T w.mem destroyFunc) dataPtr w
  let w ← free instrument w
  pure w

/-! ## Definitions and instruments in memory -/

/-- The seven field values of an `ExportDefinition`, in the order of
`_exportDefinitionTy`. -/
structure ExportDefinition where
  storageSize : Nat
  snapshot : Ptr
  inputs : Ptr
  outputs : Ptr
  constructor : Ptr
  generate : Ptr
  destructor : Ptr
deriving DecidableEq, Repr

def ExportDefinition.fields (D : ExportDefinition) : List Val :=
  [Val.int D.storageSize, Val.ptr D.snapshot, Val.ptr D.inputs, Val.ptr D.outputs,
   Val.ptr D.constructor, Val.ptr D.generate, Val.ptr D.destructor]

/-- Memory `m` holds the definition `D` at address `d`. -/
def DefinitionAt (T : Target) (m : Mem) (d : Ptr) (D : ExportDefinition) : Prop :=
  ∀ i, i < 7 → loadWord T m (structGEP T exportDefinitionTy d i) = D.fields[i]?

instance (T : Target) (m : Mem) (d : Ptr) (D : ExportDefinition) :
    Decidable (DefinitionAt T m d D) := by
  unfold DefinitionAt; infer_instance

/-- Pointer `p` is the address of a function. -/
def IsFunction (m : Mem) (p : Ptr) : Prop :=
  p.off = 0 ∧ (m[p.block]?).map Block.kind = some BlockKind.function

instance (m : Mem) (p : Ptr) : Decidable (IsFunction m p) := by
  unfold IsFunction; infer_instance

/-- Memory `m` holds at `instrument` an instrument header with the given data
and definition pointers. -/
def InstrumentAt (T : Target) (m : Mem) (instrument dataPtr definition : Ptr) : Prop :=
  loadWord T m (structGEP T exportInstrumentTy instrument 0) = some (Val.ptr dataPtr) ∧
  loadWord T m (structGEP T exportInstrumentTy instrument 1) = some (Val.ptr definition)

instance (T : Target) (m : Mem) (i d p : Ptr) : Decidable (InstrumentAt T m i d p) := by
  unfold InstrumentAt; infer_instance

/-- The functions behind the definitions' function pointers touch only the
storage they are handed: the cells of the argument's block from the argument
on.  Every other cell, and the kind, liveness and size of every block, is as
before the call. -/
def Env.Confined (E : Env) : Prop :=
  ∀ (f : Nat) (p : Ptr) (m : Mem),
    (E.call f (Val.ptr p) m).length = m.length ∧
    ∀ b blk, m[b]? = some blk →
      ∃ blk1, (E.call f (Val.ptr p) m)[b]? = some blk1 ∧ blk1.kind = blk.kind ∧
        blk1.live = blk.live ∧ blk1.cells.length = blk.cells.length ∧
        (b ≠ p.block → blk1 = blk) ∧
        (b = p.block → ∀ i, i < p.off → blk1.cells[i]? = blk.cells[i]?)

/-- Block `b` of `m` exists with this kind, liveness and size. -/
def HasBlock (m : Mem) (b : Nat) (kind : BlockKind) (live : Bool) (len : Nat) : Prop :=
  ∃ blk, m[b]? = some blk ∧ blk.kind = kind ∧ blk.live = live ∧ blk.cells.length = len

/-- The memory `m1` that `axiom_create_instrument` has built from `m0` when it
calls the constructor: one new block, the last, holding the header and then
the storage, and every block of `m0` as it was. -/
def Created (T : Target) (m0 : Mem) (d : Ptr) (D : ExportDefinition) (snap : List Cell)
    (m1 : Mem) : Prop :=
  InstrumentAt T m1 ⟨m0.length, 0⟩ ⟨m0.length, sizeOf T exportInstrumentTy⟩ d ∧
  readCells m1 ⟨m0.length, sizeOf T exportInstrumentTy⟩ D.storageSize = some snap ∧
  HasBlock m1 m0.length BlockKind.heap true (D.storageSize + sizeOf T exportInstrumentTy) ∧
  m1.length = m0.length + 1 ∧
  ∀ b, b < m0.length → m1[b]? = m0[b]?

/-- Memory `m` holds at `tab` an array of data-layout integers with the given
entries, and the array lies within the address space. -/
def TableAt (T : Target) (m : Mem) (tab : Ptr) (entries : List Nat) : Prop :=
  tab.off + entries.length * T.ptrBytes ≤ T.modulus ∧
  ∀ j, j < entries.length →
    loadWord T m ⟨tab.block, tab.off + j * T.ptrBytes⟩ = (entries[j]?).map Val.int

instance (T : Target) (m : Mem) (tab : Ptr) (entries : List Nat) :
    Decidable (TableAt T m tab entries) := by
  unfold TableAt; infer_instance

/-! ## The export module -/

/-- Embeds `llvm::GlobalValue::LinkageTypes`. -/
inductive Linkage where
  | ExternalLinkage
  | AvailableExternallyLinkage
  | LinkOnceAnyLinkage
  | LinkOnceODRLinkage
  | WeakAnyLinkage
  | WeakODRLinkage
  | AppendingLinkage
  | InternalLinkage
  | PrivateLinkage
  | ExternalWeakLinkage
  | CommonLinkage
deriving DecidableEq, Repr

/-- The nine functions `Exporter::buildInterfaceFunctions` builds. -/
inductive AbiFunc where
  | createInstrument
  | getInput
  | getOutput
  | generate
  | destroyInstrument
  | midiPush
  | midiClear
  | numWrite
  | numRead
deriving DecidableEq, Repr

/-- What a function of the module is.  `declaration`: no body (`malloc`,
`free`, intrinsics).  `abi f`: the body one of the `build...Func` functions
emits.  `trampoline method`: the body `buildInstrumentFunc` emits, a call of
the class method `method` on the function's one argument.  `foreign`: a
function defined by the common module or by a compiled fragment. -/
inductive FuncBody where
  | declaration
  | abi (f : AbiFunc)
  | trampoline (method : Nat)
  | foreign (id : Nat)
deriving DecidableEq, Repr

/-- A field of a constant struct: a data-layout integer or the address of the
global value with the given index. -/
inductive Field where
  | int (n : Nat)
  | global (index : Nat)
deriving DecidableEq, Repr

/-- The initializer of a global variable (`llvm::Constant`): an array of
bytes, an array of data-layout integers, a struct of pointer-width fields, or
`size` bytes the development knows nothing about. -/
inductive Constant where
  | byteArray (bytes : List Byte)
  | intArray (ints : List Nat)
  | struct (fields : List Field)
  | other (size : Nat)
deriving DecidableEq, Repr

inductive GlobalBody where
  | var (isConstant : Bool) (init : Constant)
  | func (body : FuncBody)
deriving DecidableEq, Repr

/-- An `llvm::GlobalValue` of the module: a global variable or a function. -/
structure GlobalValue where
  name : String
  linkage : Linkage
  body : GlobalBody
deriving DecidableEq, Repr

/-- An `llvm::Module`: its global values in creation order, and the counter
its symbol table uses to rename on a clash.  A global value is referred to by
its index in `globals`. -/
structure Module where
  globals : List GlobalValue
  lastUnique : Nat
deriving DecidableEq, Repr

def Module.names (M : Module) : List String := M.globals.map GlobalValue.name

/-- Embeds `ValueSymbolTable::makeUniqueName`: append `.N` for the next values of the
counter until the name is free. -/
def makeUniqueName (taken : List String) (base : String) : Nat → Nat → String × Nat
  | 0, u => (base ++ "." ++ toString (u + 1), u + 1)
  | fuel + 1, u =>
    if base ++ "." ++ toString (u + 1) ∈ taken then makeUniqueName taken base fuel (u + 1)
    else (base ++ "." ++ toString (u + 1), u + 1)

/-- The name the symbol table gives a new value that asks for `name`, and the
counter afterwards: the requested name when it is free, a fresh one
otherwise. -/
def Module.freshName (M : Module) (name : String) : String × Nat :=
  if name ∈ M.names then makeUniqueName M.names name M.names.length M.lastUnique
  else (name, M.lastUnique)

/-- Creation of a global value in a module (`new llvm::GlobalVariable(module,
...)`, `llvm::Function::Create(..., &module)`).  Returns the index of the new
value. -/
def Module.add (M : Module) (g : GlobalValue) : Nat × Module :=
  (M.globals.length,
    { globals := M.globals ++ [{ g with name := (M.freshName g.name).1 }],
      lastUnique := (M.freshName g.name).2 })

def GlobalValue.isFunction (g : GlobalValue) : Bool :=
  match g.body with
  | .func _ => true
  | .var _ _ => false

/-- Embeds `Module::getFunction`. -/
def Module.getFunction (M : Module) (name : String) : Option Nat :=
  M.globals.findIdx? (fun g => g.name == name && g.isFunction)

/-- Embeds `Linker::linkInModule`, as far as the symbol table goes: the global values
of the source module become global values of the destination.  (LLVM merges a
declaration with a definition of the same name; here every source value is
added as a new one.  In both, no value already in the destination is removed,
renamed or given another linkage.) -/
def Module.linkInModule (M : Module) (src : List GlobalValue) : Module :=
  src.foldl (fun M g => (M.add g).2) M

/-- Embeds `std::string::startswith` / `StringRef::startswith`. -/
def startswith (s pre : String) : Bool := pre.toList.isPrefixOf s.toList

/-! ### What `addRuntime` reads from a `Runtime` -/

/-- Embeds `Control`: `group()` is the connection group the control is in, by
identity, or null. -/
structure Control where
  group : Option Nat
deriving DecidableEq, Repr

structure IONode where
  control : Control
deriving DecidableEq, Repr

/-- Embeds `llvm::StructLayout`. -/
structure StructLayout where
  sizeInBytes : Nat
  memberOffsets : List Nat
deriving DecidableEq, Repr

/-- Embeds `StructLayout::getSizeInBytes`. -/
def StructLayout.getSizeInBytes (l : StructLayout) : Nat := l.sizeInBytes

/-- Embeds `StructLayout::getElementOffset`, which asserts that the index is one
of an element. -/
def StructLayout.getElementOffset (l : StructLayout) (idx : Nat) : Option Nat :=
  l.memberOffsets[idx]?

/-- Embeds `MaximCodegen::ModuleClass`: its three methods and its storage type, by
identity. -/
structure ModuleClass where
  constructor : Nat
  generate : Nat
  destructor : Nat
  storageType : Nat
deriving DecidableEq, Repr

/-- What `addRuntime` reads from `runtime->mainSurface()`: the main input and
output nodes, the automation nodes in iteration order, the map
`groupPtrIndexes()` and the bytes at `currentPtr()`. -/
structure Surface where
  input : IONode
  output : IONode
  automationNodes : List (Nat × IONode)
  groupPtrIndexes : List (Nat × Nat)
  currentPtr : Nat → Byte

/-- The part of `Runtime` that is not in `Exporter.cpp`, for a type `R` of
runtime states: `Surface::scheduleChildUpdate` on the main surface,
`Runtime::compile` (which returns the main class and, the exporter's linker
being installed in the JIT, links the fragments it compiled into the export
module), the main surface, and `DataLayout::getStructLayout`. -/
structure RuntimeOps (R : Type) where
  scheduleChildUpdate : R → R
  compile : R → R × ModuleClass × List GlobalValue
  mainSurface : R → Surface
  getStructLayout : R → Nat → StructLayout

/-- Why `addRuntime` aborted: the two assertions of `getIoNodeAccessor`, and
the one of `getElementOffset`. -/
inductive Abort where
  | noGroup
  | noEntry
  | noElement
deriving DecidableEq, Repr

instance : DecidableEq (Except Abort Nat) := fun a b =>
  match a, b with
  | .ok x, .ok y =>
    if h : x = y then isTrue (by rw [h]) else isFalse (fun h1 => h (Except.ok.inj h1))
  | .error x, .error y =>
    if h : x = y then isTrue (by rw [h]) else isFalse (fun h1 => h (Except.error.inj h1))
  | .ok _, .error _ => isFalse (fun h => Except.noConfusion h)
  | .error _, .ok _ => isFalse (fun h => Except.noConfusion h)

/-- Embeds `getIoNodeAccessor`, lines 50-56. -/
def getIoNodeAccessor (T : Target) (surface : Surface) (layout : StructLayout) (node : IONode) :
    Except Abort Nat :=
  match node.control.group with
  | none => .error Abort.noGroup
  | some inputGroup =>
    match surface.groupPtrIndexes.lookup inputGroup with
    | none => .error Abort.noEntry
    | some entryIndex =>
      match layout.getElementOffset entryIndex with
      | none => .error Abort.noElement
      | some offset => .ok (offset % T.modulus)

/-- The loop of lines 88-90 over the automation nodes. -/
def automationAccessors (T : Target) (surface : Surface) (layout : StructLayout) :
    List (Nat × IONode) → Except Abort (List Nat)
  | [] => .ok []
  | automationNode :: rest =>
    match getIoNodeAccessor T surface layout automationNode.2 with
    | .error e => .error e
    | .ok v =>
      match automationAccessors T surface layout rest with
      | .error e => .error e
      | .ok vs => .ok (v :: vs)

/-- The outcome of `addRuntime`: the module and the runtime as it leaves them,
and the index of the definition it emitted, or why it aborted. -/
structure AddResult (R : Type) where
  module : Module
  runtime : R
  outcome : Except Abort Nat

namespace Exporter

open Linkage

/-- Embeds `Exporter::buildInstrumentFunc`, lines 333-344. -/
def buildInstrumentFunc (module : Module) (name : String) (method : Nat) : Nat × Module :=
  module.add ⟨name, PrivateLinkage, .func (.trampoline method)⟩

/-- Embeds `Exporter::addRuntime`, lines 58-119. -/
def addRuntime {R : Type} (T : Target) (ops : RuntimeOps R) (module : Module) (runtime : R)
    (exportName : String) : AddResult R :=
  let runtime := ops.scheduleChildUpdate runtime
  let compiled := ops.compile runtime
  let runtime := compiled.1
  let mainClass := compiled.2.1
  let module := module.linkInModule compiled.2.2
  let (runConstructor, module) :=
    buildInstrumentFunc module (exportName ++ ".constructor") mainClass.constructor
  let (runGenerate, module) :=
    buildInstrumentFunc module (exportName ++ ".generate") mainClass.generate
  let (runDestructor, module) :=
    buildInstrumentFunc module (exportName ++ ".destructor") mainClass.destructor
  let storageLayout := ops.getStructLayout runtime mainClass.storageType
  let storageSize := storageLayout.getSizeInBytes
  let currentStoragePtr := (ops.mainSurface runtime).currentPtr
  let storageValues := (List.range storageSize).map currentStoragePtr
  let (exportData, module) :=
    module.add ⟨exportName ++ ".staticbuffer", PrivateLinkage,
      .var true (.byteArray storageValues)⟩
  match getIoNodeAccessor T (ops.mainSurface runtime) storageLayout
      (ops.mainSurface runtime).input with
  | .error e => ⟨module, runtime, .error e⟩
  | .ok inputFirst =>
    match automationAccessors T (ops.mainSurface runtime) storageLayout
        (ops.mainSurface runtime).automationNodes with
    | .error e => ⟨module, runtime, .error e⟩
    | .ok inputRest =>
      let inputValues := inputFirst :: inputRest
      let (inputList, module) :=
        module.add ⟨exportName ++ ".inputs", PrivateLinkage, .var true (.intArray inputValues)⟩
      match getIoNodeAccessor T (ops.mainSurface runtime) storageLayout
          (ops.mainSurface runtime).output with
      | .error e => ⟨module, runtime, .error e⟩
      | .ok outputFirst =>
        let outputValues := [outputFirst]
        let (outputList, module) :=
          module.add ⟨exportName ++ ".outputs", PrivateLinkage,
            .var true (.intArray outputValues)⟩
        let (definition, module) :=
          module.add ⟨exportName, ExternalLinkage,
            .var true (.struct [
              .int (storageSize % T.modulus),
              .global exportData,
              .global inputList,
              .global outputList,
              .global runConstructor,
              .global runGenerate,
              .global runDestructor])⟩
        ⟨module, runtime, .ok definition⟩

/-- The loop of `Exporter::finishModule`, lines 140-144. -/
def finishModuleLinkage (module : Module) : Module :=
  { module with
    globals := module.globals.map fun global =>
      if startswith global.name "maxim" then { global with linkage := PrivateLinkage }
      else global }

/-- Embeds `Exporter::finishModule`, lines 138-150.  `optimizeModule` stands for
`Jit::optimizeModule`, which is not in `Exporter.cpp`. -/
def finishModule (optimizeModule : Module → Nat → Nat → Module) (module : Module)
    (optLevel sizeLevel : Nat) : Module :=
  optimizeModule (finishModuleLinkage module) optLevel sizeLevel

/-- The name of the `llvm.memcpy` intrinsic for `i8*`, `i8*` and the
data-layout integer type. -/
def memcpyName (T : Target) : String :=
  "llvm.memcpy.p0i8.p0i8.i" ++ toString (8 * T.ptrBytes)

/-- Embeds `Module::getFunction`, and `Function::Create` of an external declaration
when there is none (lines 165-171 and 256-262; `Intrinsic::getDeclaration`). -/
def getOrDeclare (module : Module) (name : String) : Module :=
  match module.getFunction name with
  | some _ => module
  | none => (module.add ⟨name, ExternalLinkage, .func .declaration⟩).2

/-- Embeds `Function::Create` of an ABI function, with its body. -/
def defineAbi (module : Module) (name : String) (f : AbiFunc) : Module :=
  (module.add ⟨name, ExternalLinkage, .func (.abi f)⟩).2

def buildCreateInstrumentFunc (T : Target) (module : Module) : Module :=
  let module := getOrDeclare module "malloc"
  let module := getOrDeclare module (memcpyName T)
  defineAbi module "axiom_create_instrument" .createInstrument

def buildGetInputFunc (module : Module) : Module :=
  defineAbi module "axiom_get_input" .getInput

def buildGetOutputFunc (module : Module) : Module :=
  defineAbi module "axiom_get_output" .getOutput

def buildGenerateFunc (module : Module) : Module :=
  defineAbi module "axiom_generate" .generate

def buildDestroyInstrumentFunc (module : Module) : Module :=
  let module := getOrDeclare module "free"
  defineAbi module "axiom_destroy_instrument" .destroyInstrument

/-- Embeds `Exporter::buildMidiPushFunc`.  The body calls `Midi::pushEvent`, which is
not in `Exporter.cpp`; it is taken to use functions the common module
already has. -/
def buildMidiPushFunc (module : Module) : Module :=
  defineAbi module "axiom_midi_push" .midiPush

def buildMidiClearFunc (module : Module) : Module :=
  defineAbi module "axiom_midi_clear" .midiClear

def buildNumWriteFunc (module : Module) : Module :=
  defineAbi module "axiom_num_write" .numWrite

def buildNumReadFunc (module : Module) : Module :=
  defineAbi module "axiom_num_read" .numRead

/-- Embeds `Exporter::buildInterfaceFunctions`, lines 152-162. -/
def buildInterfaceFunctions (T : Target) (module : Module) : Module :=
  let module := buildCreateInstrumentFunc T module
  let module := buildGetInputFunc module
  let module := buildGetOutputFunc module
  let module := buildGenerateFunc module
  let module := buildDestroyInstrumentFunc module
  let module := buildMidiPushFunc module
  let module := buildMidiClearFunc module
  let module := buildNumWriteFunc module
  buildNumReadFunc module

/-- Embeds `Exporter::Exporter`, lines 16-48: the module `export` with the common
module linked in and the interface functions built. -/
def new (T : Target) (commonModule : Module) : Module :=
  let module : Module := ⟨[], 0⟩
  let module := module.linkInModule commonModule.globals
  buildInterfaceFunctions T module

end Exporter

/-- The nine entry points of the export ABI, as `buildInterfaceFunctions`
creates them. -/
def abiFunctions : List GlobalValue :=
  [⟨"axiom_create_instrument", Linkage.ExternalLinkage, .func (.abi .createInstrument)⟩,
   ⟨"axiom_get_input", Linkage.ExternalLinkage, .func (.abi .getInput)⟩,
   ⟨"axiom_get_output", Linkage.ExternalLinkage, .func (.abi .getOutput)⟩,
   ⟨"axiom_generate", Linkage.ExternalLinkage, .func (.abi .generate)⟩,
   ⟨"axiom_destroy_instrument", Linkage.ExternalLinkage, .func (.abi .destroyInstrument)⟩,
   ⟨"axiom_midi_push", Linkage.ExternalLinkage, .func (.abi .midiPush)⟩,
   ⟨"axiom_midi_clear", Linkage.ExternalLinkage, .func (.abi .midiClear)⟩,
   ⟨"axiom_num_write", Linkage.ExternalLinkage, .func (.abi .numWrite)⟩,
   ⟨"axiom_num_read", Linkage.ExternalLinkage, .func (.abi .numRead)⟩]

def abiNames : List String := abiFunctions.map GlobalValue.name

/-- A function with a body, or a variable: not a mere declaration. -/
def GlobalValue.isDefinition (g : GlobalValue) : Bool :=
  match g.body with
  | .func .declaration => false
  | _ => true

/-- Runs `addRuntime` for each of a sequence of runtimes and export names, on one
module. -/
def Exporter.addRuntimes {R : Type} (T : Target) (ops : RuntimeOps R) :
    Module → List (R × String) → Module
  | module, [] => module
  | module, call :: rest =>
    addRuntimes T ops (Exporter.addRuntime T ops module call.1 call.2).module rest

/-- Every call of the sequence returns, with an export name that does not
start with `maxim` and that no global value of the module has yet when the
definition is created. -/
def Exporter.CleanExports {R : Type} (T : Target) (ops : RuntimeOps R) :
    Module → List (R × String) → Prop
  | _, [] => True
  | module, call :: rest =>
    (∃ definition,
      (Exporter.addRuntime T ops module call.1 call.2).outcome = .ok definition ∧
      call.2 ∉ ((Exporter.addRuntime T ops module call.1 call.2).module.globals.take
        definition).map GlobalValue.name) ∧
    startswith call.2 "maxim" = false ∧
    CleanExports T ops (Exporter.addRuntime T ops module call.1 call.2).module rest

/-- The optimizer leaves every externally linked global value in the module,
as it is.  (`Jit::optimizeModule` is not in `Exporter.cpp`.) -/
def KeepsExternal (optimizeModule : Module → Nat → Nat → Module) : Prop :=
  ∀ (M : Module) (optLevel sizeLevel : Nat) (g : GlobalValue),
    g ∈ M.globals → g.linkage = Linkage.ExternalLinkage →
    g ∈ (optimizeModule M optLevel sizeLevel).globals

/-- Global value `g` is an `ExportDefinition` global: a constant struct of seven fields. -/
def GlobalValue.isExportDefinition (g : GlobalValue) : Prop :=
  ∃ f0 f1 f2 f3 f4 f5 f6, g.body = .var true (.struct [f0, f1, f2, f3, f4, f5, f6])

/-- The module `M` is `base` and then global values of which `done` are the
definitions, none of the others bearing the name of an ABI function. -/
def Built (base : List GlobalValue) (M : Module) (done : List GlobalValue) : Prop :=
  ∃ added, M.globals = base ++ added ∧ added.filter GlobalValue.isDefinition = done ∧
    ∀ g ∈ added, g.name ∈ abiNames → g ∈ done

/-! ### The runtime, from the specification -/

/-- A field of the storage struct: the persistent state of a node or the slot
of a connection group, by identity, with its place in the struct and the
bytes of the default value of its type. -/
structure SpecField where
  identity : Nat
  offset : Nat
  size : Nat
  default : List Byte
deriving DecidableEq, Repr

/-- What the graph an editor built asks of a compile: the IO nodes, the map
from connection groups to fields, the storage struct (its fields and size),
the main class and the code fragments to link. -/
structure SpecGraph where
  input : IONode
  output : IONode
  automationNodes : List (Nat × IONode)
  groupPtrIndexes : List (Nat × Nat)
  fields : List SpecField
  sizeInBytes : Nat
  mainClass : ModuleClass
  fragments : List GlobalValue

/-- Modelled from the spec: `Runtime` and `Surface` are not in `src/`.  A
runtime is the graph as last edited, the flag `scheduleChildUpdate` raises, and
what the last compile published: the layout of the storage, the group map and
the storage bytes (spec sections 3, 4.3 and 4.4). -/
structure SpecRuntime where
  graph : SpecGraph
  needsUpdate : Bool
  liveFields : List SpecField
  liveSize : Nat
  liveIndexes : List (Nat × Nat)
  storage : Nat → Byte

/-- Modelled from the spec: step 6 of `Runtime::compile`, which is not in
`src/`: "copy byte ranges whose position/identity is preserved between old and
new layout; default-initialize all newly introduced or repositioned ranges".
The byte at `p` of the new storage is the old byte when `p` lies in a field
of the new layout that the old layout has at the same place, the byte of the
field's default value when it lies in another field, and zero between
fields. -/
def migrate (old new : List SpecField) (bytes : Nat → Byte) : Nat → Byte := fun p =>
  match new.find? (fun f => decide (f.offset ≤ p ∧ p < f.offset + f.size)) with
  | some f => if f ∈ old then bytes p else f.default.getD (p - f.offset) 0
  | none => 0

/-- Modelled from the spec: `Runtime::compile`, which is not in `src/` (spec
section 4.4): when an update is scheduled, the storage struct the graph asks
for becomes the live layout, the storage is migrated to it, the group map is
published and the fragments are linked; the main class is returned. -/
def SpecRuntime.compile (r : SpecRuntime) : SpecRuntime × ModuleClass × List GlobalValue :=
  if r.needsUpdate then
    ({ r with
        needsUpdate := false
        liveFields := r.graph.fields
        liveSize := r.graph.sizeInBytes
        liveIndexes := r.graph.groupPtrIndexes
        storage := migrate r.liveFields r.graph.fields r.storage },
      r.graph.mainClass, r.graph.fragments)
  else (r, r.graph.mainClass, [])

/-- Modelled from the spec: the operations of `Runtime` that `addRuntime`
uses, none of which is in `src/`.  `scheduleChildUpdate` requests a recompile
(spec section 4.3); the main surface shows the IO nodes of the graph, the
published group map and the live storage; the layout of the storage type is
the live layout. -/
def specOps : RuntimeOps SpecRuntime :=
  { scheduleChildUpdate := fun r => { r with needsUpdate := true }
    compile := SpecRuntime.compile
    mainSurface := fun r =>
      { input := r.graph.input
        output := r.graph.output
        automationNodes := r.graph.automationNodes
        groupPtrIndexes := r.liveIndexes
        currentPtr := r.storage }
    getStructLayout := fun r _ => ⟨r.liveSize, r.liveFields.map SpecField.offset⟩ }

/-! ### The memory image of a module -/

def Field.toVal : Field → Val
  | .int n => Val.int n
  | .global index => Val.ptr ⟨index, 0⟩

/-- The cells of consecutive pointer-width values. -/
def wordCells (T : Target) : List Val → List Cell
  | [] => []
  | v :: vs => frags v T.ptrBytes ++ wordCells T vs

def Constant.cells (T : Target) : Constant → List Cell
  | .byteArray bytes => bytes.map Cell.byte
  | .intArray ints => wordCells T (ints.map Val.int)
  | .struct fields => wordCells T (fields.map Field.toVal)
  | .other size => List.replicate size Cell.undef

def GlobalValue.block (T : Target) (g : GlobalValue) : Block :=
  match g.body with
  | .var isConstant init =>
    ⟨if isConstant then BlockKind.constant else BlockKind.global, true, init.cells T⟩
  | .func _ => ⟨BlockKind.function, true, []⟩

/-- The memory of a process that has loaded the module: block `i` is global
value `i`. -/
def Module.image (T : Target) (M : Module) : Mem := M.globals.map (GlobalValue.block T)

/-- The seven global values a successful `addRuntime` appends to the module
it has after the compile (which has `pre` global values), given their
names. -/
def emitted (T : Target) (pre : Nat) (mainClass : ModuleClass) (layout : StructLayout)
    (surface : Surface) (inputValues outputValues : List Nat)
    (n0 n1 n2 n3 n4 n5 n6 : String) : List GlobalValue :=
  [⟨n0, Linkage.PrivateLinkage, .func (.trampoline mainClass.constructor)⟩,
   ⟨n1, Linkage.PrivateLinkage, .func (.trampoline mainClass.generate)⟩,
   ⟨n2, Linkage.PrivateLinkage, .func (.trampoline mainClass.destructor)⟩,
   ⟨n3, Linkage.PrivateLinkage,
     .var true (.byteArray ((List.range layout.sizeInBytes).map surface.currentPtr))⟩,
   ⟨n4, Linkage.PrivateLinkage, .var true (.intArray inputValues)⟩,
   ⟨n5, Linkage.PrivateLinkage, .var true (.intArray outputValues)⟩,
   ⟨n6, Linkage.ExternalLinkage,
     .var true (.struct [
       .int (layout.sizeInBytes % T.modulus),
       .global (pre + 3), .global (pre + 4), .global (pre + 5),
       .global pre, .global (pre + 1), .global (pre + 2)])⟩]

/-- The field values of the definition `emitted` ends with, as the ABI
functions find them in the memory image. -/
def emittedDefinition (T : Target) (pre : Nat) (layout : StructLayout) : ExportDefinition :=
  { storageSize := layout.sizeInBytes % T.modulus
    snapshot := ⟨pre + 3, 0⟩
    inputs := ⟨pre + 4, 0⟩
    outputs := ⟨pre + 5, 0⟩
    constructor := ⟨pre, 0⟩
    generate := ⟨pre + 1, 0⟩
    destructor := ⟨pre + 2, 0⟩ }

/-- The instrument that `axiom_create_instrument` made of definition `D` in
memory `m0` is intact in memory `m`: its header holds the data and definition
pointers, its block is live, no block was added and every block of `m0` is
as it was. -/
def Intact (T : Target) (m0 : Mem) (d : Ptr) (D : ExportDefinition) (m : Mem) : Prop :=
  InstrumentAt T m ⟨m0.length, 0⟩ ⟨m0.length, sizeOf T exportInstrumentTy⟩ d ∧
  HasBlock m m0.length BlockKind.heap true (D.storageSize + sizeOf T exportInstrumentTy) ∧
  m.length = m0.length + 1 ∧
  ∀ b, b < m0.length → m[b]? = m0[b]?

/-- The number of heap blocks that were allocated and not released. -/
def outstanding (m : Mem) : Nat :=
  (m.filter fun b => b.kind = BlockKind.heap && b.live).length

/-- Number `e` is the byte offset, in `layout`, of the field `groupPtrIndexes`
assigns to the control group of `node`. -/
def IsOffsetOf (surface : Surface) (layout : StructLayout) (node : IONode) (e : Nat) : Prop :=
  ∃ group index, node.control.group = some group ∧
    surface.groupPtrIndexes.lookup group = some index ∧
    layout.memberOffsets[index]? = some e

/-! ### Example data -/

/-- A class method that writes a zero byte at the start of the storage it is
handed. -/
def demoEnv : Env :=
  ⟨fun _ arg m =>
    match arg with
    | Val.ptr p => (writeCells m p [Cell.byte 0]).getD m
    | Val.int _ => m⟩

def demoDefinition : ExportDefinition :=
  { storageSize := 3
    snapshot := ⟨3, 0⟩
    inputs := ⟨4, 0⟩
    outputs := ⟨5, 0⟩
    constructor := ⟨0, 0⟩
    generate := ⟨1, 0⟩
    destructor := ⟨2, 0⟩ }

def demoSnapshot : List Cell := [Cell.byte 7, Cell.byte 8, Cell.byte 9]

/-- Three functions, a snapshot, an input table, an output table and a
definition at block 6. -/
def demoMem : Mem :=
  [⟨BlockKind.function, true, []⟩,
   ⟨BlockKind.function, true, []⟩,
   ⟨BlockKind.function, true, []⟩,
   ⟨BlockKind.constant, true, demoSnapshot⟩,
   ⟨BlockKind.constant, true, wordCells target64 [Val.int 0, Val.int 2]⟩,
   ⟨BlockKind.constant, true, wordCells target64 [Val.int 1]⟩,
   ⟨BlockKind.constant, true, wordCells target64 demoDefinition.fields⟩]

/-- Memory `demoMem` with an instrument of the definition at block 7. -/
def demoInstrumentMem : Mem :=
  demoMem ++
    [⟨BlockKind.heap, true,
      wordCells target64 [Val.ptr ⟨7, 16⟩, Val.ptr ⟨6, 0⟩] ++ demoSnapshot⟩]

/-- A common module with one helper function and a declaration of `malloc`. -/
def demoCommon : Module :=
  ⟨[⟨"maxim.sin", Linkage.ExternalLinkage, .func (.foreign 0)⟩,
    ⟨"malloc", Linkage.ExternalLinkage, .func .declaration⟩], 0⟩

/-- A main surface with one automation node; the three control groups 10, 11
and 12 are fields 0, 1 and 2 of the storage struct. -/
def demoSurface : Surface :=
  { input := ⟨⟨some 10⟩⟩
    output := ⟨⟨some 11⟩⟩
    automationNodes := [(0, ⟨⟨some 12⟩⟩)]
    groupPtrIndexes := [(10, 0), (11, 1), (12, 2)]
    currentPtr := fun i => if i < 6 then 7 else 0 }

def demoClass : ModuleClass := ⟨100, 101, 102, 0⟩

def demoLayout : StructLayout := ⟨12, [0, 4, 8]⟩

/-- A runtime without state: compiling yields `demoClass` and one fragment. -/
def demoOps : RuntimeOps Unit :=
  { scheduleChildUpdate := id
    compile := fun _ =>
      ((), demoClass, [⟨"maxim.node", Linkage.ExternalLinkage, .func (.foreign 1)⟩])
    mainSurface := fun _ => demoSurface
    getStructLayout := fun _ _ => demoLayout }

/-- A graph whose storage struct has a field for each of the three control
groups of `demoSurface`. -/
def demoGraph : SpecGraph :=
  { input := ⟨⟨some 10⟩⟩
    output := ⟨⟨some 11⟩⟩
    automationNodes := [(0, ⟨⟨some 12⟩⟩)]
    groupPtrIndexes := [(10, 0), (11, 1), (12, 2)]
    fields := [⟨10, 0, 4, [0, 0, 0, 0]⟩, ⟨11, 4, 4, [0, 0, 0, 0]⟩, ⟨12, 8, 4, [0, 0, 128, 63]⟩]
    sizeInBytes := 12
    mainClass := demoClass
    fragments := [] }

/-- A runtime whose last compile knew only the first field of `demoGraph`. -/
def demoSpecRuntime : SpecRuntime :=
  { graph := demoGraph
    needsUpdate := false
    liveFields := [⟨10, 0, 4, [0, 0, 0, 0]⟩]
    liveSize := 4
    liveIndexes := [(10, 0)]
    storage := fun i => if i < 4 then 9 else 5 }

/-! ### Export-time assertions -/

/-- One of the two assertions of `getIoNodeAccessor` fails for `node`: its
control has no connection group, or a group that `groupPtrIndexes` of the
surface does not have. -/
def Unresolved (surface : Surface) (node : IONode) : Prop :=
  match node.control.group with
  | none => True
  | some group => surface.groupPtrIndexes.lookup group = none

instance (surface : Surface) (node : IONode) : Decidable (Unresolved surface node) := by
  unfold Unresolved
  cases node.control.group with
  | none => exact isTrue trivial
  | some group => exact inferInstanceAs (Decidable (_ = none))

/-- The IO nodes `addRuntime` asks an accessor for: the main input, the main
output and the automation nodes. -/
def referencedNodes (surface : Surface) : List IONode :=
  surface.input :: surface.output :: surface.automationNodes.map Prod.snd

/-- The assertion of `StructLayout::getElementOffset` fails for `node`: its
control has a connection group that `groupPtrIndexes` of the surface has, with
an index that is no element of the storage struct. -/
def OutOfLayout (surface : Surface) (layout : StructLayout) (node : IONode) : Prop :=
  match node.control.group with
  | none => False
  | some group =>
    match surface.groupPtrIndexes.lookup group with
    | none => False
    | some entryIndex => layout.memberOffsets.length ≤ entryIndex

instance (surface : Surface) (layout : StructLayout) (node : IONode) :
    Decidable (OutOfLayout surface layout node) := by
  unfold OutOfLayout
  split
  · infer_instance
  · split <;> infer_instance

/-- A surface like `demoSurface` whose output group has index 7, which the
storage struct of three fields does not have. -/
def demoMisplacedSurface : Surface :=
  { demoSurface with groupPtrIndexes := [(10, 0), (11, 7), (12, 2)] }

def demoMisplacedOps : RuntimeOps Unit :=
  { demoOps with mainSurface := fun _ => demoMisplacedSurface }

/-! ### A host of the exported code -/

/-- A call of one of the five ABI functions that deal with instruments. -/
inductive AbiCall where
  | createInstrument (definition : Ptr)
  | getInput (instrument : Ptr) (inputIndex : Nat)
  | getOutput (instrument : Ptr) (outputIndex : Nat)
  | generate (instrument : Ptr)
  | destroyInstrument (instrument : Ptr)
deriving DecidableEq, Repr

/-- The instrument a call is made on. -/
def AbiCall.instrument : AbiCall → Option Ptr
  | .createInstrument _ => none
  | .getInput instrument _ => some instrument
  | .getOutput instrument _ => some instrument
  | .generate instrument => some instrument
  | .destroyInstrument instrument => some instrument

/-- A host process: its world, and the instruments `axiom_create_instrument`
returned to it that it has not destroyed. -/
structure Host where
  world : World
  instruments : List Ptr
deriving DecidableEq, Repr

/-- One call by the host.  It hands the other four functions only instruments
it holds; `none` is undefined behaviour. -/
def Host.call (T : Target) (E : Env) (h : Host) : AbiCall → Option Host
  | .createInstrument definition =>
    match axiom_create_instrument T E definition h.world with
    | some (instrument, w) => some ⟨w, instrument :: h.instruments⟩
    | none => none
  | .getInput instrument inputIndex =>
    if instrument ∈ h.instruments then
      match axiom_get_input T instrument inputIndex h.world with
      | some (_, w) => some ⟨w, h.instruments⟩
      | none => none
    else none
  | .getOutput instrument outputIndex =>
    if instrument ∈ h.instruments then
      match axiom_get_output T instrument outputIndex h.world with
      | some (_, w) => some ⟨w, h.instruments⟩
      | none => none
    else none
  | .generate instrument =>
    if instrument ∈ h.instruments then
      match axiom_generate T E instrument h.world with
      | some w => some ⟨w, h.instruments⟩
      | none => none
    else none
  | .destroyInstrument instrument =>
    if instrument ∈ h.instruments then
      match axiom_destroy_instrument T E instrument h.world with
      | some w => some ⟨w, h.instruments.filter fun i => decide (i ≠ instrument)⟩
      | none => none
    else none

/-- A sequence of calls by the host. -/
def Host.run (T : Target) (E : Env) : Host → List AbiCall → Option Host
  | h, [] => some h
  | h, c :: rest =>
    match h.call T E c with
    | some h1 => Host.run T E h1 rest
    | none => none

/-- The event is on an instrument in a block from `base` on: the allocation
or release of the block, a copy to its storage, or a call handed the pointer
to its storage. -/
def Event.OnInstrument (T : Target) (base : Nat) (ev : Event) : Prop :=
  ∃ b, base ≤ b ∧
    ((∃ size, ev = Event.malloc size ⟨b, 0⟩) ∨
     (∃ src len, ev = Event.memcpy ⟨b, sizeOf T exportInstrumentTy⟩ src len) ∨
     (∃ callee, ev = Event.call callee (Val.ptr ⟨b, sizeOf T exportInstrumentTy⟩)) ∨
     ev = Event.free ⟨b, 0⟩)

/-- What holds of a host that started in world `w0` between its calls: the
blocks of `w0` are as they were, every instrument it holds is the start of a
later block whose header has the pointer to the storage behind it, and
every event since was on such an instrument. -/
def Host.Sound (T : Target) (w0 : World) (h : Host) : Prop :=
  w0.mem.length ≤ h.world.mem.length ∧
  (∀ b, b < w0.mem.length → h.world.mem[b]? = w0.mem[b]?) ∧
  (∀ i ∈ h.instruments, i.off = 0 ∧ w0.mem.length ≤ i.block ∧
    ∃ d, InstrumentAt T h.world.mem i ⟨i.block, sizeOf T exportInstrumentTy⟩ d) ∧
  ∃ added, h.world.trace = w0.trace ++ added ∧
    ∀ ev ∈ added, Event.OnInstrument T w0.mem.length ev

/-- The memory image of the module of `Exporter.new` on `demoCommon` after
`addRuntime` of `demoOps` as `synth`: 21 blocks, the definition at block 20. -/
def demoImage : Mem :=
  (Exporter.addRuntime target64 demoOps (Exporter.new target64 demoCommon) ()
    "synth").module.image target64

/-- The block of an instrument of `synth` at block 21, after the constructor
or the generate function of `demoEnv` ran on it. -/
def demoInstrumentBlock (live : Bool) : Block :=
  ⟨BlockKind.heap, live,
    wordCells target64 [Val.ptr ⟨21, 16⟩, Val.ptr ⟨20, 0⟩] ++
      ([0, 7, 7, 7, 7, 7, 0, 0, 0, 0, 0, 0] : List Byte).map Cell.byte⟩

/-- A host on `demoImage` that created an instrument, asked for its first
input and ran it once. -/
def demoHost : Host :=
  { world :=
      { mem := demoImage ++ [demoInstrumentBlock true]
        trace := [Event.malloc 28 ⟨21, 0⟩, Event.memcpy ⟨21, 16⟩ ⟨17, 0⟩ 12,
          Event.call 14 (Val.ptr ⟨21, 16⟩), Event.call 15 (Val.ptr ⟨21, 16⟩)] }
    instruments := [⟨21, 0⟩] }

/-- Host `demoHost` after it destroyed the instrument. -/
def demoHostEnd : Host :=
  { world :=
      { mem := demoImage ++ [demoInstrumentBlock false]
        trace := [Event.malloc 28 ⟨21, 0⟩, Event.memcpy ⟨21, 16⟩ ⟨17, 0⟩ 12,
          Event.call 14 (Val.ptr ⟨21, 16⟩), Event.call 15 (Val.ptr ⟨21, 16⟩),
          Event.call 16 (Val.ptr ⟨21, 16⟩), Event.free ⟨21, 0⟩] }
    instruments := [] }

/-! ### Byte ranges -/

/-- The `n` bytes at `p` lie within the block of `p`. -/
def RangeInBlock (m : Mem) (p : Ptr) (n : Nat) : Prop :=
  ∃ blk, m[p.block]? = some blk ∧ p.off + n ≤ blk.cells.length

/-- The `n` bytes at `p` and the `k` bytes at `q` have no byte in common. -/
def RangesDisjoint (p : Ptr) (n : Nat) (q : Ptr) (k : Nat) : Prop :=
  p.block ≠ q.block ∨ p.off + n ≤ q.off ∨ q.off + k ≤ p.off

/-! ### Nodes: `Node.cpp` -/

/-- A call of one of the member functions of `Surface` that `Node.cpp` uses. -/
inductive SurfaceCall where
  | addNode (node : Nat)
  | removeNode (node : Nat)
  | scheduleGraphUpdate
deriving DecidableEq, Repr

/-- What `Node.cpp` needs of `Surface`, whose code is not in `src/`: what the
three member functions make of the state `S` of the surface they are called
on.  They are taken to leave the members of the nodes alone. -/
structure SurfaceOps (S : Type) where
  addNode : S → Nat → S
  removeNode : S → Nat → S
  scheduleGraphUpdate : S → S

def SurfaceOps.apply {S : Type} (ops : SurfaceOps S) (s : S) : SurfaceCall → S
  | .addNode node => ops.addNode s node
  | .removeNode node => ops.removeNode s node
  | .scheduleGraphUpdate => ops.scheduleGraphUpdate s

/-- Embeds the members of `Node` that `Node.cpp` names: the owning surface (by
address) and the dirty flag.  `unit` stands for the `ModuleRuntimeUnit` base
object and whatever else `Node.h` declares. -/
structure Node (U : Type) where
  _surface : Nat
  _needsCompile : Bool
  unit : U
deriving DecidableEq, Repr

/-- The objects of a runtime: nodes and surfaces by address, and the calls
made on surfaces so far, each with the surface it was made on. -/
structure NodeGraph (S U : Type) where
  nodes : Nat → Option (Node U)
  surfaces : Nat → Option S
  calls : List (Nat × SurfaceCall)

/-- A call of a member function on the surface at an address; `none` when
there is no surface there. -/
def NodeGraph.callSurface {S U : Type} (ops : SurfaceOps S) (g : NodeGraph S U)
    (surface : Nat) (c : SurfaceCall) : Option (NodeGraph S U) :=
  match g.surfaces surface with
  | some s =>
    some { g with
      surfaces := Function.update g.surfaces surface (some (ops.apply s c))
      calls := g.calls ++ [(surface, c)] }
  | none => none

/-- Embeds `Node::scheduleCompile`, lines 16-19. -/
def Node.scheduleCompile {S U : Type} (ops : SurfaceOps S) (this : Nat) (g : NodeGraph S U) :
    Option (NodeGraph S U) :=
  match g.nodes this with
  | some node =>
    let g := { g with
      nodes := Function.update g.nodes this (some { node with _needsCompile := true }) }
    g.callSurface ops node._surface .scheduleGraphUpdate
  | none => none

/-- Embeds `Node::Node`, lines 7-10, for the node object at address `this`.  `unit`
is the base object `ModuleRuntimeUnit(surface->runtime(), "node")`, and
`needsCompile` what `Node.h` initializes the flag to. -/
def Node.new {S U : Type} (ops : SurfaceOps S) (this surface : Nat) (unit : U)
    (needsCompile : Bool) (g : NodeGraph S U) : Option (NodeGraph S U) :=
  let g := { g with
    nodes := Function.update g.nodes this (some ⟨surface, needsCompile, unit⟩) }
  match g.callSurface ops surface (.addNode this) with
  | some g => Node.scheduleCompile ops this g
  | none => none

/-- Embeds `Node::remove`, lines 12-14. -/
def Node.remove {S U : Type} (ops : SurfaceOps S) (this : Nat) (g : NodeGraph S U) :
    Option (NodeGraph S U) :=
  match g.nodes this with
  | some node => g.callSurface ops node._surface (.removeNode this)
  | none => none

/-- The two operations of a node that exists. -/
inductive NodeOp where
  | scheduleCompile
  | remove
deriving DecidableEq, Repr

/-- A sequence of operations of the node at `this`. -/
def Node.run {S U : Type} (ops : SurfaceOps S) (this : Nat) :
    List NodeOp → NodeGraph S U → Option (NodeGraph S U)
  | [], g => some g
  | .scheduleCompile :: rest, g =>
    match Node.scheduleCompile ops this g with
    | some g1 => Node.run ops this rest g1
    | none => none
  | .remove :: rest, g =>
    match Node.remove ops this g with
    | some g1 => Node.run ops this rest g1
    | none => none

/-- A surface as a list of the nodes it owns and a count of the graph updates
requested of it. -/
def demoSurfaceOps : SurfaceOps (List Nat × Nat) :=
  { addNode := fun s node => (s.1 ++ [node], s.2)
    removeNode := fun s node => (s.1.filter fun n => decide (n ≠ node), s.2)
    scheduleGraphUpdate := fun s => (s.1, s.2 + 1) }

/-- One surface, at address 1, that owns the clean node at address 5. -/
def demoNodeGraph : NodeGraph (List Nat × Nat) Unit :=
  { nodes := fun a => if a = 5 then some ⟨1, false, ()⟩ else none
    surfaces := fun a => if a = 1 then some ([5], 0) else none
    calls := [] }

/-! ### Lasso selection: `SchematicCanvas.cpp` -/

/-- The loop of `std::set_symmetric_difference` while the first range starts
with `x` (and goes on with `xs`); `rest` is the loop once `x` was passed. -/
def symmetricDifferenceFrom (x : Nat) (xs : List Nat) (rest : List Nat → List Nat) :
    List Nat → List Nat
  | [] => x :: xs
  | y :: ys =>
    if x < y then x :: rest (y :: ys)
    else if y < x then y :: symmetricDifferenceFrom x xs rest ys
    else rest ys

/-- Embeds `std::set_symmetric_difference` on two ascending ranges of pointers,
its output in order: while both ranges have elements the smaller head is
copied and passed, equal heads are both passed; what is left of either range
is copied. -/
def set_symmetric_difference : List Nat → List Nat → List Nat
  | [], ys => ys
  | x :: xs, ys => symmetricDifferenceFrom x xs (set_symmetric_difference xs) ys

/-- Embeds `std::set<GridItem *>::emplace`: the elements of a set are kept
ascending and without duplicates. -/
def emplace : List Nat → Nat → List Nat
  | [], x => [x]
  | y :: ys, x =>
    if x < y then x :: y :: ys
    else if x = y then y :: ys
    else y :: emplace ys x

/-- An item of the scene: a `NodeItem`, with the `GridItem` it shows (by
address), or something else. -/
inductive SceneItem where
  | nodeItem (node : Nat)
  | other
deriving DecidableEq, Repr

/-- The loop of lines 260-265: the set of the nodes of the node items among
`selectItems`. -/
def newSelectedItems (selectItems : List SceneItem) : List Nat :=
  selectItems.foldl
    (fun set item =>
      match item with
      | .nodeItem node => emplace set node
      | .other => set)
    []

/-- A call of a member function of `GridItem` that changes the selection. -/
inductive ItemCall where
  | select (exclusive : Bool)
  | deselect
deriving DecidableEq, Repr

/-- What `mouseMoveEvent` needs of `GridItem`, whose code is not in `src/`: the
three member functions, on a state `G` of the items of the model. -/
structure GridItemOps (G : Type) where
  isSelected : G → Nat → Bool
  select : G → Nat → Bool → G
  deselect : G → Nat → G

/-- The members of `SchematicCanvas` that the lasso selection uses, with the
items of the model and the calls of `select` and `deselect` made so far.
`P` is the type of a scene position. -/
structure SchematicCanvas (G P : Type) where
  isSelecting : Bool
  selectionPoints : List P
  lastSelectedItems : List Nat
  selectionPath : List P
  selectionPathVisible : Bool
  items : G
  calls : List (Nat × ItemCall)

/-- A mouse move as `mouseMoveEvent` sees it: the scene position, whether
`QGraphicsScene::mouseMoveEvent` accepted the event, and whether the item at
the position is the selection path. -/
structure MouseMove (P : Type) where
  scenePos : P
  isAccepted : Bool
  itemAtIsSelectionPath : Bool

/-- The body of the loop of lines 271-277, on one item. -/
def toggleItem {G : Type} (ops : GridItemOps G) (st : G × List (Nat × ItemCall)) (item : Nat) :
    G × List (Nat × ItemCall) :=
  if ops.isSelected st.1 item then (ops.deselect st.1 item, st.2 ++ [(item, .deselect)])
  else (ops.select st.1 item false, st.2 ++ [(item, .select false)])

/-- Embeds `SchematicCanvas::mouseMoveEvent`, lines 238-283.  `sceneItems path` is
`items(path)` for the closed path through the given points.  The result is
the canvas and whether the event ends accepted. -/
def SchematicCanvas.mouseMoveEvent {G P : Type} (ops : GridItemOps G)
    (sceneItems : List P → List SceneItem) (c : SchematicCanvas G P) (event : MouseMove P) :
    SchematicCanvas G P × Bool :=
  if event.isAccepted && !event.itemAtIsSelectionPath then (c, true)
  else if c.isSelecting then
    let selectionPoints := c.selectionPoints ++ [event.scenePos]
    let path := selectionPoints
    let selectItems := sceneItems path
    let newSelectedItems := newSelectedItems selectItems
    let edgeItems := set_symmetric_difference c.lastSelectedItems newSelectedItems
    let st := edgeItems.foldl (toggleItem ops) (c.items, c.calls)
    ({ isSelecting := c.isSelecting
       selectionPoints := selectionPoints
       lastSelectedItems := newSelectedItems
       selectionPath := path
       selectionPathVisible := true
       items := st.1
       calls := st.2 }, true)
  else (c, false)

/-- Items whose state is the list of those selected; an exclusive `select`
deselects the others. -/
def demoItemOps : GridItemOps (List Nat) :=
  { isSelected := fun g x => decide (x ∈ g)
    select := fun g x exclusive => if exclusive then [x] else x :: g
    deselect := fun g x => g.filter fun y => decide (y ≠ x) }

/-- A canvas in the middle of a lasso selection that has items 2 and 3 under
the lasso, both selected. -/
def demoCanvas : SchematicCanvas (List Nat) Nat :=
  { isSelecting := true
    selectionPoints := [0, 1]
    lastSelectedItems := [2, 3]
    selectionPath := [0, 1]
    selectionPathVisible := true
    items := [2, 3]
    calls := [] }

/-- A scene in which every path has the node items of 5 and 3 and the path
itself under it. -/
def demoSceneItems : List Nat → List SceneItem :=
  fun _ => [.nodeItem 5, .other, .nodeItem 3, .nodeItem 5]

/-! ## Memory lemmas -/

theorem frags_length (v : Val) (k : Nat) : (frags v k).length = k := by
  simp [frags]

theorem spliceCells_length (cells : List Cell) (off : Nat) (cs : List Cell)
    (h : off + cs.length ≤ cells.length) :
    (spliceCells cells off cs).length = cells.length := by
  simp [spliceCells]; omega

theorem spliceCells_getElem? (cells : List Cell) (off : Nat) (cs : List Cell)
    (h : off + cs.length ≤ cells.length) (i : Nat) :
    (spliceCells cells off cs)[i]? =
      if i < off then cells[i]? else if i < off + cs.length then cs[i - off]? else cells[i]? := by
  unfold spliceCells
  by_cases h1 : i < off
  · have hlen : i < (List.take off cells ++ cs).length := by simp; omega
    rw [List.getElem?_append_left hlen]
    have hlen2 : i < (List.take off cells).length := by simp; omega
    rw [List.getElem?_append_left hlen2, List.getElem?_take]
    simp [h1]
  · by_cases h2 : i < off + cs.length
    · have hlen : i < (List.take off cells ++ cs).length := by simp; omega
      rw [List.getElem?_append_left hlen]
      have hlen2 : (List.take off cells).length ≤ i := by simp; omega
      rw [List.getElem?_append_right hlen2]
      have : (List.take off cells).length = off := by simp; omega
      simp [h1, h2, this]
    · have hlen : (List.take off cells ++ cs).length ≤ i := by simp; omega
      rw [List.getElem?_append_right hlen, List.getElem?_drop]
      have : (List.take off cells ++ cs).length = off + cs.length := by simp; omega
      rw [this]
      simp only [h1, h2, if_false]
      congr 1; omega

/-- The slice `readCells` returns, cell by cell. -/
theorem slice_getElem? (cells : List Cell) (off n i : Nat) :
    ((cells.drop off).take n)[i]? = if i < n then cells[off + i]? else none := by
  rw [List.getElem?_take, List.getElem?_drop]

theorem slice_congr (c1 c2 : List Cell) (off n : Nat)
    (h : ∀ i, off ≤ i → i < off + n → c1[i]? = c2[i]?) :
    (c1.drop off).take n = (c2.drop off).take n := by
  apply List.ext_getElem?
  intro i
  rw [slice_getElem?, slice_getElem?]
  by_cases hi : i < n
  · simp only [hi, if_true]; exact h (off + i) (by omega) (by omega)
  · simp [hi]

/-- Reading depends only on the block's liveness, size and the cells read. -/
theorem readCells_congr (m1 m2 : Mem) (q : Ptr) (n : Nat) (b1 b2 : Block)
    (h1 : m1[q.block]? = some b1) (h2 : m2[q.block]? = some b2)
    (hlive : b1.live = b2.live) (hlen : b1.cells.length = b2.cells.length)
    (hcells : ∀ i, q.off ≤ i → i < q.off + n → b1.cells[i]? = b2.cells[i]?) :
    readCells m1 q n = readCells m2 q n := by
  unfold readCells
  rw [h1, h2]
  simp only [hlive, hlen, slice_congr b1.cells b2.cells q.off n hcells]

theorem writeCells_eq_some (m m1 : Mem) (p : Ptr) (cs : List Cell)
    (h : writeCells m p cs = some m1) :
    ∃ b, m[p.block]? = some b ∧ b.live = true ∧ b.writable = true ∧
      p.off + cs.length ≤ b.cells.length ∧
      m1 = m.set p.block { b with cells := spliceCells b.cells p.off cs } := by
  unfold writeCells at h
  cases hb : m[p.block]? with
  | none => simp [hb] at h
  | some b =>
    simp only [hb] at h
    by_cases hc : b.live = true ∧ b.writable = true ∧ p.off + cs.length ≤ b.cells.length
    · rw [if_pos hc] at h
      exact ⟨b, rfl, hc.1, hc.2.1, hc.2.2, (Option.some.inj h).symm⟩
    · rw [if_neg hc] at h; cases h

theorem writeCells_of (m : Mem) (p : Ptr) (cs : List Cell) (b : Block)
    (hb : m[p.block]? = some b) (hlive : b.live = true) (hw : b.writable = true)
    (hlen : p.off + cs.length ≤ b.cells.length) :
    writeCells m p cs =
      some (m.set p.block { b with cells := spliceCells b.cells p.off cs }) := by
  unfold writeCells
  rw [hb]
  simp [hlive, hw, hlen]

theorem writeCells_length (m m1 : Mem) (p : Ptr) (cs : List Cell)
    (h : writeCells m p cs = some m1) : m1.length = m.length := by
  obtain ⟨b, _, _, _, _, rfl⟩ := writeCells_eq_some m m1 p cs h
  simp

theorem writeCells_other (m m1 : Mem) (p : Ptr) (cs : List Cell)
    (h : writeCells m p cs = some m1) (b : Nat) (hne : b ≠ p.block) :
    m1[b]? = m[b]? := by
  obtain ⟨blk, _, _, _, _, rfl⟩ := writeCells_eq_some m m1 p cs h
  rw [List.getElem?_set_ne (Ne.symm hne)]

/-- The block written to keeps its kind, liveness and size. -/
theorem writeCells_same (m m1 : Mem) (p : Ptr) (cs : List Cell)
    (h : writeCells m p cs = some m1) :
    ∃ b b1, m[p.block]? = some b ∧ m1[p.block]? = some b1 ∧ b1.kind = b.kind ∧
      b1.live = b.live ∧ b1.cells = spliceCells b.cells p.off cs ∧
      p.off + cs.length ≤ b.cells.length := by
  obtain ⟨b, hb, _, _, hlen, rfl⟩ := writeCells_eq_some m m1 p cs h
  have hlt : p.block < m.length := by
    rcases Nat.lt_or_ge p.block m.length with h | h
    · exact h
    · rw [List.getElem?_eq_none h] at hb; cases hb
  exact ⟨b, _, hb, List.getElem?_set_self hlt, rfl, rfl, rfl, hlen⟩

theorem writeCells_kind (m m1 : Mem) (p : Ptr) (cs : List Cell)
    (h : writeCells m p cs = some m1) (b : Nat) :
    (m1[b]?).map Block.kind = (m[b]?).map Block.kind := by
  by_cases hb : b = p.block
  · obtain ⟨blk, blk1, h0, h1, hk, _⟩ := writeCells_same m m1 p cs h
    subst hb
    rw [h0, h1]; simp [hk]
  · rw [writeCells_other m m1 p cs h b hb]

theorem readCells_writeCells_same (m m1 : Mem) (p : Ptr) (cs : List Cell)
    (h : writeCells m p cs = some m1) : readCells m1 p cs.length = some cs := by
  obtain ⟨b, b1, h0, h1, _, hlive, hcells, hlen⟩ := writeCells_same m m1 p cs h
  obtain ⟨b', hb', hl', _, _, _⟩ := writeCells_eq_some m m1 p cs h
  have hbb : b' = b := Option.some.inj (hb'.symm.trans h0)
  subst hbb
  unfold readCells
  rw [h1]
  have hl1 : b1.cells.length = b'.cells.length := by
    rw [hcells]; exact spliceCells_length _ _ _ hlen
  dsimp only
  rw [if_pos ⟨by rw [hlive]; exact hl', by omega⟩]
  congr 1
  apply List.ext_getElem?
  intro i
  rw [slice_getElem?, hcells, spliceCells_getElem? _ _ _ hlen]
  by_cases hi : i < cs.length
  · have h1 : ¬ (p.off + i < p.off) := by omega
    have h2 : p.off + i < p.off + cs.length := by omega
    simp only [hi, h1, h2, if_true, if_false]
    congr 1; omega
  · simp only [hi, if_false]
    exact (List.getElem?_eq_none (by omega)).symm

theorem readCells_writeCells_frame (m m1 : Mem) (p : Ptr) (cs : List Cell)
    (h : writeCells m p cs = some m1) (q : Ptr) (n : Nat)
    (hdisj : q.block ≠ p.block ∨ q.off + n ≤ p.off ∨ p.off + cs.length ≤ q.off) :
    readCells m1 q n = readCells m q n := by
  by_cases hb : q.block = p.block
  · obtain ⟨b, b1, h0, h1, _, hlive, hcells, hlen⟩ := writeCells_same m m1 p cs h
    rw [← hb] at h0 h1
    apply readCells_congr m1 m q n b1 b h1 h0 hlive
    · rw [hcells]; exact spliceCells_length _ _ _ hlen
    · intro i hi1 hi2
      rw [hcells, spliceCells_getElem? _ _ _ hlen]
      rcases hdisj with hd | hd | hd
      · exact absurd hb hd
      · simp [show i < p.off by omega]
      · simp [show ¬ i < p.off by omega, show ¬ i < p.off + cs.length by omega]
  · unfold readCells
    rw [writeCells_other m m1 p cs h q.block hb]

theorem loadWord_congr (T : Target) (m1 m2 : Mem) (q : Ptr)
    (h : readCells m1 q T.ptrBytes = readCells m2 q T.ptrBytes) :
    loadWord T m1 q = loadWord T m2 q := by
  unfold loadWord; rw [h]

theorem loadWord_of_readCells (T : Target) (m : Mem) (p : Ptr) (v : Val)
    (h : readCells m p T.ptrBytes = some (frags v T.ptrBytes)) :
    loadWord T m p = some v := by
  unfold loadWord
  rw [h]
  obtain ⟨k, hk⟩ : ∃ k, T.ptrBytes = k + 1 := ⟨T.ptrBytes - 1, by have := T.ptrBytes_pos; omega⟩
  have hf : frags v T.ptrBytes = Cell.frag v 0 :: (frags v T.ptrBytes).tail := by
    rw [hk]; simp [frags, List.range_succ_eq_map]
  rw [hf]
  simp only [← hf, if_true]

theorem readCells_append (m : Mem) (blk : Block) (q : Ptr) (n : Nat)
    (h : q.block < m.length) : readCells (m ++ [blk]) q n = readCells m q n := by
  unfold readCells
  rw [List.getElem?_append_left h]

theorem readCells_isSome_lt (m : Mem) (q : Ptr) (n : Nat) (cs : List Cell)
    (h : readCells m q n = some cs) : q.block < m.length := by
  rcases Nat.lt_or_ge q.block m.length with h1 | h1
  · exact h1
  · unfold readCells at h
    rw [List.getElem?_eq_none h1] at h; cases h

theorem readCells_length (m : Mem) (q : Ptr) (n : Nat) (cs : List Cell)
    (h : readCells m q n = some cs) : cs.length = n := by
  unfold readCells at h
  cases hb : m[q.block]? with
  | none => rw [hb] at h; cases h
  | some b =>
    rw [hb] at h
    dsimp only at h
    by_cases hc : b.live = true ∧ q.off + n ≤ b.cells.length
    · rw [if_pos hc] at h
      rw [← Option.some.inj h]
      simp; omega
    · rw [if_neg hc] at h; cases h

theorem loadWord_isSome_lt (T : Target) (m : Mem) (q : Ptr) (v : Val)
    (h : loadWord T m q = some v) : q.block < m.length := by
  unfold loadWord at h
  cases hr : readCells m q T.ptrBytes with
  | none => rw [hr] at h; cases h
  | some cs => exact readCells_isSome_lt m q _ cs hr

theorem loadInt_of (T : Target) (m : Mem) (p : Ptr) (n : Nat)
    (h : loadWord T m p = some (Val.int n)) : loadInt T m p = some n := by
  unfold loadInt; rw [h]

theorem loadPtr_of (T : Target) (m : Mem) (p q : Ptr)
    (h : loadWord T m p = some (Val.ptr q)) : loadPtr T m p = some q := by
  unfold loadPtr; rw [h]

theorem callPtr_of (E : Env) (f : Ptr) (arg : Val) (w : World)
    (h : IsFunction w.mem f) :
    callPtr E (Val.ptr f) arg w =
      some { mem := E.call f.block arg w.mem, trace := w.trace ++ [Event.call f.block arg] } := by
  obtain ⟨fb, fo⟩ := f
  obtain ⟨h0, hk⟩ := h
  simp only at h0 hk
  subst h0
  unfold callPtr
  cases hb : w.mem[fb]? with
  | none => rw [hb] at hk; cases hk
  | some blk =>
    rw [hb] at hk
    simp only [Option.map_some', Option.some.injEq] at hk
    simp only [hb, hk, if_true]

theorem writeCells_hasBlock (m m1 : Mem) (p : Ptr) (cs : List Cell)
    (h : writeCells m p cs = some m1) (b : Nat) (kind : BlockKind) (live : Bool) (len : Nat)
    (hb : HasBlock m b kind live len) : HasBlock m1 b kind live len := by
  obtain ⟨blk, hblk, hk, hl, hlen⟩ := hb
  by_cases hbp : b = p.block
  · obtain ⟨b0, b1, h0, h1, hk1, hl1, hc1, hfit⟩ := writeCells_same m m1 p cs h
    subst hbp
    have : b0 = blk := Option.some.inj (h0.symm.trans hblk)
    subst this
    exact ⟨b1, h1, hk1.trans hk, hl1.trans hl,
      by rw [hc1, spliceCells_length _ _ _ hfit]; exact hlen⟩
  · exact ⟨blk, by rw [writeCells_other m m1 p cs h b hbp]; exact hblk, hk, hl, hlen⟩

theorem writeCells_ok (m : Mem) (p : Ptr) (cs : List Cell) (kind : BlockKind) (len : Nat)
    (hb : HasBlock m p.block kind true len)
    (hw : kind = BlockKind.global ∨ kind = BlockKind.heap)
    (hfit : p.off + cs.length ≤ len) : ∃ m1, writeCells m p cs = some m1 := by
  obtain ⟨blk, hblk, hk, hl, hlen⟩ := hb
  refine ⟨_, writeCells_of m p cs blk hblk hl ?_ (by omega)⟩
  unfold Block.writable
  rcases hw with hw | hw <;> simp [hk, hw]

theorem loadWord_writeCells_frame (T : Target) (m m1 : Mem) (p : Ptr) (cs : List Cell)
    (h : writeCells m p cs = some m1) (q : Ptr)
    (hdisj : q.block ≠ p.block ∨ q.off + T.ptrBytes ≤ p.off ∨ p.off + cs.length ≤ q.off) :
    loadWord T m1 q = loadWord T m q :=
  loadWord_congr T m1 m q (readCells_writeCells_frame m m1 p cs h q T.ptrBytes hdisj)

theorem loadWord_writeCells_same (T : Target) (m m1 : Mem) (p : Ptr) (v : Val)
    (h : writeCells m p (frags v T.ptrBytes) = some m1) : loadWord T m1 p = some v := by
  apply loadWord_of_readCells
  have := readCells_writeCells_same m m1 p _ h
  rwa [frags_length] at this

theorem loadWord_append (T : Target) (m : Mem) (blk : Block) (q : Ptr)
    (h : q.block < m.length) : loadWord T (m ++ [blk]) q = loadWord T m q :=
  loadWord_congr T _ _ q (readCells_append m blk q T.ptrBytes h)

theorem isFunction_writeCells (m m1 : Mem) (p : Ptr) (cs : List Cell)
    (h : writeCells m p cs = some m1) (f : Ptr) (hf : IsFunction m f) : IsFunction m1 f :=
  ⟨hf.1, by rw [writeCells_kind m m1 p cs h]; exact hf.2⟩

theorem isFunction_append (m : Mem) (blk : Block) (f : Ptr) (hf : IsFunction m f) :
    IsFunction (m ++ [blk]) f := by
  refine ⟨hf.1, ?_⟩
  have hlt : f.block < m.length := by
    rcases Nat.lt_or_ge f.block m.length with h | h
    · exact h
    · have := hf.2
      rw [List.getElem?_eq_none h] at this; cases this
  rw [List.getElem?_append_left hlt]; exact hf.2

/-- Under `Env.Confined` a call leaves every read outside the handed storage
as it was. -/
theorem readCells_call_frame (E : Env) (hE : E.Confined) (f : Nat) (p : Ptr) (m : Mem)
    (q : Ptr) (n : Nat) (hdisj : q.block ≠ p.block ∨ q.off + n ≤ p.off) :
    readCells (E.call f (Val.ptr p) m) q n = readCells m q n := by
  obtain ⟨hlen, hblk⟩ := hE f p m
  cases hq : m[q.block]? with
  | none =>
    have h1 : m.length ≤ q.block := by
      rcases Nat.lt_or_ge q.block m.length with h | h
      · rw [List.getElem?_eq_getElem h] at hq; cases hq
      · exact h
    unfold readCells
    rw [hq, List.getElem?_eq_none (by omega)]
  | some blk =>
    obtain ⟨blk1, h1, _, hl, hcl, hother, hsame⟩ := hblk q.block blk hq
    apply readCells_congr _ _ q n blk1 blk h1 hq hl hcl
    intro i _ hi2
    by_cases hb : q.block = p.block
    · rcases hdisj with hd | hd
      · exact absurd hb hd
      · exact hsame hb i (by omega)
    · rw [hother hb]

theorem loadWord_call_frame (T : Target) (E : Env) (hE : E.Confined) (f : Nat) (p : Ptr)
    (m : Mem) (q : Ptr) (hdisj : q.block ≠ p.block ∨ q.off + T.ptrBytes ≤ p.off) :
    loadWord T (E.call f (Val.ptr p) m) q = loadWord T m q :=
  loadWord_congr T _ _ q (readCells_call_frame E hE f p m q T.ptrBytes hdisj)

theorem getElem?_call_frame (E : Env) (hE : E.Confined) (f : Nat) (p : Ptr) (m : Mem)
    (b : Nat) (hb : b ≠ p.block) : (E.call f (Val.ptr p) m)[b]? = m[b]? := by
  obtain ⟨hlen, hblk⟩ := hE f p m
  cases hq : m[b]? with
  | none =>
    have h1 : m.length ≤ b := by
      rcases Nat.lt_or_ge b m.length with h | h
      · rw [List.getElem?_eq_getElem h] at hq; cases hq
      · exact h
    rw [List.getElem?_eq_none (by omega)]
  | some blk =>
    obtain ⟨blk1, h1, _, _, _, hother, _⟩ := hblk b blk hq
    rw [h1, hother hb]

theorem hasBlock_call (E : Env) (hE : E.Confined) (f : Nat) (p : Ptr) (m : Mem)
    (b : Nat) (kind : BlockKind) (live : Bool) (len : Nat) (hb : HasBlock m b kind live len) :
    HasBlock (E.call f (Val.ptr p) m) b kind live len := by
  obtain ⟨blk, hblk, hk, hl, hlen⟩ := hb
  obtain ⟨blk1, h1, hk1, hl1, hc1, _, _⟩ := (hE f p m).2 b blk hblk
  exact ⟨blk1, h1, hk1.trans hk, hl1.trans hl, hc1.trans hlen⟩

theorem isFunction_call (E : Env) (hE : E.Confined) (f : Nat) (p : Ptr) (m : Mem)
    (g : Ptr) (hg : IsFunction m g) : IsFunction (E.call f (Val.ptr p) m) g := by
  refine ⟨hg.1, ?_⟩
  have h2 := hg.2
  cases hq : m[g.block]? with
  | none => rw [hq] at h2; cases h2
  | some blk =>
    rw [hq] at h2
    obtain ⟨blk1, h1, hk1, _⟩ := (hE f p m).2 g.block blk hq
    rw [h1]
    simp only [Option.map_some', Option.some.injEq] at h2 ⊢
    exact hk1.trans h2

/-! ## Running the ABI functions -/

theorem sizeOf_instrument (T : Target) : sizeOf T exportInstrumentTy = 2 * T.ptrBytes := rfl

theorem definitionAt_field (T : Target) (m : Mem) (d : Ptr) (D : ExportDefinition)
    (h : DefinitionAt T m d D) (i : Nat) (v : Val) (hv : D.fields[i]? = some v) :
    loadWord T m (structGEP T exportDefinitionTy d i) = some v := by
  have hi : i < 7 := by
    rcases Nat.lt_or_ge i 7 with h1 | h1
    · exact h1
    · rw [List.getElem?_eq_none (by simpa [ExportDefinition.fields] using h1)] at hv; cases hv
  rw [h i hi, hv]

/-- The run of `axiom_create_instrument` on a definition whose storage fits
the address space. -/
theorem create_instrument_run (T : Target) (E : Env) (w : World) (d : Ptr)
    (D : ExportDefinition) (snap : List Cell)
    (hdef : DefinitionAt T w.mem d D)
    (hsnap : readCells w.mem D.snapshot D.storageSize = some snap)
    (hctor : IsFunction w.mem D.constructor)
    (hfit : D.storageSize + sizeOf T exportInstrumentTy < T.modulus) :
    ∃ m1 : Mem,
      axiom_create_instrument T E d w =
        some (⟨w.mem.length, 0⟩,
          { mem := E.call D.constructor.block
              (Val.ptr ⟨w.mem.length, sizeOf T exportInstrumentTy⟩) m1,
            trace := w.trace ++
              [Event.malloc (D.storageSize + sizeOf T exportInstrumentTy) ⟨w.mem.length, 0⟩,
               Event.memcpy ⟨w.mem.length, sizeOf T exportInstrumentTy⟩ D.snapshot
                 D.storageSize,
               Event.call D.constructor.block
                 (Val.ptr ⟨w.mem.length, sizeOf T exportInstrumentTy⟩)] }) ∧
      Created T w.mem d D snap m1 ∧ IsFunction m1 D.constructor := by
  obtain ⟨m, tr⟩ := w
  simp only at hdef hsnap hctor ⊢
  have hk := T.ptrBytes_pos
  have hsz := sizeOf_instrument T
  -- the loads from the definition, in the memory before the call
  have hd0 : loadWord T m (structGEP T exportDefinitionTy d 0) = some (Val.int D.storageSize) :=
    definitionAt_field T m d D hdef 0 _ rfl
  have hd1 : loadWord T m (structGEP T exportDefinitionTy d 1) = some (Val.ptr D.snapshot) :=
    definitionAt_field T m d D hdef 1 _ rfl
  have hd4 : loadWord T m (structGEP T exportDefinitionTy d 4) = some (Val.ptr D.constructor) :=
    definitionAt_field T m d D hdef 4 _ rfl
  have hdlt : d.block < m.length :=
    loadWord_isSome_lt T m (structGEP T exportDefinitionTy d 0) _ hd0
  have hslt : D.snapshot.block < m.length := readCells_isSome_lt m _ _ _ hsnap
  have hsl : snap.length = D.storageSize := readCells_length m _ _ _ hsnap
  -- the allocation
  let blk0 : Block :=
    ⟨BlockKind.heap, true,
      List.replicate (D.storageSize + sizeOf T exportInstrumentTy) Cell.undef⟩
  have hb0 : HasBlock (m ++ [blk0]) m.length BlockKind.heap true
      (D.storageSize + sizeOf T exportInstrumentTy) :=
    ⟨blk0, by simp, rfl, rfl, by simp [blk0]⟩
  -- the two header stores and the copy
  obtain ⟨m2, hw2⟩ := writeCells_ok (m ++ [blk0]) ⟨m.length, 0⟩
    (frags (Val.ptr ⟨m.length, sizeOf T exportInstrumentTy⟩) T.ptrBytes) _ _ hb0 (Or.inr rfl)
    (by rw [frags_length]; simp only; omega)
  have hb2 := writeCells_hasBlock _ _ _ _ hw2 _ _ _ _ hb0
  obtain ⟨m3, hw3⟩ := writeCells_ok m2 ⟨m.length, T.ptrBytes⟩
    (frags (Val.ptr d) T.ptrBytes) _ _ hb2 (Or.inr rfl)
    (by rw [frags_length]; simp only; omega)
  have hb3 := writeCells_hasBlock _ _ _ _ hw3 _ _ _ _ hb2
  obtain ⟨m4, hw4⟩ := writeCells_ok m3 ⟨m.length, sizeOf T exportInstrumentTy⟩ snap _ _ hb3
    (Or.inr rfl) (by simp only; omega)
  have hb4 := writeCells_hasBlock _ _ _ _ hw4 _ _ _ _ hb3
  -- old blocks are untouched
  have hold : ∀ b, b < m.length → m4[b]? = m[b]? := by
    intro b hb
    rw [writeCells_other _ _ _ _ hw4 b (by simp only; omega),
      writeCells_other _ _ _ _ hw3 b (by simp only; omega),
      writeCells_other _ _ _ _ hw2 b (by simp only; omega),
      List.getElem?_append_left hb]
  have hframe : ∀ (mm : Mem) (q : Ptr), q.block < m.length →
      (∀ b, b < m.length → mm[b]? = m[b]?) → ∀ n, readCells mm q n = readCells m q n := by
    intro mm q hq hmm n
    unfold readCells
    rw [hmm q.block hq]
  have hold3 : ∀ b, b < m.length → m3[b]? = m[b]? := by
    intro b hb
    rw [writeCells_other _ _ _ _ hw3 b (by simp only; omega),
      writeCells_other _ _ _ _ hw2 b (by simp only; omega),
      List.getElem?_append_left hb]
  have hl3 : loadWord T m3 (structGEP T exportDefinitionTy d 1) = some (Val.ptr D.snapshot) := by
    exact (loadWord_congr T m3 m (structGEP T exportDefinitionTy d 1)
      (hframe m3 (structGEP T exportDefinitionTy d 1) hdlt hold3 _)).trans hd1
  have hr3 : readCells m3 D.snapshot D.storageSize = some snap := by
    rw [hframe m3 _ hslt hold3]; exact hsnap
  have hl4 : loadWord T m4 (structGEP T exportDefinitionTy d 4) =
      some (Val.ptr D.constructor) := by
    exact (loadWord_congr T m4 m (structGEP T exportDefinitionTy d 4)
      (hframe m4 (structGEP T exportDefinitionTy d 4) hdlt hold _)).trans hd4
  have hf4 : IsFunction m4 D.constructor :=
    isFunction_writeCells _ _ _ _ hw4 _ (isFunction_writeCells _ _ _ _ hw3 _
      (isFunction_writeCells _ _ _ _ hw2 _ (isFunction_append m blk0 _ hctor)))
  -- the header and the storage in the memory handed to the constructor
  have hh0 : loadWord T m4 ⟨m.length, 0⟩ =
      some (Val.ptr ⟨m.length, sizeOf T exportInstrumentTy⟩) := by
    rw [loadWord_writeCells_frame T _ _ _ _ hw4 _ (by right; left; simp only; omega),
      loadWord_writeCells_frame T _ _ _ _ hw3 _ (by right; left; simp only; omega)]
    exact loadWord_writeCells_same T _ _ _ _ hw2
  have hh1 : loadWord T m4 ⟨m.length, T.ptrBytes⟩ = some (Val.ptr d) := by
    rw [loadWord_writeCells_frame T _ _ _ _ hw4 _ (by right; left; simp only; omega)]
    exact loadWord_writeCells_same T _ _ _ _ hw3
  have hs4 : readCells m4 ⟨m.length, sizeOf T exportInstrumentTy⟩ D.storageSize = some snap := by
    have := readCells_writeCells_same _ _ _ _ hw4
    rwa [hsl] at this
  have hlen4 : m4.length = m.length + 1 := by
    rw [writeCells_length _ _ _ _ hw4, writeCells_length _ _ _ _ hw3,
      writeCells_length _ _ _ _ hw2]; simp
  refine ⟨m4, ?_, ⟨⟨?_, ?_⟩, hs4, hb4, hlen4, hold⟩, hf4⟩
  · -- the run itself
    have hmod : (D.storageSize + sizeOf T exportInstrumentTy) % T.modulus =
        D.storageSize + sizeOf T exportInstrumentTy := Nat.mod_eq_of_lt hfit
    have hgep : gepBytes T ⟨m.length, 0⟩ (sizeOf T exportInstrumentTy) =
        ⟨m.length, sizeOf T exportInstrumentTy⟩ := by
      unfold gepBytes
      simp only [Nat.zero_add]
      rw [Nat.mod_eq_of_lt (by omega)]
    have hg0 : structGEP T exportInstrumentTy ⟨m.length, 0⟩ 0 = ⟨m.length, 0⟩ := by
      simp [structGEP]
    have hg1 : structGEP T exportInstrumentTy ⟨m.length, 0⟩ 1 = ⟨m.length, T.ptrBytes⟩ := by
      simp [structGEP]
    unfold axiom_create_instrument
    simp only [loadInt_of T m _ _ hd0, malloc, hmod, hgep, hg0, hg1, storeWord, hw2, hw3,
      loadPtr_of T m3 _ _ hl3, memcpy, hr3, hw4, hl4,
      Option.bind_eq_bind, Option.some_bind, Option.pure_def, List.append_assoc,
      List.singleton_append]
    rw [callPtr_of E D.constructor _ _ hf4]
    simp only [Option.some_bind, List.append_assoc, List.cons_append, List.nil_append]
  · show loadWord T m4 (structGEP T exportInstrumentTy ⟨m.length, 0⟩ 0) = _
    have : structGEP T exportInstrumentTy ⟨m.length, 0⟩ 0 = ⟨m.length, 0⟩ := by
      simp [structGEP]
    rw [this]; exact hh0
  · show loadWord T m4 (structGEP T exportInstrumentTy ⟨m.length, 0⟩ 1) = _
    have : structGEP T exportInstrumentTy ⟨m.length, 0⟩ 1 = ⟨m.length, T.ptrBytes⟩ := by
      simp [structGEP]
    rw [this]; exact hh1

theorem gepWords_nonneg (T : Target) (p : Ptr) (i : Nat) (hi : i < 2 ^ 31)
    (hfit : p.off + i * T.ptrBytes < T.modulus) :
    gepWords T p i = ⟨p.block, p.off + i * T.ptrBytes⟩ := by
  unfold gepWords signed32
  rw [if_pos hi]
  have h1 : ((p.off : Int) + (i : Int) * (T.ptrBytes : Int)) = ((p.off + i * T.ptrBytes : Nat) : Int) := by
    push_cast; rfl
  rw [h1, Int.emod_eq_of_lt (Int.ofNat_nonneg _) (by exact_mod_cast hfit), Int.toNat_ofNat]

theorem tableAt_entry (T : Target) (m : Mem) (tab : Ptr) (entries : List Nat)
    (h : TableAt T m tab entries) (i e : Nat) (hi : i < 2 ^ 31) (he : entries[i]? = some e) :
    loadInt T m (gepWords T tab i) = some e := by
  have hlt : i < entries.length := by
    rcases Nat.lt_or_ge i entries.length with h1 | h1
    · exact h1
    · rw [List.getElem?_eq_none h1] at he; cases he
  have hk := T.ptrBytes_pos
  have hfit : tab.off + i * T.ptrBytes < T.modulus := by
    have h1 : (i + 1) * T.ptrBytes ≤ entries.length * T.ptrBytes :=
      Nat.mul_le_mul_right _ hlt
    have h2 : (i + 1) * T.ptrBytes = i * T.ptrBytes + T.ptrBytes := by ring
    have := h.1
    omega
  rw [gepWords_nonneg T tab i hi hfit]
  apply loadInt_of
  rw [h.2 i hlt, he]; rfl

theorem get_input_run (T : Target) (w : World) (instrument dataPtr d : Ptr)
    (D : ExportDefinition) (ins : List Nat) (i e : Nat)
    (hinst : InstrumentAt T w.mem instrument dataPtr d) (hdef : DefinitionAt T w.mem d D)
    (htab : TableAt T w.mem D.inputs ins) (hi : i < 2 ^ 31) (he : ins[i]? = some e) :
    axiom_get_input T instrument i w = some (gepBytes T dataPtr e, w) := by
  have hd2 : loadWord T w.mem (structGEP T exportDefinitionTy d 2) = some (Val.ptr D.inputs) :=
    definitionAt_field T w.mem d D hdef 2 _ rfl
  unfold axiom_get_input
  simp only [loadPtr_of T w.mem _ _ hinst.1, loadPtr_of T w.mem _ _ hinst.2,
    loadPtr_of T w.mem _ _ hd2, tableAt_entry T w.mem _ _ htab i e hi he,
    Option.bind_eq_bind, Option.some_bind, Option.pure_def]

theorem get_output_run (T : Target) (w : World) (instrument dataPtr d : Ptr)
    (D : ExportDefinition) (outs : List Nat) (i e : Nat)
    (hinst : InstrumentAt T w.mem instrument dataPtr d) (hdef : DefinitionAt T w.mem d D)
    (htab : TableAt T w.mem D.outputs outs) (hi : i < 2 ^ 31) (he : outs[i]? = some e) :
    axiom_get_output T instrument i w = some (gepBytes T dataPtr e, w) := by
  have hd3 : loadWord T w.mem (structGEP T exportDefinitionTy d 3) = some (Val.ptr D.outputs) :=
    definitionAt_field T w.mem d D hdef 3 _ rfl
  unfold axiom_get_output
  simp only [loadPtr_of T w.mem _ _ hinst.1, loadPtr_of T w.mem _ _ hinst.2,
    loadPtr_of T w.mem _ _ hd3, tableAt_entry T w.mem _ _ htab i e hi he,
    Option.bind_eq_bind, Option.some_bind, Option.pure_def]

theorem generate_run (T : Target) (E : Env) (w : World) (instrument dataPtr d : Ptr)
    (D : ExportDefinition)
    (hinst : InstrumentAt T w.mem instrument dataPtr d) (hdef : DefinitionAt T w.mem d D)
    (hgen : IsFunction w.mem D.generate) :
    axiom_generate T E instrument w =
      some { mem := E.call D.generate.block (Val.ptr dataPtr) w.mem,
             trace := w.trace ++ [Event.call D.generate.block (Val.ptr dataPtr)] } := by
  have hd5 : loadWord T w.mem (structGEP T exportDefinitionTy d 5) = some (Val.ptr D.generate) :=
    definitionAt_field T w.mem d D hdef 5 _ rfl
  unfold axiom_generate
  simp only [hinst.1, loadPtr_of T w.mem _ _ hinst.2, hd5,
    Option.bind_eq_bind, Option.some_bind, Option.pure_def]
  rw [callPtr_of E D.generate _ _ hgen]
  rfl

theorem free_of (p : Ptr) (w : World) (len : Nat) (hoff : p.off = 0)
    (hb : HasBlock w.mem p.block BlockKind.heap true len) :
    ∃ m1, free p w = some { mem := m1, trace := w.trace ++ [Event.free p] } ∧
      HasBlock m1 p.block BlockKind.heap false len ∧ m1.length = w.mem.length ∧
      ∀ b, b ≠ p.block → m1[b]? = w.mem[b]? := by
  obtain ⟨blk, hblk, hk, hl, hlen⟩ := hb
  have hlt : p.block < w.mem.length := by
    rcases Nat.lt_or_ge p.block w.mem.length with h | h
    · exact h
    · rw [List.getElem?_eq_none h] at hblk; cases hblk
  refine ⟨w.mem.set p.block { blk with live := false }, ?_, ?_, by simp, ?_⟩
  · unfold free
    rw [hblk]
    simp [hk, hl, hoff]
  · exact ⟨_, List.getElem?_set_self hlt, hk, rfl, hlen⟩
  · intro b hb
    rw [List.getElem?_set_ne (Ne.symm hb)]

theorem destroy_instrument_run (T : Target) (E : Env) (hE : E.Confined) (w : World)
    (instrument dataPtr d : Ptr) (D : ExportDefinition) (len : Nat)
    (hinst : InstrumentAt T w.mem instrument dataPtr d) (hdef : DefinitionAt T w.mem d D)
    (hdtor : IsFunction w.mem D.destructor) (hoff : instrument.off = 0)
    (hb : HasBlock w.mem instrument.block BlockKind.heap true len) :
    ∃ m1, axiom_destroy_instrument T E instrument w =
        some { mem := m1,
               trace := w.trace ++
                 [Event.call D.destructor.block (Val.ptr dataPtr), Event.free instrument] } ∧
      HasBlock m1 instrument.block BlockKind.heap false len ∧
      m1.length = w.mem.length ∧
      ∀ b, b ≠ instrument.block →
        m1[b]? = (E.call D.destructor.block (Val.ptr dataPtr) w.mem)[b]? := by
  have hd6 : loadWord T w.mem (structGEP T exportDefinitionTy d 6) =
      some (Val.ptr D.destructor) := definitionAt_field T w.mem d D hdef 6 _ rfl
  have hb1 := hasBlock_call E hE D.destructor.block dataPtr w.mem _ _ _ _ hb
  obtain ⟨m1, hfree, hb2, hlen, hother⟩ := free_of instrument
    { mem := E.call D.destructor.block (Val.ptr dataPtr) w.mem,
      trace := w.trace ++ [Event.call D.destructor.block (Val.ptr dataPtr)] } len hoff hb1
  refine ⟨m1, ?_, hb2, ?_, hother⟩
  · unfold axiom_destroy_instrument
    simp only [hinst.1, loadPtr_of T w.mem _ _ hinst.2, hd6,
      Option.bind_eq_bind, Option.some_bind, Option.pure_def]
    rw [callPtr_of E D.destructor _ _ hdtor]
    simp only [Option.some_bind, hfree, List.append_assoc, List.cons_append,
      List.nil_append, Option.bind_eq_bind]
  · rw [hlen]; exact (hE _ _ _).1

/-! ## The module under construction -/

theorem freshName_of_free (M : Module) (name : String) (h : name ∉ M.names) :
    (M.freshName name).1 = name := by
  unfold Module.freshName
  rw [if_neg h]

theorem add_globals (M : Module) (g : GlobalValue) :
    (M.add g).2.globals = M.globals ++ [{ g with name := (M.freshName g.name).1 }] := rfl

theorem add_fst (M : Module) (g : GlobalValue) : (M.add g).1 = M.globals.length := rfl

theorem linkInModule_globals (src : List GlobalValue) (M : Module) :
    ∃ ext, (M.linkInModule src).globals = M.globals ++ ext := by
  induction src generalizing M with
  | nil => exact ⟨[], by simp [Module.linkInModule]⟩
  | cons g rest ih =>
    obtain ⟨ext, hext⟩ := ih (M.add g).2
    refine ⟨{ g with name := (M.freshName g.name).1 } :: ext, ?_⟩
    have : M.linkInModule (g :: rest) = (M.add g).2.linkInModule rest := rfl
    rw [this, hext, add_globals]
    simp

theorem add_eq (M M1 : Module) (g : GlobalValue) (i : Nat) (h : M.add g = (i, M1)) :
    i = M.globals.length ∧
      M1.globals = M.globals ++ [{ g with name := (M.freshName g.name).1 }] := by
  have h1 := congrArg Prod.fst h
  have h2 := congrArg (fun p => p.2.globals) h
  exact ⟨h1.symm, h2.symm⟩

/-- The module a successful `addRuntime` leaves. -/
theorem addRuntime_ok {R : Type} (T : Target) (ops : RuntimeOps R) (module : Module)
    (runtime : R) (exportName : String) (definition : Nat)
    (h : (Exporter.addRuntime T ops module runtime exportName).outcome = .ok definition) :
    ∃ (inputFirst outputFirst : Nat) (inputRest : List Nat) (n0 n1 n2 n3 n4 n5 n6 : String),
      getIoNodeAccessor T
          (ops.mainSurface (ops.compile (ops.scheduleChildUpdate runtime)).1)
          (ops.getStructLayout (ops.compile (ops.scheduleChildUpdate runtime)).1
            (ops.compile (ops.scheduleChildUpdate runtime)).2.1.storageType)
          (ops.mainSurface (ops.compile (ops.scheduleChildUpdate runtime)).1).input
        = .ok inputFirst ∧
      automationAccessors T
          (ops.mainSurface (ops.compile (ops.scheduleChildUpdate runtime)).1)
          (ops.getStructLayout (ops.compile (ops.scheduleChildUpdate runtime)).1
            (ops.compile (ops.scheduleChildUpdate runtime)).2.1.storageType)
          (ops.mainSurface (ops.compile (ops.scheduleChildUpdate runtime)).1).automationNodes
        = .ok inputRest ∧
      getIoNodeAccessor T
          (ops.mainSurface (ops.compile (ops.scheduleChildUpdate runtime)).1)
          (ops.getStructLayout (ops.compile (ops.scheduleChildUpdate runtime)).1
            (ops.compile (ops.scheduleChildUpdate runtime)).2.1.storageType)
          (ops.mainSurface (ops.compile (ops.scheduleChildUpdate runtime)).1).output
        = .ok outputFirst ∧
      definition =
        (module.linkInModule (ops.compile (ops.scheduleChildUpdate runtime)).2.2).globals.length
          + 6 ∧
      (Exporter.addRuntime T ops module runtime exportName).runtime =
        (ops.compile (ops.scheduleChildUpdate runtime)).1 ∧
      (Exporter.addRuntime T ops module runtime exportName).module.globals =
        (module.linkInModule (ops.compile (ops.scheduleChildUpdate runtime)).2.2).globals ++
          emitted T
            (module.linkInModule (ops.compile (ops.scheduleChildUpdate runtime)).2.2).globals.length
            (ops.compile (ops.scheduleChildUpdate runtime)).2.1
            (ops.getStructLayout (ops.compile (ops.scheduleChildUpdate runtime)).1
              (ops.compile (ops.scheduleChildUpdate runtime)).2.1.storageType)
            (ops.mainSurface (ops.compile (ops.scheduleChildUpdate runtime)).1)
            (inputFirst :: inputRest) [outputFirst] n0 n1 n2 n3 n4 n5 n6 ∧
      (exportName ∉
          ((Exporter.addRuntime T ops module runtime exportName).module.globals.take
            definition).map GlobalValue.name → n6 = exportName) := by
  unfold Exporter.addRuntime at h ⊢
  simp only [Exporter.buildInstrumentFunc] at h ⊢
  generalize ops.compile (ops.scheduleChildUpdate runtime) = compiled at h ⊢
  obtain ⟨rt, cls, frags⟩ := compiled
  simp only at h ⊢
  generalize module.linkInModule frags = pre at h ⊢
  generalize hA0 : pre.add _ = p0 at h ⊢
  obtain ⟨i0, M0⟩ := p0
  simp only at h ⊢
  generalize hA1 : M0.add _ = p1 at h ⊢
  obtain ⟨i1, M1⟩ := p1
  simp only at h ⊢
  generalize hA2 : M1.add _ = p2 at h ⊢
  obtain ⟨i2, M2⟩ := p2
  simp only at h ⊢
  generalize hA3 : M2.add _ = p3 at h ⊢
  obtain ⟨i3, M3⟩ := p3
  simp only at h ⊢
  obtain ⟨hi0, hM0⟩ := add_eq _ _ _ _ hA0
  obtain ⟨hi1, hM1⟩ := add_eq _ _ _ _ hA1
  obtain ⟨hi2, hM2⟩ := add_eq _ _ _ _ hA2
  obtain ⟨hi3, hM3⟩ := add_eq _ _ _ _ hA3
  cases h1 : getIoNodeAccessor T (ops.mainSurface rt) (ops.getStructLayout rt cls.storageType)
      (ops.mainSurface rt).input with
  | error e => rw [h1] at h; cases h
  | ok inputFirst =>
    cases h2 : automationAccessors T (ops.mainSurface rt)
        (ops.getStructLayout rt cls.storageType) (ops.mainSurface rt).automationNodes with
    | error e => rw [h1, h2] at h; cases h
    | ok inputRest =>
      rw [h1, h2] at h
      simp only at h ⊢
      generalize hA4 : M3.add _ = p4 at h ⊢
      obtain ⟨i4, M4⟩ := p4
      simp only at h ⊢
      obtain ⟨hi4, hM4⟩ := add_eq _ _ _ _ hA4
      cases h3 : getIoNodeAccessor T (ops.mainSurface rt)
          (ops.getStructLayout rt cls.storageType) (ops.mainSurface rt).output with
      | error e => rw [h3] at h; cases h
      | ok outputFirst =>
        rw [h3] at h
        simp only at h ⊢
        generalize hA5 : M4.add _ = p5 at h ⊢
        obtain ⟨i5, M5⟩ := p5
        simp only at h ⊢
        obtain ⟨hi5, hM5⟩ := add_eq _ _ _ _ hA5
        generalize hA6 : M5.add _ = p6 at h ⊢
        obtain ⟨i6, M6⟩ := p6
        simp only at h ⊢
        obtain ⟨hi6, hM6⟩ := add_eq _ _ _ _ hA6
        simp only [Except.ok.injEq] at h
        subst h
        simp only at hM0 hM1 hM2 hM3 hM4 hM5 hM6
        have hl0 : M0.globals.length = pre.globals.length + 1 := by rw [hM0]; simp
        have hl1 : M1.globals.length = pre.globals.length + 2 := by rw [hM1]; simp [hl0]
        have hl2 : M2.globals.length = pre.globals.length + 3 := by rw [hM2]; simp [hl1]
        have hl3 : M3.globals.length = pre.globals.length + 4 := by rw [hM3]; simp [hl2]
        have hl4 : M4.globals.length = pre.globals.length + 5 := by rw [hM4]; simp [hl3]
        have hl5 : M5.globals.length = pre.globals.length + 6 := by rw [hM5]; simp [hl4]
        rw [hl0] at hi1
        rw [hl1] at hi2
        rw [hl2] at hi3
        rw [hl3] at hi4
        rw [hl4] at hi5
        rw [hl5] at hi6
        subst hi0 hi1 hi2 hi3 hi4 hi5
        refine ⟨inputFirst, outputFirst, inputRest,
          (pre.freshName (exportName ++ ".constructor")).1,
          (M0.freshName (exportName ++ ".generate")).1,
          (M1.freshName (exportName ++ ".destructor")).1,
          (M2.freshName (exportName ++ ".staticbuffer")).1,
          (M3.freshName (exportName ++ ".inputs")).1,
          (M4.freshName (exportName ++ ".outputs")).1,
          (M5.freshName exportName).1, rfl, rfl, rfl, hi6, trivial, ?_, ?_⟩
        · rw [hM6, hM5, hM4, hM3, hM2, hM1, hM0]
          simp only [emitted, List.append_assoc, List.singleton_append, List.cons_append,
            List.nil_append, StructLayout.getSizeInBytes]
        · intro hfree
          apply freshName_of_free
          intro hmem
          apply hfree
          rw [hM6, hi6, ← hl5, List.take_left' rfl]
          exact hmem

/-! ## The memory image -/

theorem wordCells_length (T : Target) (vs : List Val) :
    (wordCells T vs).length = vs.length * T.ptrBytes := by
  induction vs with
  | nil => simp [wordCells]
  | cons v vs ih => simp [wordCells, frags_length, ih]; ring

theorem wordCells_slice (T : Target) (vs : List Val) (i : Nat) (v : Val)
    (hv : vs[i]? = some v) :
    ((wordCells T vs).drop (i * T.ptrBytes)).take T.ptrBytes = frags v T.ptrBytes := by
  induction vs generalizing i with
  | nil => simp at hv
  | cons v0 rest ih =>
    cases i with
    | zero =>
      simp only [List.getElem?_cons_zero, Option.some.injEq] at hv
      subst hv
      simp only [wordCells, Nat.zero_mul, List.drop_zero]
      exact List.take_left' (frags_length _ _)
    | succ j =>
      simp only [List.getElem?_cons_succ] at hv
      have h1 : (j + 1) * T.ptrBytes = (frags v0 T.ptrBytes).length + j * T.ptrBytes := by
        rw [frags_length]; ring
      simp only [wordCells]
      rw [h1, List.drop_append]
      exact ih j hv

theorem loadWord_wordCells (T : Target) (m : Mem) (b : Nat) (blk : Block) (vs : List Val)
    (i : Nat) (v : Val) (hb : m[b]? = some blk) (hlive : blk.live = true)
    (hcells : blk.cells = wordCells T vs) (hv : vs[i]? = some v) :
    loadWord T m ⟨b, i * T.ptrBytes⟩ = some v := by
  apply loadWord_of_readCells
  have hi : i < vs.length := by
    rcases Nat.lt_or_ge i vs.length with h | h
    · exact h
    · rw [List.getElem?_eq_none h] at hv; cases hv
  unfold readCells
  simp only [hb]
  have hlen : i * T.ptrBytes + T.ptrBytes ≤ blk.cells.length := by
    rw [hcells, wordCells_length]
    have : (i + 1) * T.ptrBytes ≤ vs.length * T.ptrBytes := Nat.mul_le_mul_right _ hi
    have h2 : (i + 1) * T.ptrBytes = i * T.ptrBytes + T.ptrBytes := by ring
    omega
  rw [if_pos ⟨hlive, hlen⟩, hcells, wordCells_slice T vs i v hv]

theorem image_getElem? (T : Target) (M : Module) (i : Nat) :
    (M.image T)[i]? = (M.globals[i]?).map (GlobalValue.block T) := by
  simp [Module.image]

theorem getElem?_append_emitted (pre : List GlobalValue) (ext : List GlobalValue) (j : Nat) :
    (pre ++ ext)[pre.length + j]? = ext[j]? := by
  rw [List.getElem?_append_right (by omega)]
  congr 1; omega

/-- What the ABI functions find in the image of a module that ends with the
seven global values of a successful `addRuntime`. -/
theorem image_emitted (T : Target) (M : Module) (pre : List GlobalValue)
    (mainClass : ModuleClass) (layout : StructLayout) (surface : Surface)
    (ins outs : List Nat) (n0 n1 n2 n3 n4 n5 n6 : String)
    (hM : M.globals =
      pre ++ emitted T pre.length mainClass layout surface ins outs n0 n1 n2 n3 n4 n5 n6) :
    DefinitionAt T (M.image T) ⟨pre.length + 6, 0⟩ (emittedDefinition T pre.length layout) ∧
    readCells (M.image T) ⟨pre.length + 3, 0⟩ layout.sizeInBytes =
      some (((List.range layout.sizeInBytes).map surface.currentPtr).map Cell.byte) ∧
    IsFunction (M.image T) ⟨pre.length, 0⟩ ∧
    IsFunction (M.image T) ⟨pre.length + 1, 0⟩ ∧
    IsFunction (M.image T) ⟨pre.length + 2, 0⟩ ∧
    (∀ j, j < ins.length →
      loadWord T (M.image T) ⟨pre.length + 4, 0 + j * T.ptrBytes⟩ = (ins[j]?).map Val.int) ∧
    (∀ j, j < outs.length →
      loadWord T (M.image T) ⟨pre.length + 5, 0 + j * T.ptrBytes⟩ = (outs[j]?).map Val.int) := by
  have hg : ∀ j, (M.image T)[pre.length + j]? =
      ((emitted T pre.length mainClass layout surface ins outs n0 n1 n2 n3 n4 n5 n6)[j]?).map
        (GlobalValue.block T) := by
    intro j
    rw [image_getElem?, hM, getElem?_append_emitted]
  refine ⟨?_, ?_, ?_, ?_, ?_, ?_, ?_⟩
  · intro i hi
    have h6 := hg 6
    simp only [emitted, List.getElem?_cons_succ, List.getElem?_cons_zero, Option.map_some',
      GlobalValue.block, if_true] at h6
    have : structGEP T exportDefinitionTy ⟨pre.length + 6, 0⟩ i =
        ⟨pre.length + 6, i * T.ptrBytes⟩ := by simp [structGEP]
    rw [this]
    have hi' : i < (emittedDefinition T pre.length layout).fields.length := by
      simpa [ExportDefinition.fields] using hi
    rw [List.getElem?_eq_getElem hi']
    apply loadWord_wordCells T _ _ _ _ i _ h6 rfl rfl
    rw [← List.getElem?_eq_getElem hi']
    rfl
  · have h3 := hg 3
    simp only [emitted, List.getElem?_cons_succ, List.getElem?_cons_zero, Option.map_some',
      GlobalValue.block, if_true] at h3
    unfold readCells
    simp only [h3, Constant.cells, List.length_map, List.length_range, Nat.zero_add,
      le_refl, and_self, if_true, List.drop_zero]
    congr 1
    apply List.take_of_length_le
    simp
  · refine ⟨rfl, ?_⟩
    have h0 := hg 0
    simp only [emitted, List.getElem?_cons_zero, Option.map_some', GlobalValue.block,
      Nat.add_zero] at h0
    simp only [h0, Option.map_some']
  · refine ⟨rfl, ?_⟩
    have h1 := hg 1
    simp only [emitted, List.getElem?_cons_succ, List.getElem?_cons_zero, Option.map_some',
      GlobalValue.block] at h1
    simp only [h1, Option.map_some']
  · refine ⟨rfl, ?_⟩
    have h2 := hg 2
    simp only [emitted, List.getElem?_cons_succ, List.getElem?_cons_zero, Option.map_some',
      GlobalValue.block] at h2
    simp only [h2, Option.map_some']
  · intro j hj
    have h4 := hg 4
    simp only [emitted, List.getElem?_cons_succ, List.getElem?_cons_zero, Option.map_some',
      GlobalValue.block, if_true] at h4
    rw [Nat.zero_add, List.getElem?_eq_getElem hj]
    apply loadWord_wordCells T _ _ _ _ j _ h4 rfl rfl
    simp [List.getElem?_eq_getElem hj]
  · intro j hj
    have h5 := hg 5
    simp only [emitted, List.getElem?_cons_succ, List.getElem?_cons_zero, Option.map_some',
      GlobalValue.block, if_true] at h5
    rw [Nat.zero_add, List.getElem?_eq_getElem hj]
    apply loadWord_wordCells T _ _ _ _ j _ h5 rfl rfl
    simp [List.getElem?_eq_getElem hj]

/-! ## Instruments between calls -/

theorem readCells_of_agree (m1 m2 : Mem) (q : Ptr) (n : Nat)
    (h : m1[q.block]? = m2[q.block]?) : readCells m1 q n = readCells m2 q n := by
  unfold readCells; rw [h]

theorem created_intact (T : Target) (m0 : Mem) (d : Ptr) (D : ExportDefinition)
    (snap : List Cell) (m1 : Mem) (h : Created T m0 d D snap m1) : Intact T m0 d D m1 :=
  ⟨h.1, h.2.2.1, h.2.2.2.1, h.2.2.2.2⟩

theorem intact_definitionAt (T : Target) (m0 : Mem) (d : Ptr) (D : ExportDefinition) (m : Mem)
    (h : Intact T m0 d D m) (hdef : DefinitionAt T m0 d D) : DefinitionAt T m d D := by
  intro i hi
  have h0 := hdef i hi
  have hlt : d.block < m0.length := by
    have hi' : i < D.fields.length := by simpa [ExportDefinition.fields] using hi
    rw [List.getElem?_eq_getElem hi'] at h0
    exact loadWord_isSome_lt T m0 (structGEP T exportDefinitionTy d i) _ h0
  rw [← h0]
  exact loadWord_congr T m m0 _
    (readCells_of_agree m m0 (structGEP T exportDefinitionTy d i) _ (h.2.2.2 d.block hlt))

theorem isFunction_lt (m : Mem) (f : Ptr) (hf : IsFunction m f) : f.block < m.length := by
  rcases Nat.lt_or_ge f.block m.length with h | h
  · exact h
  · have := hf.2
    rw [List.getElem?_eq_none h] at this; cases this

theorem intact_isFunction (T : Target) (m0 : Mem) (d : Ptr) (D : ExportDefinition) (m : Mem)
    (h : Intact T m0 d D m) (f : Ptr) (hf : IsFunction m0 f) : IsFunction m f :=
  ⟨hf.1, by rw [h.2.2.2 f.block (isFunction_lt m0 f hf)]; exact hf.2⟩

/-- A confined call on the storage of an intact instrument leaves it intact. -/
theorem intact_call (T : Target) (E : Env) (hE : E.Confined) (m0 : Mem) (d : Ptr)
    (D : ExportDefinition) (m : Mem) (f : Nat) (h : Intact T m0 d D m) :
    Intact T m0 d D (E.call f (Val.ptr ⟨m0.length, sizeOf T exportInstrumentTy⟩) m) := by
  obtain ⟨⟨h0, h1⟩, hb, hlen, hold⟩ := h
  have hsz := sizeOf_instrument T
  refine ⟨⟨?_, ?_⟩, hasBlock_call E hE f _ m _ _ _ _ hb, ?_, ?_⟩
  · rw [loadWord_call_frame T E hE f _ m _ (Or.inr (by simp only [structGEP]; omega))]
    exact h0
  · rw [loadWord_call_frame T E hE f _ m _ (Or.inr (by simp only [structGEP]; omega))]
    exact h1
  · rw [(hE f _ m).1, hlen]
  · intro b hblt
    rw [getElem?_call_frame E hE f _ m b (by simp only; omega)]
    exact hold b hblt

theorem outstanding_append_dead (m : Mem) (blk : Block) (h : blk.live = false) :
    outstanding (m ++ [blk]) = outstanding m := by
  simp [outstanding, List.filter_append, h]

theorem eq_append_of_agree (m0 m : Mem) (blk : Block) (hlen : m.length = m0.length + 1)
    (hold : ∀ b, b < m0.length → m[b]? = m0[b]?) (hlast : m[m0.length]? = some blk) :
    m = m0 ++ [blk] := by
  apply List.ext_getElem?
  intro i
  rcases Nat.lt_trichotomy i m0.length with h | h | h
  · rw [hold i h, List.getElem?_append_left h]
  · subst h
    rw [hlast, List.getElem?_append_right (le_refl _)]
    simp
  · rw [List.getElem?_eq_none (by omega), List.getElem?_eq_none (by simp; omega)]

theorem demoEnv_confined : demoEnv.Confined := by
  intro f p m
  show ((writeCells m p [Cell.byte 0]).getD m).length = m.length ∧
    ∀ b blk, m[b]? = some blk →
      ∃ blk1, ((writeCells m p [Cell.byte 0]).getD m)[b]? = some blk1 ∧ blk1.kind = blk.kind ∧
        blk1.live = blk.live ∧ blk1.cells.length = blk.cells.length ∧
        (b ≠ p.block → blk1 = blk) ∧
        (b = p.block → ∀ i, i < p.off → blk1.cells[i]? = blk.cells[i]?)
  cases hw : writeCells m p [Cell.byte 0] with
  | none =>
    exact ⟨rfl, fun b blk hb => ⟨blk, hb, rfl, rfl, rfl, fun _ => rfl, fun _ _ _ => rfl⟩⟩
  | some m1 =>
    refine ⟨writeCells_length m m1 p _ hw, ?_⟩
    intro b blk hb
    by_cases hbp : b = p.block
    · obtain ⟨b0, b1, h0, h1, hk, hl, hc, hfit⟩ := writeCells_same m m1 p _ hw
      subst hbp
      have : b0 = blk := Option.some.inj (h0.symm.trans hb)
      subst this
      refine ⟨b1, h1, hk, hl, by rw [hc, spliceCells_length _ _ _ hfit], fun h => absurd rfl h,
        ?_⟩
      intro _ i hi
      rw [hc, spliceCells_getElem? _ _ _ hfit, if_pos hi]
    · refine ⟨blk, ?_, rfl, rfl, rfl, fun _ => rfl, fun h => absurd h hbp⟩
      show m1[b]? = some blk
      rw [writeCells_other m m1 p _ hw b hbp]; exact hb

/-! ## The ABI functions: claims -/

/-- C1: `axiom_create_instrument` on a definition `D` held at `d` (snapshot of
`D.storageSize` readable cells `snap`, constructor field a function, storage
plus header within the address space) returns the start of a block that did
not exist before.  It allocates once, copies the snapshot once and then calls
the constructor once, on the data pointer.  In the memory `m1` handed to the
constructor the header's field 0 is the data pointer, field 1 is `d`, the
`D.storageSize` cells at the data pointer are the snapshot, and every earlier
block is untouched; the memory returned is what the constructor makes of `m1`,
and a constructor that stays within its storage leaves the header as it is. -/
theorem create_instrument_contract (T : Target) (E : Env) (w : World) (d : Ptr)
    (D : ExportDefinition) (snap : List Cell)
    (hdef : DefinitionAt T w.mem d D)
    (hsnap : readCells w.mem D.snapshot D.storageSize = some snap)
    (hctor : IsFunction w.mem D.constructor)
    (hfit : D.storageSize + sizeOf T exportInstrumentTy < T.modulus) :
    ∃ m1 : Mem,
      axiom_create_instrument T E d w =
        some (⟨w.mem.length, 0⟩,
          { mem := E.call D.constructor.block
              (Val.ptr ⟨w.mem.length, sizeOf T exportInstrumentTy⟩) m1,
            trace := w.trace ++
              [Event.malloc (D.storageSize + sizeOf T exportInstrumentTy) ⟨w.mem.length, 0⟩,
               Event.memcpy ⟨w.mem.length, sizeOf T exportInstrumentTy⟩ D.snapshot
                 D.storageSize,
               Event.call D.constructor.block
                 (Val.ptr ⟨w.mem.length, sizeOf T exportInstrumentTy⟩)] }) ∧
      w.mem[w.mem.length]? = none ∧
      Created T w.mem d D snap m1 ∧
      (E.Confined → Intact T w.mem d D
        (E.call D.constructor.block (Val.ptr ⟨w.mem.length, sizeOf T exportInstrumentTy⟩) m1)) := by
  obtain ⟨m1, hrun, hcreated, _⟩ := create_instrument_run T E w d D snap hdef hsnap hctor hfit
  exact ⟨m1, hrun, List.getElem?_eq_none (le_refl _), hcreated,
    fun hE => intact_call T E hE w.mem d D m1 _ (created_intact T w.mem d D snap m1 hcreated)⟩

theorem create_instrument_contract_witness :
    DefinitionAt target64 demoMem ⟨6, 0⟩ demoDefinition ∧
    readCells demoMem demoDefinition.snapshot demoDefinition.storageSize = some demoSnapshot ∧
    IsFunction demoMem demoDefinition.constructor ∧
    demoDefinition.storageSize + sizeOf target64 exportInstrumentTy < target64.modulus ∧
    ∃ m1 : Mem,
      axiom_create_instrument target64 demoEnv ⟨6, 0⟩ ⟨demoMem, []⟩ =
        some (⟨7, 0⟩,
          { mem := demoEnv.call 0 (Val.ptr ⟨7, 16⟩) m1,
            trace := [Event.malloc 19 ⟨7, 0⟩, Event.memcpy ⟨7, 16⟩ ⟨3, 0⟩ 3,
              Event.call 0 (Val.ptr ⟨7, 16⟩)] }) ∧
      demoMem[7]? = none ∧
      Created target64 demoMem ⟨6, 0⟩ demoDefinition demoSnapshot m1 ∧
      (demoEnv.Confined → Intact target64 demoMem ⟨6, 0⟩ demoDefinition
        (demoEnv.call 0 (Val.ptr ⟨7, 16⟩) m1)) :=
  ⟨by decide, by decide, by decide, by decide,
    create_instrument_contract target64 demoEnv ⟨demoMem, []⟩ ⟨6, 0⟩ demoDefinition
      demoSnapshot (by decide) (by decide) (by decide) (by decide)⟩

/-- C2: on an instrument with data pointer `dataPtr` and definition `d`, for
an index `i` (a non-negative `i32`), `axiom_get_input` returns `dataPtr`
advanced by entry `i` of the table the definition's field 2 points to,
`axiom_get_output` returns `dataPtr` advanced by entry `i` of the table field
3 points to, and both return the world they were given. -/
theorem get_input_output_contract (T : Target) (w : World) (instrument dataPtr d : Ptr)
    (D : ExportDefinition) (ins outs : List Nat) (i : Nat)
    (hinst : InstrumentAt T w.mem instrument dataPtr d) (hdef : DefinitionAt T w.mem d D)
    (hin : TableAt T w.mem D.inputs ins) (hout : TableAt T w.mem D.outputs outs)
    (hi : i < 2 ^ 31) :
    (∀ e, ins[i]? = some e →
      axiom_get_input T instrument i w = some (gepBytes T dataPtr e, w)) ∧
    (∀ e, outs[i]? = some e →
      axiom_get_output T instrument i w = some (gepBytes T dataPtr e, w)) :=
  ⟨fun e he => get_input_run T w instrument dataPtr d D ins i e hinst hdef hin hi he,
   fun e he => get_output_run T w instrument dataPtr d D outs i e hinst hdef hout hi he⟩

theorem get_input_output_contract_witness :
    InstrumentAt target64 demoInstrumentMem ⟨7, 0⟩ ⟨7, 16⟩ ⟨6, 0⟩ ∧
    DefinitionAt target64 demoInstrumentMem ⟨6, 0⟩ demoDefinition ∧
    TableAt target64 demoInstrumentMem demoDefinition.inputs [0, 2] ∧
    TableAt target64 demoInstrumentMem demoDefinition.outputs [1] ∧
    0 < 2 ^ 31 ∧
    axiom_get_input target64 ⟨7, 0⟩ 0 ⟨demoInstrumentMem, []⟩ =
      some (gepBytes target64 ⟨7, 16⟩ 0, ⟨demoInstrumentMem, []⟩) ∧
    axiom_get_output target64 ⟨7, 0⟩ 0 ⟨demoInstrumentMem, []⟩ =
      some (gepBytes target64 ⟨7, 16⟩ 1, ⟨demoInstrumentMem, []⟩) :=
  ⟨by decide, by decide, by decide, by decide, by decide,
    (get_input_output_contract target64 ⟨demoInstrumentMem, []⟩ ⟨7, 0⟩ ⟨7, 16⟩ ⟨6, 0⟩
      demoDefinition [0, 2] [1] 0 (by decide) (by decide) (by decide) (by decide)
      (by decide)).1 0 rfl,
    (get_input_output_contract target64 ⟨demoInstrumentMem, []⟩ ⟨7, 0⟩ ⟨7, 16⟩ ⟨6, 0⟩
      demoDefinition [0, 2] [1] 0 (by decide) (by decide) (by decide) (by decide)
      (by decide)).2 1 rfl⟩

/-- C6: with class methods that stay within the storage they are handed,
`axiom_create_instrument` followed by `axiom_destroy_instrument` on the
returned instrument does, in this order: one `malloc` (of storage size plus
header size, returning the instrument), the copy, the constructor call, the
destructor call on the data pointer, and one `free`, of the pointer `malloc`
returned.  Afterwards the block is released, no other block was added, every
earlier block is as before, and as many allocations are outstanding as
before. -/
theorem create_destroy_balanced (T : Target) (E : Env) (hE : E.Confined) (w : World) (d : Ptr)
    (D : ExportDefinition) (snap : List Cell)
    (hdef : DefinitionAt T w.mem d D)
    (hsnap : readCells w.mem D.snapshot D.storageSize = some snap)
    (hctor : IsFunction w.mem D.constructor)
    (hdtor : IsFunction w.mem D.destructor)
    (hfit : D.storageSize + sizeOf T exportInstrumentTy < T.modulus) :
    ∃ w1 w2 : World,
      axiom_create_instrument T E d w = some (⟨w.mem.length, 0⟩, w1) ∧
      axiom_destroy_instrument T E ⟨w.mem.length, 0⟩ w1 = some w2 ∧
      w2.trace = w.trace ++
        [Event.malloc (D.storageSize + sizeOf T exportInstrumentTy) ⟨w.mem.length, 0⟩,
         Event.memcpy ⟨w.mem.length, sizeOf T exportInstrumentTy⟩ D.snapshot D.storageSize,
         Event.call D.constructor.block (Val.ptr ⟨w.mem.length, sizeOf T exportInstrumentTy⟩),
         Event.call D.destructor.block (Val.ptr ⟨w.mem.length, sizeOf T exportInstrumentTy⟩),
         Event.free ⟨w.mem.length, 0⟩] ∧
      HasBlock w2.mem w.mem.length BlockKind.heap false
        (D.storageSize + sizeOf T exportInstrumentTy) ∧
      w2.mem.length = w.mem.length + 1 ∧
      (∀ b, b < w.mem.length → w2.mem[b]? = w.mem[b]?) ∧
      outstanding w2.mem = outstanding w.mem := by
  obtain ⟨m1, hrun, hcreated, _⟩ := create_instrument_run T E w d D snap hdef hsnap hctor hfit
  have hint := intact_call T E hE w.mem d D m1 D.constructor.block
    (created_intact T w.mem d D snap m1 hcreated)
  generalize hm : E.call D.constructor.block
    (Val.ptr ⟨w.mem.length, sizeOf T exportInstrumentTy⟩) m1 = mc at hrun hint
  obtain ⟨m2, hdes, hb2, hlen2, hother⟩ := destroy_instrument_run T E hE
    { mem := mc, trace := w.trace ++
        [Event.malloc (D.storageSize + sizeOf T exportInstrumentTy) ⟨w.mem.length, 0⟩,
         Event.memcpy ⟨w.mem.length, sizeOf T exportInstrumentTy⟩ D.snapshot D.storageSize,
         Event.call D.constructor.block
           (Val.ptr ⟨w.mem.length, sizeOf T exportInstrumentTy⟩)] }
    ⟨w.mem.length, 0⟩ ⟨w.mem.length, sizeOf T exportInstrumentTy⟩ d D
    (D.storageSize + sizeOf T exportInstrumentTy) hint.1
    (intact_definitionAt T w.mem d D mc hint hdef)
    (intact_isFunction T w.mem d D mc hint _ hdtor) rfl hint.2.1
  have hold : ∀ b, b < w.mem.length → m2[b]? = w.mem[b]? := by
    intro b hb
    rw [hother b (by simp only; omega),
      getElem?_call_frame E hE _ _ mc b (by simp only; omega)]
    exact hint.2.2.2 b hb
  have hlen : m2.length = w.mem.length + 1 := by
    rw [hlen2]; exact hint.2.2.1
  refine ⟨_, _, hrun, hdes, ?_, hb2, hlen, hold, ?_⟩
  · simp
  · obtain ⟨blk, hblk, _, hlive, _⟩ := hb2
    rw [eq_append_of_agree w.mem m2 blk hlen hold hblk]
    exact outstanding_append_dead w.mem blk hlive

theorem create_destroy_balanced_witness :
    demoEnv.Confined ∧
    DefinitionAt target64 demoMem ⟨6, 0⟩ demoDefinition ∧
    readCells demoMem demoDefinition.snapshot demoDefinition.storageSize = some demoSnapshot ∧
    IsFunction demoMem demoDefinition.constructor ∧
    IsFunction demoMem demoDefinition.destructor ∧
    demoDefinition.storageSize + sizeOf target64 exportInstrumentTy < target64.modulus ∧
    ∃ w1 w2 : World,
      axiom_create_instrument target64 demoEnv ⟨6, 0⟩ ⟨demoMem, []⟩ = some (⟨7, 0⟩, w1) ∧
      axiom_destroy_instrument target64 demoEnv ⟨7, 0⟩ w1 = some w2 ∧
      w2.trace =
        [Event.malloc 19 ⟨7, 0⟩, Event.memcpy ⟨7, 16⟩ ⟨3, 0⟩ 3,
         Event.call 0 (Val.ptr ⟨7, 16⟩), Event.call 2 (Val.ptr ⟨7, 16⟩),
         Event.free ⟨7, 0⟩] ∧
      HasBlock w2.mem 7 BlockKind.heap false 19 ∧
      w2.mem.length = 8 ∧
      (∀ b, b < 7 → w2.mem[b]? = demoMem[b]?) ∧
      outstanding w2.mem = outstanding demoMem :=
  ⟨demoEnv_confined, by decide, by decide, by decide, by decide, by decide,
    create_destroy_balanced target64 demoEnv demoEnv_confined ⟨demoMem, []⟩ ⟨6, 0⟩
      demoDefinition demoSnapshot (by decide) (by decide) (by decide) (by decide) (by decide)⟩

/-! ## `addRuntime`: claims -/

theorem image_length (T : Target) (M : Module) : (M.image T).length = M.globals.length := by
  simp [Module.image]

/-- C3: a successful `addRuntime` ends the module with a constant definition
whose fields are, in this order, the storage size, the address of the
snapshot (a constant byte array), of the input table and of the output table
(constant arrays of integers), and of the trampolines of the main class's
constructor, generate method and destructor.  On the memory image of that module (class
methods staying within their storage, storage plus header within the address
space) `axiom_create_instrument` on the definition makes one call, of the
constructor trampoline; `axiom_generate` on the returned instrument then makes
one call, of the generate trampoline; `axiom_destroy_instrument` then makes one
call, of the destructor trampoline; each call has the data pointer as its
argument. -/
theorem addRuntime_field_order {R : Type} (T : Target) (ops : RuntimeOps R) (module : Module)
    (runtime : R) (exportName : String) (definition : Nat) (rt : R) (mainClass : ModuleClass)
    (fragments : List GlobalValue) (layout : StructLayout) (E : Env) (trace : List Event)
    (hc : ops.compile (ops.scheduleChildUpdate runtime) = (rt, mainClass, fragments))
    (hl : ops.getStructLayout rt mainClass.storageType = layout)
    (hok : (Exporter.addRuntime T ops module runtime exportName).outcome = .ok definition)
    (hfit : layout.sizeInBytes + sizeOf T exportInstrumentTy < T.modulus)
    (hE : E.Confined) :
    ∃ (pre : Nat) (n0 n1 n2 n3 n4 n5 n6 : String) (bytes : List Byte) (ins outs : List Nat)
      (w1 w2 w3 : World),
      definition = pre + 6 ∧
      (Exporter.addRuntime T ops module runtime exportName).module.globals[definition]? =
        some ⟨n6, Linkage.ExternalLinkage,
          .var true (.struct [
            .int layout.sizeInBytes,
            .global (pre + 3), .global (pre + 4), .global (pre + 5),
            .global pre, .global (pre + 1), .global (pre + 2)])⟩ ∧
      (Exporter.addRuntime T ops module runtime exportName).module.globals[pre]? =
        some ⟨n0, Linkage.PrivateLinkage, .func (.trampoline mainClass.constructor)⟩ ∧
      (Exporter.addRuntime T ops module runtime exportName).module.globals[pre + 1]? =
        some ⟨n1, Linkage.PrivateLinkage, .func (.trampoline mainClass.generate)⟩ ∧
      (Exporter.addRuntime T ops module runtime exportName).module.globals[pre + 2]? =
        some ⟨n2, Linkage.PrivateLinkage, .func (.trampoline mainClass.destructor)⟩ ∧
      (Exporter.addRuntime T ops module runtime exportName).module.globals[pre + 3]? =
        some ⟨n3, Linkage.PrivateLinkage, .var true (.byteArray bytes)⟩ ∧
      (Exporter.addRuntime T ops module runtime exportName).module.globals[pre + 4]? =
        some ⟨n4, Linkage.PrivateLinkage, .var true (.intArray ins)⟩ ∧
      (Exporter.addRuntime T ops module runtime exportName).module.globals[pre + 5]? =
        some ⟨n5, Linkage.PrivateLinkage, .var true (.intArray outs)⟩ ∧
      axiom_create_instrument T E ⟨definition, 0⟩
          ⟨(Exporter.addRuntime T ops module runtime exportName).module.image T, trace⟩ =
        some (⟨definition + 1, 0⟩, w1) ∧
      w1.trace = trace ++
        [Event.malloc (layout.sizeInBytes + sizeOf T exportInstrumentTy) ⟨definition + 1, 0⟩,
         Event.memcpy ⟨definition + 1, sizeOf T exportInstrumentTy⟩ ⟨pre + 3, 0⟩
           layout.sizeInBytes,
         Event.call pre (Val.ptr ⟨definition + 1, sizeOf T exportInstrumentTy⟩)] ∧
      axiom_generate T E ⟨definition + 1, 0⟩ w1 = some w2 ∧
      w2.trace = w1.trace ++
        [Event.call (pre + 1) (Val.ptr ⟨definition + 1, sizeOf T exportInstrumentTy⟩)] ∧
      axiom_destroy_instrument T E ⟨definition + 1, 0⟩ w2 = some w3 ∧
      w3.trace = w2.trace ++
        [Event.call (pre + 2) (Val.ptr ⟨definition + 1, sizeOf T exportInstrumentTy⟩),
         Event.free ⟨definition + 1, 0⟩] := by
  obtain ⟨inputFirst, outputFirst, inputRest, n0, n1, n2, n3, n4, n5, n6, _, _, _, hdefn, _,
    hglobals, _⟩ := addRuntime_ok T ops module runtime exportName definition hok
  rw [hc] at hdefn hglobals
  simp only [hl] at hdefn hglobals
  generalize (Exporter.addRuntime T ops module runtime exportName).module = M at hglobals ⊢
  generalize (module.linkInModule fragments).globals = pre at hdefn hglobals
  have hmod : layout.sizeInBytes % T.modulus = layout.sizeInBytes :=
    Nat.mod_eq_of_lt (by omega)
  have hget : ∀ j, M.globals[pre.length + j]? =
      (emitted T pre.length mainClass layout (ops.mainSurface rt) (inputFirst :: inputRest)
        [outputFirst] n0 n1 n2 n3 n4 n5 n6)[j]? := by
    intro j; rw [hglobals, getElem?_append_emitted]
  obtain ⟨hdef, hsnap, hf0, hf1, hf2, _, _⟩ := image_emitted T M pre mainClass layout
    (ops.mainSurface rt) (inputFirst :: inputRest) [outputFirst] n0 n1 n2 n3 n4 n5 n6 hglobals
  subst hdefn
  have hlen : (M.image T).length = pre.length + 6 + 1 := by
    rw [image_length, hglobals]; simp [emitted]
  have hD : (emittedDefinition T pre.length layout).storageSize = layout.sizeInBytes := hmod
  -- create
  obtain ⟨m1, hrun, hcreated, _⟩ := create_instrument_run T E ⟨M.image T, trace⟩
    ⟨pre.length + 6, 0⟩ (emittedDefinition T pre.length layout) _ hdef
    (by rw [hD]; exact hsnap) hf0 (by rw [hD]; exact hfit)
  have hint1 := intact_call T E hE (M.image T) _ _ m1 pre.length
    (created_intact T _ _ _ _ m1 hcreated)
  simp only [hlen, hD] at hrun hint1
  have hi1 := hint1.1
  have hb1 := hint1.2.1
  rw [hlen] at hi1
  rw [hlen, hD] at hb1
  -- generate
  have hgen := generate_run T E
    { mem := E.call pre.length
        (Val.ptr ⟨pre.length + 6 + 1, sizeOf T exportInstrumentTy⟩) m1,
      trace := trace ++
        [Event.malloc (layout.sizeInBytes + sizeOf T exportInstrumentTy)
           ⟨pre.length + 6 + 1, 0⟩,
         Event.memcpy ⟨pre.length + 6 + 1, sizeOf T exportInstrumentTy⟩ ⟨pre.length + 3, 0⟩
           layout.sizeInBytes,
         Event.call pre.length
           (Val.ptr ⟨pre.length + 6 + 1, sizeOf T exportInstrumentTy⟩)] }
    ⟨pre.length + 6 + 1, 0⟩ ⟨pre.length + 6 + 1, sizeOf T exportInstrumentTy⟩
    ⟨pre.length + 6, 0⟩ (emittedDefinition T pre.length layout) hi1
    (intact_definitionAt T _ _ _ _ hint1 hdef) (intact_isFunction T _ _ _ _ hint1 _ hf1)
  have hint2 := intact_call T E hE (M.image T) _ _ _ (pre.length + 1) hint1
  simp only [hlen] at hint2
  have hi2 := hint2.1
  have hb2 := hint2.2.1
  rw [hlen] at hi2
  rw [hlen, hD] at hb2
  -- destroy
  obtain ⟨m3, hdes, _⟩ := destroy_instrument_run T E hE
    { mem := E.call (pre.length + 1)
        (Val.ptr ⟨pre.length + 6 + 1, sizeOf T exportInstrumentTy⟩)
        (E.call pre.length (Val.ptr ⟨pre.length + 6 + 1, sizeOf T exportInstrumentTy⟩) m1),
      trace := (trace ++
        [Event.malloc (layout.sizeInBytes + sizeOf T exportInstrumentTy)
           ⟨pre.length + 6 + 1, 0⟩,
         Event.memcpy ⟨pre.length + 6 + 1, sizeOf T exportInstrumentTy⟩ ⟨pre.length + 3, 0⟩
           layout.sizeInBytes,
         Event.call pre.length
           (Val.ptr ⟨pre.length + 6 + 1, sizeOf T exportInstrumentTy⟩)]) ++
        [Event.call (pre.length + 1)
          (Val.ptr ⟨pre.length + 6 + 1, sizeOf T exportInstrumentTy⟩)] }
    ⟨pre.length + 6 + 1, 0⟩ ⟨pre.length + 6 + 1, sizeOf T exportInstrumentTy⟩
    ⟨pre.length + 6, 0⟩ (emittedDefinition T pre.length layout)
    (layout.sizeInBytes + sizeOf T exportInstrumentTy) hi2
    (intact_definitionAt T _ _ _ _ hint2 hdef) (intact_isFunction T _ _ _ _ hint2 _ hf2) rfl
    hb2
  refine ⟨pre.length, n0, n1, n2, n3, n4, n5, n6,
    (List.range layout.sizeInBytes).map (ops.mainSurface rt).currentPtr,
    inputFirst :: inputRest, [outputFirst], _, _, _, rfl, ?_, ?_, ?_, ?_, ?_, ?_, ?_, hrun,
    rfl, hgen, rfl, hdes, rfl⟩
  · rw [hget 6]; simp [emitted, hmod]
  · have := hget 0
    rw [Nat.add_zero] at this
    rw [this]; simp [emitted]
  · rw [hget 1]; simp [emitted]
  · rw [hget 2]; simp [emitted]
  · rw [hget 3]; simp [emitted]
  · rw [hget 4]; simp [emitted]
  · rw [hget 5]; simp [emitted]

theorem addRuntime_field_order_witness :
    demoOps.compile (demoOps.scheduleChildUpdate ()) =
      ((), demoClass, [⟨"maxim.node", Linkage.ExternalLinkage, .func (.foreign 1)⟩]) ∧
    demoOps.getStructLayout () demoClass.storageType = demoLayout ∧
    (Exporter.addRuntime target64 demoOps (Exporter.new target64 demoCommon) ()
      "synth").outcome = .ok 20 ∧
    demoLayout.sizeInBytes + sizeOf target64 exportInstrumentTy < target64.modulus ∧
    demoEnv.Confined ∧
    ∃ (pre : Nat) (n0 n1 n2 n3 n4 n5 n6 : String) (bytes : List Byte) (ins outs : List Nat)
      (w1 w2 w3 : World),
      20 = pre + 6 ∧
      (Exporter.addRuntime target64 demoOps (Exporter.new target64 demoCommon) ()
          "synth").module.globals[20]? =
        some ⟨n6, Linkage.ExternalLinkage,
          .var true (.struct [
            .int demoLayout.sizeInBytes,
            .global (pre + 3), .global (pre + 4), .global (pre + 5),
            .global pre, .global (pre + 1), .global (pre + 2)])⟩ ∧
      (Exporter.addRuntime target64 demoOps (Exporter.new target64 demoCommon) ()
          "synth").module.globals[pre]? =
        some ⟨n0, Linkage.PrivateLinkage, .func (.trampoline demoClass.constructor)⟩ ∧
      (Exporter.addRuntime target64 demoOps (Exporter.new target64 demoCommon) ()
          "synth").module.globals[pre + 1]? =
        some ⟨n1, Linkage.PrivateLinkage, .func (.trampoline demoClass.generate)⟩ ∧
      (Exporter.addRuntime target64 demoOps (Exporter.new target64 demoCommon) ()
          "synth").module.globals[pre + 2]? =
        some ⟨n2, Linkage.PrivateLinkage, .func (.trampoline demoClass.destructor)⟩ ∧
      (Exporter.addRuntime target64 demoOps (Exporter.new target64 demoCommon) ()
          "synth").module.globals[pre + 3]? =
        some ⟨n3, Linkage.PrivateLinkage, .var true (.byteArray bytes)⟩ ∧
      (Exporter.addRuntime target64 demoOps (Exporter.new target64 demoCommon) ()
          "synth").module.globals[pre + 4]? =
        some ⟨n4, Linkage.PrivateLinkage, .var true (.intArray ins)⟩ ∧
      (Exporter.addRuntime target64 demoOps (Exporter.new target64 demoCommon) ()
          "synth").module.globals[pre + 5]? =
        some ⟨n5, Linkage.PrivateLinkage, .var true (.intArray outs)⟩ ∧
      axiom_create_instrument target64 demoEnv ⟨20, 0⟩
          ⟨(Exporter.addRuntime target64 demoOps (Exporter.new target64 demoCommon) ()
            "synth").module.image target64, []⟩ =
        some (⟨20 + 1, 0⟩, w1) ∧
      w1.trace = [] ++
        [Event.malloc (demoLayout.sizeInBytes + sizeOf target64 exportInstrumentTy)
           ⟨20 + 1, 0⟩,
         Event.memcpy ⟨20 + 1, sizeOf target64 exportInstrumentTy⟩ ⟨pre + 3, 0⟩
           demoLayout.sizeInBytes,
         Event.call pre (Val.ptr ⟨20 + 1, sizeOf target64 exportInstrumentTy⟩)] ∧
      axiom_generate target64 demoEnv ⟨20 + 1, 0⟩ w1 = some w2 ∧
      w2.trace = w1.trace ++
        [Event.call (pre + 1) (Val.ptr ⟨20 + 1, sizeOf target64 exportInstrumentTy⟩)] ∧
      axiom_destroy_instrument target64 demoEnv ⟨20 + 1, 0⟩ w2 = some w3 ∧
      w3.trace = w2.trace ++
        [Event.call (pre + 2) (Val.ptr ⟨20 + 1, sizeOf target64 exportInstrumentTy⟩),
         Event.free ⟨20 + 1, 0⟩] :=
  ⟨rfl, rfl, by decide, by decide, demoEnv_confined,
    addRuntime_field_order target64 demoOps (Exporter.new target64 demoCommon) () "synth" 20 ()
      demoClass [⟨"maxim.node", Linkage.ExternalLinkage, .func (.foreign 1)⟩] demoLayout
      demoEnv [] rfl rfl (by decide) (by decide) demoEnv_confined⟩

theorem getIoNodeAccessor_ok (T : Target) (surface : Surface) (layout : StructLayout)
    (node : IONode) (v : Nat) (h : getIoNodeAccessor T surface layout node = .ok v) :
    ∃ e, IsOffsetOf surface layout node e ∧ v = e % T.modulus := by
  unfold getIoNodeAccessor at h
  cases hg : node.control.group with
  | none => rw [hg] at h; cases h
  | some group =>
    rw [hg] at h
    dsimp only at h
    cases hi : surface.groupPtrIndexes.lookup group with
    | none => rw [hi] at h; cases h
    | some index =>
      rw [hi] at h
      dsimp only at h
      cases ho : layout.getElementOffset index with
      | none => rw [ho] at h; cases h
      | some offset =>
        rw [ho] at h
        dsimp only at h
        exact ⟨offset, ⟨group, index, hg, hi, ho⟩, (Except.ok.inj h).symm⟩

theorem automationAccessors_ok (T : Target) (surface : Surface) (layout : StructLayout)
    (nodes : List (Nat × IONode)) (vs : List Nat)
    (h : automationAccessors T surface layout nodes = .ok vs) :
    vs.length = nodes.length ∧
    ∀ (j : Nat) (node : IONode), (nodes.map Prod.snd)[j]? = some node →
      ∃ e, IsOffsetOf surface layout node e ∧ vs[j]? = some (e % T.modulus) := by
  induction nodes generalizing vs with
  | nil =>
    simp only [automationAccessors, Except.ok.injEq] at h
    subst h
    exact ⟨rfl, fun j node hj => by simp at hj⟩
  | cons n rest ih =>
    simp only [automationAccessors] at h
    cases h1 : getIoNodeAccessor T surface layout n.2 with
    | error e => rw [h1] at h; cases h
    | ok v =>
      rw [h1] at h
      dsimp only at h
      cases h2 : automationAccessors T surface layout rest with
      | error e => rw [h2] at h; cases h
      | ok vs1 =>
        rw [h2] at h
        dsimp only at h
        have hv := Except.ok.inj h
        subst hv
        obtain ⟨hlen, hall⟩ := ih vs1 h2
        refine ⟨by simp [hlen], ?_⟩
        intro j node hj
        cases j with
        | zero =>
          simp only [List.map_cons, List.getElem?_cons_zero, Option.some.injEq] at hj
          subst hj
          obtain ⟨e, he, hve⟩ := getIoNodeAccessor_ok T surface layout n.2 v h1
          exact ⟨e, he, by simp [hve]⟩
        | succ j =>
          simp only [List.map_cons, List.getElem?_cons_succ] at hj
          obtain ⟨e, he, hve⟩ := hall j node hj
          exact ⟨e, he, by simpa using hve⟩

theorem isOffsetOf_lt (surface : Surface) (layout : StructLayout) (node : IONode) (e m : Nat)
    (hrep : ∀ off ∈ layout.memberOffsets, off < m) (h : IsOffsetOf surface layout node e) :
    e % m = e := by
  obtain ⟨_, index, _, _, ho⟩ := h
  exact Nat.mod_eq_of_lt (hrep e (List.getElem?_mem ho))

/-- C4: a successful `addRuntime` emits a definition whose field 2 is a
constant input table with one entry more than the main surface has automation
nodes, the first for the main input node and the following ones for the
automation nodes in iteration order, and whose field 3 is a constant output
table with one entry, for the main output node.  Every entry is the byte
offset, in the layout of the compiled main class's storage struct, of the
field `groupPtrIndexes` assigns to the node's control group (the offsets of
that layout being values of the data-layout integer type). -/
theorem addRuntime_offset_tables {R : Type} (T : Target) (ops : RuntimeOps R) (module : Module)
    (runtime : R) (exportName : String) (definition : Nat) (rt : R) (mainClass : ModuleClass)
    (fragments : List GlobalValue) (layout : StructLayout)
    (hc : ops.compile (ops.scheduleChildUpdate runtime) = (rt, mainClass, fragments))
    (hl : ops.getStructLayout rt mainClass.storageType = layout)
    (hok : (Exporter.addRuntime T ops module runtime exportName).outcome = .ok definition)
    (hrep : ∀ off ∈ layout.memberOffsets, off < T.modulus) :
    ∃ (pre : Nat) (n4 n5 n6 : String) (f0 f1 f4 f5 f6 : Field) (ins outs : List Nat),
      definition = pre + 6 ∧
      (Exporter.addRuntime T ops module runtime exportName).module.globals[definition]? =
        some ⟨n6, Linkage.ExternalLinkage,
          .var true (.struct [f0, f1, .global (pre + 4), .global (pre + 5), f4, f5, f6])⟩ ∧
      (Exporter.addRuntime T ops module runtime exportName).module.globals[pre + 4]? =
        some ⟨n4, Linkage.PrivateLinkage, .var true (.intArray ins)⟩ ∧
      (Exporter.addRuntime T ops module runtime exportName).module.globals[pre + 5]? =
        some ⟨n5, Linkage.PrivateLinkage, .var true (.intArray outs)⟩ ∧
      ins.length = (ops.mainSurface rt).automationNodes.length + 1 ∧
      outs.length = 1 ∧
      (∀ (j : Nat) (node : IONode),
        ((ops.mainSurface rt).input ::
          (ops.mainSurface rt).automationNodes.map Prod.snd)[j]? = some node →
        ∃ e, IsOffsetOf (ops.mainSurface rt) layout node e ∧ ins[j]? = some e) ∧
      (∃ e, IsOffsetOf (ops.mainSurface rt) layout (ops.mainSurface rt).output e ∧
        outs[0]? = some e) := by
  obtain ⟨inputFirst, outputFirst, inputRest, n0, n1, n2, n3, n4, n5, n6, hin, hrest, hout,
    hdefn, _, hglobals, _⟩ := addRuntime_ok T ops module runtime exportName definition hok
  rw [hc] at hdefn hglobals hin hrest hout
  simp only [hl] at hdefn hglobals hin hrest hout
  generalize (Exporter.addRuntime T ops module runtime exportName).module = M at hglobals ⊢
  generalize (module.linkInModule fragments).globals = pre at hdefn hglobals
  subst hdefn
  have hget : ∀ j, M.globals[pre.length + j]? =
      (emitted T pre.length mainClass layout (ops.mainSurface rt) (inputFirst :: inputRest)
        [outputFirst] n0 n1 n2 n3 n4 n5 n6)[j]? := by
    intro j; rw [hglobals, getElem?_append_emitted]
  obtain ⟨e0, he0, hv0⟩ := getIoNodeAccessor_ok T _ _ _ _ hin
  obtain ⟨e1, he1, hv1⟩ := getIoNodeAccessor_ok T _ _ _ _ hout
  obtain ⟨hlen, hall⟩ := automationAccessors_ok T _ _ _ _ hrest
  refine ⟨pre.length, n4, n5, n6, .int (layout.sizeInBytes % T.modulus),
    .global (pre.length + 3), .global pre.length, .global (pre.length + 1),
    .global (pre.length + 2), inputFirst :: inputRest, [outputFirst], rfl,
    ?_, ?_, ?_, by simp [hlen], rfl, ?_, ?_⟩
  · rw [hget 6]; simp only [emitted, List.getElem?_cons_succ, List.getElem?_cons_zero]
  · rw [hget 4]; simp only [emitted, List.getElem?_cons_succ, List.getElem?_cons_zero]
  · rw [hget 5]; simp only [emitted, List.getElem?_cons_succ, List.getElem?_cons_zero]
  · intro j node hj
    cases j with
    | zero =>
      simp only [List.getElem?_cons_zero, Option.some.injEq] at hj
      subst hj
      exact ⟨e0, he0, by
        rw [List.getElem?_cons_zero, hv0, isOffsetOf_lt _ _ _ _ _ hrep he0]⟩
    | succ j =>
      simp only [List.getElem?_cons_succ] at hj
      obtain ⟨e, he, hve⟩ := hall j node hj
      exact ⟨e, he, by
        rw [List.getElem?_cons_succ, hve, isOffsetOf_lt _ _ _ _ _ hrep he]⟩
  · exact ⟨e1, he1, by
      rw [List.getElem?_cons_zero, hv1, isOffsetOf_lt _ _ _ _ _ hrep he1]⟩

theorem addRuntime_offset_tables_witness :
    demoOps.compile (demoOps.scheduleChildUpdate ()) =
      ((), demoClass, [⟨"maxim.node", Linkage.ExternalLinkage, .func (.foreign 1)⟩]) ∧
    demoOps.getStructLayout () demoClass.storageType = demoLayout ∧
    (Exporter.addRuntime target64 demoOps (Exporter.new target64 demoCommon) ()
      "synth").outcome = .ok 20 ∧
    (∀ off ∈ demoLayout.memberOffsets, off < target64.modulus) ∧
    ∃ (pre : Nat) (n4 n5 n6 : String) (f0 f1 f4 f5 f6 : Field) (ins outs : List Nat),
      20 = pre + 6 ∧
      (Exporter.addRuntime target64 demoOps (Exporter.new target64 demoCommon) ()
          "synth").module.globals[20]? =
        some ⟨n6, Linkage.ExternalLinkage,
          .var true (.struct [f0, f1, .global (pre + 4), .global (pre + 5), f4, f5, f6])⟩ ∧
      (Exporter.addRuntime target64 demoOps (Exporter.new target64 demoCommon) ()
          "synth").module.globals[pre + 4]? =
        some ⟨n4, Linkage.PrivateLinkage, .var true (.intArray ins)⟩ ∧
      (Exporter.addRuntime target64 demoOps (Exporter.new target64 demoCommon) ()
          "synth").module.globals[pre + 5]? =
        some ⟨n5, Linkage.PrivateLinkage, .var true (.intArray outs)⟩ ∧
      ins.length = (demoOps.mainSurface ()).automationNodes.length + 1 ∧
      outs.length = 1 ∧
      (∀ (j : Nat) (node : IONode),
        ((demoOps.mainSurface ()).input ::
          (demoOps.mainSurface ()).automationNodes.map Prod.snd)[j]? = some node →
        ∃ e, IsOffsetOf (demoOps.mainSurface ()) demoLayout node e ∧ ins[j]? = some e) ∧
      (∃ e, IsOffsetOf (demoOps.mainSurface ()) demoLayout (demoOps.mainSurface ()).output e ∧
        outs[0]? = some e) :=
  ⟨rfl, rfl, by decide, by decide,
    addRuntime_offset_tables target64 demoOps (Exporter.new target64 demoCommon) () "synth" 20
      () demoClass [⟨"maxim.node", Linkage.ExternalLinkage, .func (.foreign 1)⟩] demoLayout
      rfl rfl (by decide) (by decide)⟩

/-- C5: a successful `addRuntime` emits a definition whose field 0 is the
size in bytes of the layout of the compiled main class's storage struct (a
value of the data-layout integer type) and whose field 1 is a constant array
of exactly that many bytes, the `i`-th of which is the byte at `currentPtr() +
i` of the main surface of the runtime as the forced compile left it. -/
theorem addRuntime_snapshot {R : Type} (T : Target) (ops : RuntimeOps R) (module : Module)
    (runtime : R) (exportName : String) (definition : Nat) (rt : R) (mainClass : ModuleClass)
    (fragments : List GlobalValue) (layout : StructLayout)
    (hc : ops.compile (ops.scheduleChildUpdate runtime) = (rt, mainClass, fragments))
    (hl : ops.getStructLayout rt mainClass.storageType = layout)
    (hok : (Exporter.addRuntime T ops module runtime exportName).outcome = .ok definition)
    (hsize : layout.sizeInBytes < T.modulus) :
    ∃ (pre : Nat) (n3 n6 : String) (f2 f3 f4 f5 f6 : Field) (bytes : List Byte),
      definition = pre + 6 ∧
      (Exporter.addRuntime T ops module runtime exportName).module.globals[definition]? =
        some ⟨n6, Linkage.ExternalLinkage,
          .var true (.struct [.int layout.sizeInBytes, .global (pre + 3), f2, f3, f4, f5, f6])⟩ ∧
      (Exporter.addRuntime T ops module runtime exportName).module.globals[pre + 3]? =
        some ⟨n3, Linkage.PrivateLinkage, .var true (.byteArray bytes)⟩ ∧
      bytes.length = layout.sizeInBytes ∧
      ∀ i, i < layout.sizeInBytes → bytes[i]? = some ((ops.mainSurface rt).currentPtr i) := by
  obtain ⟨inputFirst, outputFirst, inputRest, n0, n1, n2, n3, n4, n5, n6, _, _, _,
    hdefn, _, hglobals, _⟩ := addRuntime_ok T ops module runtime exportName definition hok
  rw [hc] at hdefn hglobals
  simp only [hl] at hdefn hglobals
  generalize (Exporter.addRuntime T ops module runtime exportName).module = M at hglobals ⊢
  generalize (module.linkInModule fragments).globals = pre at hdefn hglobals
  subst hdefn
  have hget : ∀ j, M.globals[pre.length + j]? =
      (emitted T pre.length mainClass layout (ops.mainSurface rt) (inputFirst :: inputRest)
        [outputFirst] n0 n1 n2 n3 n4 n5 n6)[j]? := by
    intro j; rw [hglobals, getElem?_append_emitted]
  refine ⟨pre.length, n3, n6, .global (pre.length + 4), .global (pre.length + 5),
    .global pre.length, .global (pre.length + 1), .global (pre.length + 2),
    (List.range layout.sizeInBytes).map (ops.mainSurface rt).currentPtr, rfl, ?_, ?_,
    by simp, ?_⟩
  · rw [hget 6]
    simp only [emitted, List.getElem?_cons_succ, List.getElem?_cons_zero,
      Nat.mod_eq_of_lt hsize]
  · rw [hget 3]; simp only [emitted, List.getElem?_cons_succ, List.getElem?_cons_zero]
  · intro i hi
    rw [List.getElem?_map, List.getElem?_range hi]; rfl

theorem addRuntime_snapshot_witness :
    demoOps.compile (demoOps.scheduleChildUpdate ()) =
      ((), demoClass, [⟨"maxim.node", Linkage.ExternalLinkage, .func (.foreign 1)⟩]) ∧
    demoOps.getStructLayout () demoClass.storageType = demoLayout ∧
    (Exporter.addRuntime target64 demoOps (Exporter.new target64 demoCommon) ()
      "synth").outcome = .ok 20 ∧
    demoLayout.sizeInBytes < target64.modulus ∧
    ∃ (pre : Nat) (n3 n6 : String) (f2 f3 f4 f5 f6 : Field) (bytes : List Byte),
      20 = pre + 6 ∧
      (Exporter.addRuntime target64 demoOps (Exporter.new target64 demoCommon) ()
          "synth").module.globals[20]? =
        some ⟨n6, Linkage.ExternalLinkage,
          .var true
            (.struct [.int demoLayout.sizeInBytes, .global (pre + 3), f2, f3, f4, f5, f6])⟩ ∧
      (Exporter.addRuntime target64 demoOps (Exporter.new target64 demoCommon) ()
          "synth").module.globals[pre + 3]? =
        some ⟨n3, Linkage.PrivateLinkage, .var true (.byteArray bytes)⟩ ∧
      bytes.length = demoLayout.sizeInBytes ∧
      ∀ i, i < demoLayout.sizeInBytes →
        bytes[i]? = some ((demoOps.mainSurface ()).currentPtr i) :=
  ⟨rfl, rfl, by decide, by decide,
    addRuntime_snapshot target64 demoOps (Exporter.new target64 demoCommon) () "synth" 20
      () demoClass [⟨"maxim.node", Linkage.ExternalLinkage, .func (.foreign 1)⟩] demoLayout
      rfl rfl (by decide) (by decide)⟩

/-! ## Names and linkage -/

theorem makeUniqueName_dot (taken : List String) (base : String) (fuel u : Nat) :
    '.' ∈ (makeUniqueName taken base fuel u).1.data := by
  induction fuel generalizing u with
  | zero => simp [makeUniqueName, String.data_append]
  | succ fuel ih =>
    unfold makeUniqueName
    split
    · exact ih (u + 1)
    · simp [String.data_append]

theorem abiNames_no_dot (n : String) (h : n ∈ abiNames) : '.' ∉ n.data := by
  simp only [abiNames, abiFunctions, List.map_cons, List.map_nil, List.mem_cons,
    List.mem_singleton, List.not_mem_nil, or_false] at h
  rcases h with h | h | h | h | h | h | h | h | h <;> subst h <;> decide

theorem freshName_not_abi (M : Module) (n : String) (h : n ∉ abiNames) :
    (M.freshName n).1 ∉ abiNames := by
  unfold Module.freshName
  split
  · intro hmem
    exact abiNames_no_dot _ hmem (makeUniqueName_dot _ _ _ _)
  · exact h

theorem memcpyName_not_abi (T : Target) : Exporter.memcpyName T ∉ abiNames := by
  intro hmem
  apply abiNames_no_dot _ hmem
  simp [Exporter.memcpyName, String.data_append]

theorem built_getOrDeclare (base : List GlobalValue) (M : Module) (done : List GlobalValue)
    (n : String) (h : Built base M done) (hn : n ∉ abiNames) :
    Built base (Exporter.getOrDeclare M n) done := by
  unfold Exporter.getOrDeclare
  split
  · exact h
  · obtain ⟨added, hg, hf, hnames⟩ := h
    refine ⟨added ++ [⟨(M.freshName n).1, Linkage.ExternalLinkage, .func .declaration⟩], ?_, ?_,
      ?_⟩
    · rw [add_globals, hg, List.append_assoc]
    · rw [List.filter_append, hf]
      simp [GlobalValue.isDefinition]
    · intro g hg1 hga
      rcases List.mem_append.1 hg1 with h1 | h1
      · exact hnames g h1 hga
      · rw [List.mem_singleton] at h1
        subst h1
        exact absurd hga (freshName_not_abi M n hn)

theorem built_defineAbi (base : List GlobalValue) (M : Module) (done : List GlobalValue)
    (n : String) (f : AbiFunc) (h : Built base M done) (hbase : ∀ g ∈ base, g.name ≠ n)
    (hn : n ∈ abiNames) (hdone : ∀ g ∈ done, g.name ≠ n) :
    Built base (Exporter.defineAbi M n f)
      (done ++ [⟨n, Linkage.ExternalLinkage, .func (.abi f)⟩]) := by
  obtain ⟨added, hg, hf, hnames⟩ := h
  have hfree : n ∉ M.names := by
    intro hmem
    unfold Module.names at hmem
    rw [hg, List.map_append, List.mem_append] at hmem
    rcases hmem with h1 | h1
    · obtain ⟨g, hg1, hg2⟩ := List.mem_map.1 h1
      exact hbase g hg1 hg2
    · obtain ⟨g, hg1, hg2⟩ := List.mem_map.1 h1
      exact hdone g (hnames g hg1 (by rw [hg2]; exact hn)) hg2
  unfold Exporter.defineAbi
  refine ⟨added ++ [⟨n, Linkage.ExternalLinkage, .func (.abi f)⟩], ?_, ?_, ?_⟩
  · rw [add_globals, hg, List.append_assoc]
    simp only [freshName_of_free M n hfree]
  · rw [List.filter_append, hf]
    simp [GlobalValue.isDefinition]
  · intro g hg1 hga
    rcases List.mem_append.1 hg1 with h1 | h1
    · exact List.mem_append_left _ (hnames g h1 hga)
    · exact List.mem_append_right _ h1

/-- What `Exporter::Exporter` adds to the linked common module. -/
theorem built_new (T : Target) (commonModule : Module)
    (hfree : ∀ g ∈ ((⟨[], 0⟩ : Module).linkInModule commonModule.globals).globals,
      g.name ∉ abiNames) :
    Built ((⟨[], 0⟩ : Module).linkInModule commonModule.globals).globals
      (Exporter.new T commonModule) abiFunctions := by
  have hb : ∀ n, n ∈ abiNames →
      ∀ g ∈ ((⟨[], 0⟩ : Module).linkInModule commonModule.globals).globals, g.name ≠ n := by
    intro n hn g hg hgn
    exact hfree g hg (by rw [hgn]; exact hn)
  have h0 : Built ((⟨[], 0⟩ : Module).linkInModule commonModule.globals).globals
      ((⟨[], 0⟩ : Module).linkInModule commonModule.globals) [] :=
    ⟨[], by simp, rfl, fun g hg => by simp at hg⟩
  have h1 := built_getOrDeclare _ _ _ "malloc" h0 (by decide)
  have h2 := built_getOrDeclare _ _ _ (Exporter.memcpyName T) h1 (memcpyName_not_abi T)
  have h3 := built_defineAbi _ _ _ "axiom_create_instrument" .createInstrument h2
    (hb _ (by decide)) (by decide) (by decide)
  have h4 := built_defineAbi _ _ _ "axiom_get_input" .getInput h3
    (hb _ (by decide)) (by decide) (by decide)
  have h5 := built_defineAbi _ _ _ "axiom_get_output" .getOutput h4
    (hb _ (by decide)) (by decide) (by decide)
  have h6 := built_defineAbi _ _ _ "axiom_generate" .generate h5
    (hb _ (by decide)) (by decide) (by decide)
  have h7 := built_getOrDeclare _ _ _ "free" h6 (by decide)
  have h8 := built_defineAbi _ _ _ "axiom_destroy_instrument" .destroyInstrument h7
    (hb _ (by decide)) (by decide) (by decide)
  have h9 := built_defineAbi _ _ _ "axiom_midi_push" .midiPush h8
    (hb _ (by decide)) (by decide) (by decide)
  have h10 := built_defineAbi _ _ _ "axiom_midi_clear" .midiClear h9
    (hb _ (by decide)) (by decide) (by decide)
  have h11 := built_defineAbi _ _ _ "axiom_num_write" .numWrite h10
    (hb _ (by decide)) (by decide) (by decide)
  have h12 := built_defineAbi _ _ _ "axiom_num_read" .numRead h11
    (hb _ (by decide)) (by decide) (by decide)
  exact h12

theorem extends_add (base : List GlobalValue) (M M1 : Module) (g : GlobalValue) (i : Nat)
    (h : ∃ ext, M.globals = base ++ ext) (hA : M.add g = (i, M1)) :
    ∃ ext, M1.globals = base ++ ext := by
  obtain ⟨ext, hext⟩ := h
  obtain ⟨_, hM⟩ := add_eq _ _ _ _ hA
  exact ⟨ext ++ [{ g with name := (M.freshName g.name).1 }], by
    rw [hM, hext, List.append_assoc]⟩

theorem addRuntime_extends {R : Type} (T : Target) (ops : RuntimeOps R) (module : Module)
    (runtime : R) (exportName : String) :
    ∃ ext, (Exporter.addRuntime T ops module runtime exportName).module.globals =
      module.globals ++ ext := by
  unfold Exporter.addRuntime
  simp only [Exporter.buildInstrumentFunc]
  generalize ops.compile (ops.scheduleChildUpdate runtime) = compiled
  obtain ⟨rt, cls, frags⟩ := compiled
  simp only
  have hpre := linkInModule_globals frags module
  generalize module.linkInModule frags = pre at hpre ⊢
  generalize hA0 : pre.add _ = p0
  obtain ⟨i0, M0⟩ := p0
  simp only
  generalize hA1 : M0.add _ = p1
  obtain ⟨i1, M1⟩ := p1
  simp only
  generalize hA2 : M1.add _ = p2
  obtain ⟨i2, M2⟩ := p2
  simp only
  generalize hA3 : M2.add _ = p3
  obtain ⟨i3, M3⟩ := p3
  simp only
  have h0 := extends_add _ _ _ _ _ hpre hA0
  have h1 := extends_add _ _ _ _ _ h0 hA1
  have h2 := extends_add _ _ _ _ _ h1 hA2
  have h3 := extends_add _ _ _ _ _ h2 hA3
  cases getIoNodeAccessor T (ops.mainSurface rt) (ops.getStructLayout rt cls.storageType)
      (ops.mainSurface rt).input with
  | error e => exact h3
  | ok inputFirst =>
    cases automationAccessors T (ops.mainSurface rt)
        (ops.getStructLayout rt cls.storageType) (ops.mainSurface rt).automationNodes with
    | error e => exact h3
    | ok inputRest =>
      simp only
      generalize hA4 : M3.add _ = p4
      obtain ⟨i4, M4⟩ := p4
      simp only
      have h4 := extends_add _ _ _ _ _ h3 hA4
      cases getIoNodeAccessor T (ops.mainSurface rt)
          (ops.getStructLayout rt cls.storageType) (ops.mainSurface rt).output with
      | error e => exact h4
      | ok outputFirst =>
        simp only
        generalize hA5 : M4.add _ = p5
        obtain ⟨i5, M5⟩ := p5
        simp only
        generalize hA6 : M5.add _ = p6
        obtain ⟨i6, M6⟩ := p6
        simp only
        exact extends_add _ _ _ _ _ (extends_add _ _ _ _ _ h4 hA5) hA6

theorem addRuntimes_mem {R : Type} (T : Target) (ops : RuntimeOps R) (calls : List (R × String))
    (module : Module) (g : GlobalValue) (hg : g ∈ module.globals) :
    g ∈ (Exporter.addRuntimes T ops module calls).globals := by
  induction calls generalizing module with
  | nil => exact hg
  | cons call rest ih =>
    apply ih
    obtain ⟨ext, hext⟩ := addRuntime_extends T ops module call.1 call.2
    rw [hext]
    exact List.mem_append_left _ hg

theorem finishModule_keeps (optimizeModule : Module → Nat → Nat → Module)
    (hopt : KeepsExternal optimizeModule) (module : Module) (optLevel sizeLevel : Nat)
    (g : GlobalValue) (hg : g ∈ module.globals)
    (hl : g.linkage = Linkage.ExternalLinkage) (hn : startswith g.name "maxim" = false) :
    g ∈ (Exporter.finishModule optimizeModule module optLevel sizeLevel).globals := by
  apply hopt _ _ _ g _ hl
  unfold Exporter.finishModuleLinkage
  apply List.mem_map.2
  exact ⟨g, hg, by simp [hn]⟩

theorem emitted_definition (T : Target) (pre : Nat) (mainClass : ModuleClass)
    (layout : StructLayout) (surface : Surface) (ins outs : List Nat)
    (n0 n1 n2 n3 n4 n5 n6 : String) :
    ∃ g ∈ emitted T pre mainClass layout surface ins outs n0 n1 n2 n3 n4 n5 n6,
      g.name = n6 ∧ g.linkage = Linkage.ExternalLinkage ∧ g.isExportDefinition := by
  refine ⟨⟨n6, Linkage.ExternalLinkage,
    .var true (.struct [
      .int (layout.sizeInBytes % T.modulus),
      .global (pre + 3), .global (pre + 4), .global (pre + 5),
      .global pre, .global (pre + 1), .global (pre + 2)])⟩, ?_, rfl, rfl,
    ⟨_, _, _, _, _, _, _, rfl⟩⟩
  simp [emitted]

/-! ## The module's symbols: claims -/

/-- C8, as stated, fails: three `addRuntime` calls with the pairwise distinct
export names `synth`, `synth.inputs` and `maximal` all return, and after
`finishModule` (here with an optimizer that changes nothing) the module has no
externally linked global value named `synth.inputs` (that name went to the
input table of `synth`, so the second definition was renamed) and none named
`maximal` (the linkage loop made it private). -/
theorem exports_distinct_counterexample :
    ["synth", "synth.inputs", "maximal"].Nodup ∧
    (Exporter.addRuntime target64 demoOps (Exporter.new target64 demoCommon) ()
      "synth").outcome = .ok 20 ∧
    (Exporter.addRuntime target64 demoOps
      (Exporter.addRuntimes target64 demoOps (Exporter.new target64 demoCommon)
        [((), "synth")]) () "synth.inputs").outcome = .ok 28 ∧
    (Exporter.addRuntime target64 demoOps
      (Exporter.addRuntimes target64 demoOps (Exporter.new target64 demoCommon)
        [((), "synth"), ((), "synth.inputs")]) () "maximal").outcome = .ok 36 ∧
    (¬ ∃ g ∈ (Exporter.finishModule (fun M _ _ => M)
        (Exporter.addRuntimes target64 demoOps (Exporter.new target64 demoCommon)
          [((), "synth"), ((), "synth.inputs"), ((), "maximal")]) 0 0).globals,
      g.name = "synth.inputs" ∧ g.linkage = Linkage.ExternalLinkage) ∧
    (¬ ∃ g ∈ (Exporter.finishModule (fun M _ _ => M)
        (Exporter.addRuntimes target64 demoOps (Exporter.new target64 demoCommon)
          [((), "synth"), ((), "synth.inputs"), ((), "maximal")]) 0 0).globals,
      g.name = "maximal" ∧ g.linkage = Linkage.ExternalLinkage) := by
  decide

/-- C8, amended: when every `addRuntime` call of a sequence returns, with an
export name that does not start with `maxim` and that no global value of the
module bears yet when the definition is created, then after `finishModule`
(with an optimizer that keeps externally linked global values) the module
has, for each export name, a constant `ExportDefinition` global with exactly
that name and external linkage. -/
theorem exports_distinct_definitions {R : Type} (T : Target) (ops : RuntimeOps R)
    (module : Module) (calls : List (R × String))
    (optimizeModule : Module → Nat → Nat → Module) (optLevel sizeLevel : Nat)
    (hclean : Exporter.CleanExports T ops module calls)
    (hopt : KeepsExternal optimizeModule) :
    ∀ call ∈ calls,
      ∃ g ∈ (Exporter.finishModule optimizeModule
          (Exporter.addRuntimes T ops module calls) optLevel sizeLevel).globals,
        g.name = call.2 ∧ g.linkage = Linkage.ExternalLinkage ∧ g.isExportDefinition := by
  induction calls generalizing module with
  | nil => intro call hcall; simp at hcall
  | cons first rest ih =>
    obtain ⟨⟨definition, hok, hfree⟩, hmaxim, hrest⟩ := hclean
    intro call hcall
    rcases List.mem_cons.1 hcall with hc | hc
    · subst hc
      obtain ⟨inputFirst, outputFirst, inputRest, n0, n1, n2, n3, n4, n5, n6, _, _, _, _, _,
        hglobals, hname⟩ := addRuntime_ok T ops module call.1 call.2 definition hok
      have hn6 := hname hfree
      obtain ⟨g, hg, hgn, hgl, hgd⟩ := emitted_definition T
        (module.linkInModule (ops.compile (ops.scheduleChildUpdate call.1)).2.2).globals.length
        (ops.compile (ops.scheduleChildUpdate call.1)).2.1
        (ops.getStructLayout (ops.compile (ops.scheduleChildUpdate call.1)).1
          (ops.compile (ops.scheduleChildUpdate call.1)).2.1.storageType)
        (ops.mainSurface (ops.compile (ops.scheduleChildUpdate call.1)).1)
        (inputFirst :: inputRest) [outputFirst] n0 n1 n2 n3 n4 n5 n6
      refine ⟨g, ?_, hgn.trans hn6, hgl, hgd⟩
      exact finishModule_keeps optimizeModule hopt
        (Exporter.addRuntimes T ops (Exporter.addRuntime T ops module call.1 call.2).module rest)
        _ _ g
        (addRuntimes_mem T ops rest _ g (by rw [hglobals]; exact List.mem_append_right _ hg))
        hgl (by rw [hgn, hn6]; exact hmaxim)
    · exact ih _ hrest call hc

theorem exports_distinct_definitions_witness :
    Exporter.CleanExports target64 demoOps (Exporter.new target64 demoCommon)
      [((), "synth"), ((), "drums")] ∧
    KeepsExternal (fun M _ _ => M) ∧
    ((), "drums") ∈ [((), "synth"), ((), "drums")] ∧
    ∃ g ∈ (Exporter.finishModule (fun M _ _ => M)
        (Exporter.addRuntimes target64 demoOps (Exporter.new target64 demoCommon)
          [((), "synth"), ((), "drums")]) 0 0).globals,
      g.name = "drums" ∧ g.linkage = Linkage.ExternalLinkage ∧ g.isExportDefinition :=
  have hclean : Exporter.CleanExports target64 demoOps (Exporter.new target64 demoCommon)
      [((), "synth"), ((), "drums")] :=
    ⟨⟨20, by decide, by decide⟩, by decide, ⟨⟨28, by decide, by decide⟩, by decide, trivial⟩⟩
  ⟨hclean, fun _ _ _ _ hg _ => hg, by decide,
    exports_distinct_definitions target64 demoOps (Exporter.new target64 demoCommon)
      [((), "synth"), ((), "drums")] (fun M _ _ => M) 0 0 hclean (fun _ _ _ _ hg _ => hg)
      ((), "drums") (by decide)⟩

/-- C9: `Exporter::Exporter` adds to the linked common module (which has no
global value with one of the nine names) global values of which exactly nine
are definitions: the functions `axiom_create_instrument`, `axiom_get_input`,
`axiom_get_output`, `axiom_generate`, `axiom_destroy_instrument`,
`axiom_midi_push`, `axiom_midi_clear`, `axiom_num_write` and `axiom_num_read`,
each with external linkage.  After any `addRuntime` calls and `finishModule`
(with an optimizer that keeps externally linked global values) each of the
nine is in the module with the same name and external linkage. -/
theorem exporter_entry_points {R : Type} (T : Target) (commonModule : Module)
    (ops : RuntimeOps R) (calls : List (R × String))
    (optimizeModule : Module → Nat → Nat → Module) (optLevel sizeLevel : Nat)
    (hfree : ∀ g ∈ ((⟨[], 0⟩ : Module).linkInModule commonModule.globals).globals,
      g.name ∉ abiNames)
    (hopt : KeepsExternal optimizeModule) :
    (∃ added,
      (Exporter.new T commonModule).globals =
        ((⟨[], 0⟩ : Module).linkInModule commonModule.globals).globals ++ added ∧
      added.filter GlobalValue.isDefinition = abiFunctions) ∧
    (∀ g ∈ abiFunctions, g ∈ (Exporter.new T commonModule).globals) ∧
    ∀ g ∈ abiFunctions,
      g ∈ (Exporter.finishModule optimizeModule
        (Exporter.addRuntimes T ops (Exporter.new T commonModule) calls)
        optLevel sizeLevel).globals := by
  obtain ⟨added, hg, hf, _⟩ := built_new T commonModule hfree
  have hmem : ∀ g ∈ abiFunctions, g ∈ (Exporter.new T commonModule).globals := by
    intro g hgm
    rw [hg]
    apply List.mem_append_right
    rw [← hf] at hgm
    exact (List.mem_filter.1 hgm).1
  refine ⟨⟨added, hg, hf⟩, hmem, ?_⟩
  intro g hgm
  have hprops : g.linkage = Linkage.ExternalLinkage ∧ startswith g.name "maxim" = false := by
    simp only [abiFunctions, List.mem_cons, List.mem_singleton, List.not_mem_nil,
      or_false] at hgm
    rcases hgm with h | h | h | h | h | h | h | h | h <;> subst h <;> decide
  exact finishModule_keeps optimizeModule hopt _ _ _ g
    (addRuntimes_mem T ops calls _ g (hmem g hgm)) hprops.1 hprops.2

theorem exporter_entry_points_witness :
    (∀ g ∈ ((⟨[], 0⟩ : Module).linkInModule demoCommon.globals).globals,
      g.name ∉ abiNames) ∧
    KeepsExternal (fun M _ _ => M) ∧
    (∃ added,
      (Exporter.new target64 demoCommon).globals =
        ((⟨[], 0⟩ : Module).linkInModule demoCommon.globals).globals ++ added ∧
      added.filter GlobalValue.isDefinition = abiFunctions) ∧
    (∀ g ∈ abiFunctions, g ∈ (Exporter.new target64 demoCommon).globals) ∧
    ∀ g ∈ abiFunctions,
      g ∈ (Exporter.finishModule (fun M _ _ => M)
        (Exporter.addRuntimes target64 demoOps (Exporter.new target64 demoCommon)
          [((), "synth")]) 0 0).globals :=
  ⟨by decide, fun _ _ _ _ hg _ => hg,
    exporter_entry_points target64 demoCommon demoOps [((), "synth")] (fun M _ _ => M) 0 0
      (by decide) (fun _ _ _ _ hg _ => hg)⟩

/-- C10: the linkage loop of `finishModule` adds and removes no global value
and changes no name and no body; a global value whose name starts with `maxim`
has private linkage afterwards, and every other global value has the linkage
it had. -/
theorem finishModule_linkage_frame (module : Module) (i : Nat) (g : GlobalValue)
    (hg : module.globals[i]? = some g) :
    (Exporter.finishModuleLinkage module).globals.length = module.globals.length ∧
    ∃ g1, (Exporter.finishModuleLinkage module).globals[i]? = some g1 ∧
      g1.name = g.name ∧ g1.body = g.body ∧
      (startswith g.name "maxim" = true → g1.linkage = Linkage.PrivateLinkage) ∧
      (startswith g.name "maxim" = false → g1.linkage = g.linkage) := by
  refine ⟨by simp [Exporter.finishModuleLinkage], ?_⟩
  simp only [Exporter.finishModuleLinkage, List.getElem?_map, hg, Option.map_some']
  by_cases h : startswith g.name "maxim" = true
  · exact ⟨{ g with linkage := Linkage.PrivateLinkage }, by rw [if_pos h], rfl, rfl,
      fun _ => rfl, fun h1 => by rw [h] at h1; cases h1⟩
  · exact ⟨g, by rw [if_neg h], rfl, rfl, fun h1 => absurd h1 h, fun _ => rfl⟩

theorem finishModule_linkage_frame_witness :
    (Exporter.new target64 demoCommon).globals[0]? =
      some ⟨"maxim.sin", Linkage.ExternalLinkage, .func (.foreign 0)⟩ ∧
    (Exporter.finishModuleLinkage (Exporter.new target64 demoCommon)).globals.length =
      (Exporter.new target64 demoCommon).globals.length ∧
    ∃ g1, (Exporter.finishModuleLinkage (Exporter.new target64 demoCommon)).globals[0]? =
        some g1 ∧
      g1.name = "maxim.sin" ∧ g1.body = .func (.foreign 0) ∧
      (startswith "maxim.sin" "maxim" = true → g1.linkage = Linkage.PrivateLinkage) ∧
      (startswith "maxim.sin" "maxim" = false → g1.linkage = Linkage.ExternalLinkage) :=
  ⟨by decide,
    finishModule_linkage_frame (Exporter.new target64 demoCommon) 0
      ⟨"maxim.sin", Linkage.ExternalLinkage, .func (.foreign 0)⟩ (by decide)⟩

/-! ## Exporting the same runtime twice -/

theorem migrate_idem (old new : List SpecField) (bytes : Nat → Byte) :
    migrate new new (migrate old new bytes) = migrate old new bytes := by
  funext p
  unfold migrate
  cases hf : new.find? (fun f => decide (f.offset ≤ p ∧ p < f.offset + f.size)) with
  | none => rfl
  | some f =>
    simp only
    rw [if_pos (List.mem_of_find?_eq_some hf)]

/-- What a forced compile publishes, a second forced compile publishes again. -/
theorem spec_recompile (r : SpecRuntime) :
    specOps.compile (specOps.scheduleChildUpdate
        (specOps.compile (specOps.scheduleChildUpdate r)).1) =
      ((specOps.compile (specOps.scheduleChildUpdate r)).1,
        (specOps.compile (specOps.scheduleChildUpdate r)).2.1,
        (specOps.compile (specOps.scheduleChildUpdate r)).2.2) := by
  simp only [specOps, SpecRuntime.compile, if_true, migrate_idem]

theorem addRuntime_ok_of {R : Type} (T : Target) (ops : RuntimeOps R) (module : Module)
    (runtime : R) (exportName : String) (inputFirst outputFirst : Nat) (inputRest : List Nat)
    (h1 : getIoNodeAccessor T
          (ops.mainSurface (ops.compile (ops.scheduleChildUpdate runtime)).1)
          (ops.getStructLayout (ops.compile (ops.scheduleChildUpdate runtime)).1
            (ops.compile (ops.scheduleChildUpdate runtime)).2.1.storageType)
          (ops.mainSurface (ops.compile (ops.scheduleChildUpdate runtime)).1).input
        = .ok inputFirst)
    (h2 : automationAccessors T
          (ops.mainSurface (ops.compile (ops.scheduleChildUpdate runtime)).1)
          (ops.getStructLayout (ops.compile (ops.scheduleChildUpdate runtime)).1
            (ops.compile (ops.scheduleChildUpdate runtime)).2.1.storageType)
          (ops.mainSurface (ops.compile (ops.scheduleChildUpdate runtime)).1).automationNodes
        = .ok inputRest)
    (h3 : getIoNodeAccessor T
          (ops.mainSurface (ops.compile (ops.scheduleChildUpdate runtime)).1)
          (ops.getStructLayout (ops.compile (ops.scheduleChildUpdate runtime)).1
            (ops.compile (ops.scheduleChildUpdate runtime)).2.1.storageType)
          (ops.mainSurface (ops.compile (ops.scheduleChildUpdate runtime)).1).output
        = .ok outputFirst) :
    ∃ definition,
      (Exporter.addRuntime T ops module runtime exportName).outcome = .ok definition := by
  unfold Exporter.addRuntime
  simp only [Exporter.buildInstrumentFunc]
  generalize ops.compile (ops.scheduleChildUpdate runtime) = compiled at h1 h2 h3 ⊢
  obtain ⟨rt, cls, frags⟩ := compiled
  simp only at h1 h2 h3 ⊢
  rw [h1, h2]
  simp only
  rw [h3]
  exact ⟨_, rfl⟩

/-- C7: with the runtime as the specification describes it, a second
`addRuntime` on the runtime as a first, successful `addRuntime` left it (no
edit and no `generate` in between) succeeds too, and the two definitions have
the same storage size, byte-identical snapshots (the same list of bytes) and
the same input and output offset tables. -/
theorem export_twice_identical (T : Target) (module : Module) (runtime : SpecRuntime)
    (name1 name2 : String) (d1 : Nat)
    (hok : (Exporter.addRuntime T specOps module runtime name1).outcome = .ok d1) :
    ∃ (d2 pre1 pre2 : Nat) (a3 a4 a5 a6 b3 b4 b5 b6 : String) (size : Field)
      (bytes : List Byte) (ins outs : List Nat) (f4 f5 f6 g4 g5 g6 : Field),
      (Exporter.addRuntime T specOps
        (Exporter.addRuntime T specOps module runtime name1).module
        (Exporter.addRuntime T specOps module runtime name1).runtime name2).outcome = .ok d2 ∧
      d1 = pre1 + 6 ∧ d2 = pre2 + 6 ∧
      (Exporter.addRuntime T specOps module runtime name1).module.globals[d1]? =
        some ⟨a6, Linkage.ExternalLinkage, .var true (.struct
          [size, .global (pre1 + 3), .global (pre1 + 4), .global (pre1 + 5), f4, f5, f6])⟩ ∧
      (Exporter.addRuntime T specOps module runtime name1).module.globals[pre1 + 3]? =
        some ⟨a3, Linkage.PrivateLinkage, .var true (.byteArray bytes)⟩ ∧
      (Exporter.addRuntime T specOps module runtime name1).module.globals[pre1 + 4]? =
        some ⟨a4, Linkage.PrivateLinkage, .var true (.intArray ins)⟩ ∧
      (Exporter.addRuntime T specOps module runtime name1).module.globals[pre1 + 5]? =
        some ⟨a5, Linkage.PrivateLinkage, .var true (.intArray outs)⟩ ∧
      (Exporter.addRuntime T specOps
        (Exporter.addRuntime T specOps module runtime name1).module
        (Exporter.addRuntime T specOps module runtime name1).runtime name2).module.globals[d2]? =
        some ⟨b6, Linkage.ExternalLinkage, .var true (.struct
          [size, .global (pre2 + 3), .global (pre2 + 4), .global (pre2 + 5), g4, g5, g6])⟩ ∧
      (Exporter.addRuntime T specOps
        (Exporter.addRuntime T specOps module runtime name1).module
        (Exporter.addRuntime T specOps module runtime name1).runtime
          name2).module.globals[pre2 + 3]? =
        some ⟨b3, Linkage.PrivateLinkage, .var true (.byteArray bytes)⟩ ∧
      (Exporter.addRuntime T specOps
        (Exporter.addRuntime T specOps module runtime name1).module
        (Exporter.addRuntime T specOps module runtime name1).runtime
          name2).module.globals[pre2 + 4]? =
        some ⟨b4, Linkage.PrivateLinkage, .var true (.intArray ins)⟩ ∧
      (Exporter.addRuntime T specOps
        (Exporter.addRuntime T specOps module runtime name1).module
        (Exporter.addRuntime T specOps module runtime name1).runtime
          name2).module.globals[pre2 + 5]? =
        some ⟨b5, Linkage.PrivateLinkage, .var true (.intArray outs)⟩ := by
  obtain ⟨in1, out1, rest1, a0, a1, a2, a3, a4, a5, a6, hin1, hrest1, hout1, hd1, hrt1, hg1, _⟩ :=
    addRuntime_ok T specOps module runtime name1 d1 hok
  generalize hfirst : Exporter.addRuntime T specOps module runtime name1 = first at *
  have hre := spec_recompile runtime
  rw [← hrt1] at hre
  -- the second call reads what the first read
  have hin2 := hin1
  have hrest2 := hrest1
  have hout2 := hout1
  rw [← hrt1] at hin2 hrest2 hout2
  have hc1 : (specOps.compile (specOps.scheduleChildUpdate first.runtime)).1 = first.runtime := by
    rw [hre]
  have hc2 : (specOps.compile (specOps.scheduleChildUpdate first.runtime)).2.1 =
      (specOps.compile (specOps.scheduleChildUpdate runtime)).2.1 := by
    rw [hre]
  obtain ⟨d2, hok2⟩ := addRuntime_ok_of T specOps first.module first.runtime name2 in1 out1 rest1
    (by rw [hc1, hc2]; exact hin2) (by rw [hc1, hc2]; exact hrest2)
    (by rw [hc1, hc2]; exact hout2)
  obtain ⟨in2, out2, rest2, b0, b1, b2, b3, b4, b5, b6, hin3, hrest3, hout3, hd2, _, hg2, _⟩ :=
    addRuntime_ok T specOps first.module first.runtime name2 d2 hok2
  rw [hc1, hc2] at hin3 hrest3 hout3 hg2
  rw [hin2] at hin3
  rw [hrest2] at hrest3
  rw [hout2] at hout3
  have e1 : in2 = in1 := (Except.ok.inj hin3).symm
  have e2 : rest2 = rest1 := (Except.ok.inj hrest3).symm
  have e3 : out2 = out1 := (Except.ok.inj hout3).symm
  subst e1 e2 e3
  rw [← hrt1] at hg1
  generalize (module.linkInModule
    (specOps.compile (specOps.scheduleChildUpdate runtime)).2.2).globals = pre1 at hd1 hg1
  generalize (first.module.linkInModule
    (specOps.compile (specOps.scheduleChildUpdate first.runtime)).2.2).globals = pre2
    at hd2 hg2
  subst hd1 hd2
  generalize (specOps.compile (specOps.scheduleChildUpdate runtime)).2.1 = cls at hg1 hg2
  generalize specOps.getStructLayout first.runtime cls.storageType = layout at hg1 hg2
  generalize specOps.mainSurface first.runtime = surface at hg1 hg2
  refine ⟨pre2.length + 6, pre1.length, pre2.length, a3, a4, a5, a6, b3, b4, b5, b6,
    .int (layout.sizeInBytes % T.modulus),
    (List.range layout.sizeInBytes).map surface.currentPtr, in2 :: rest2, [out2],
    .global pre1.length, .global (pre1.length + 1), .global (pre1.length + 2),
    .global pre2.length, .global (pre2.length + 1), .global (pre2.length + 2),
    hok2, rfl, rfl, ?_, ?_, ?_, ?_, ?_, ?_, ?_, ?_⟩
  · rw [hg1, getElem?_append_emitted]; rfl
  · rw [hg1, getElem?_append_emitted]; rfl
  · rw [hg1, getElem?_append_emitted]; rfl
  · rw [hg1, getElem?_append_emitted]; rfl
  · rw [hg2, getElem?_append_emitted]; rfl
  · rw [hg2, getElem?_append_emitted]; rfl
  · rw [hg2, getElem?_append_emitted]; rfl
  · rw [hg2, getElem?_append_emitted]; rfl

theorem export_twice_identical_witness :
    (Exporter.addRuntime target64 specOps (Exporter.new target64 demoCommon) demoSpecRuntime
      "synth").outcome = .ok 19 ∧
    ∃ (d2 pre1 pre2 : Nat) (a3 a4 a5 a6 b3 b4 b5 b6 : String) (size : Field)
      (bytes : List Byte) (ins outs : List Nat) (f4 f5 f6 g4 g5 g6 : Field),
      (Exporter.addRuntime target64 specOps
        (Exporter.addRuntime target64 specOps (Exporter.new target64 demoCommon)
          demoSpecRuntime "synth").module
        (Exporter.addRuntime target64 specOps (Exporter.new target64 demoCommon)
          demoSpecRuntime "synth").runtime "again").outcome = .ok d2 ∧
      19 = pre1 + 6 ∧ d2 = pre2 + 6 ∧
      (Exporter.addRuntime target64 specOps (Exporter.new target64 demoCommon)
          demoSpecRuntime "synth").module.globals[19]? =
        some ⟨a6, Linkage.ExternalLinkage, .var true (.struct
          [size, .global (pre1 + 3), .global (pre1 + 4), .global (pre1 + 5), f4, f5, f6])⟩ ∧
      (Exporter.addRuntime target64 specOps (Exporter.new target64 demoCommon)
          demoSpecRuntime "synth").module.globals[pre1 + 3]? =
        some ⟨a3, Linkage.PrivateLinkage, .var true (.byteArray bytes)⟩ ∧
      (Exporter.addRuntime target64 specOps (Exporter.new target64 demoCommon)
          demoSpecRuntime "synth").module.globals[pre1 + 4]? =
        some ⟨a4, Linkage.PrivateLinkage, .var true (.intArray ins)⟩ ∧
      (Exporter.addRuntime target64 specOps (Exporter.new target64 demoCommon)
          demoSpecRuntime "synth").module.globals[pre1 + 5]? =
        some ⟨a5, Linkage.PrivateLinkage, .var true (.intArray outs)⟩ ∧
      (Exporter.addRuntime target64 specOps
        (Exporter.addRuntime target64 specOps (Exporter.new target64 demoCommon)
          demoSpecRuntime "synth").module
        (Exporter.addRuntime target64 specOps (Exporter.new target64 demoCommon)
          demoSpecRuntime "synth").runtime "again").module.globals[d2]? =
        some ⟨b6, Linkage.ExternalLinkage, .var true (.struct
          [size, .global (pre2 + 3), .global (pre2 + 4), .global (pre2 + 5), g4, g5, g6])⟩ ∧
      (Exporter.addRuntime target64 specOps
        (Exporter.addRuntime target64 specOps (Exporter.new target64 demoCommon)
          demoSpecRuntime "synth").module
        (Exporter.addRuntime target64 specOps (Exporter.new target64 demoCommon)
          demoSpecRuntime "synth").runtime
          "again").module.globals[pre2 + 3]? =
        some ⟨b3, Linkage.PrivateLinkage, .var true (.byteArray bytes)⟩ ∧
      (Exporter.addRuntime target64 specOps
        (Exporter.addRuntime target64 specOps (Exporter.new target64 demoCommon)
          demoSpecRuntime "synth").module
        (Exporter.addRuntime target64 specOps (Exporter.new target64 demoCommon)
          demoSpecRuntime "synth").runtime
          "again").module.globals[pre2 + 4]? =
        some ⟨b4, Linkage.PrivateLinkage, .var true (.intArray ins)⟩ ∧
      (Exporter.addRuntime target64 specOps
        (Exporter.addRuntime target64 specOps (Exporter.new target64 demoCommon)
          demoSpecRuntime "synth").module
        (Exporter.addRuntime target64 specOps (Exporter.new target64 demoCommon)
          demoSpecRuntime "synth").runtime
          "again").module.globals[pre2 + 5]? =
        some ⟨b5, Linkage.PrivateLinkage, .var true (.intArray outs)⟩ :=
  ⟨by decide,
    export_twice_identical target64 (Exporter.new target64 demoCommon) demoSpecRuntime
      "synth" "again" 19 (by decide)⟩

/-! ## Export-time assertions -/

theorem getIoNodeAccessor_error_iff (T : Target) (surface : Surface) (layout : StructLayout)
    (node : IONode) :
    (∃ e, getIoNodeAccessor T surface layout node = .error e) ↔
      Unresolved surface node ∨ OutOfLayout surface layout node := by
  unfold getIoNodeAccessor Unresolved OutOfLayout
  cases hg : node.control.group with
  | none => simp
  | some group =>
    dsimp only
    cases hi : surface.groupPtrIndexes.lookup group with
    | none => simp
    | some index =>
      dsimp only
      unfold StructLayout.getElementOffset
      by_cases hlt : index < layout.memberOffsets.length
      · rw [List.getElem?_eq_getElem hlt]
        simp
        omega
      · rw [List.getElem?_eq_none (by omega)]
        simp
        omega

theorem automationAccessors_error_iff (T : Target) (surface : Surface) (layout : StructLayout)
    (nodes : List (Nat × IONode)) :
    (∃ e, automationAccessors T surface layout nodes = .error e) ↔
      ∃ node ∈ nodes.map Prod.snd,
        Unresolved surface node ∨ OutOfLayout surface layout node := by
  induction nodes with
  | nil => simp [automationAccessors]
  | cons n rest ih =>
    have h1 := getIoNodeAccessor_error_iff T surface layout n.2
    simp only [automationAccessors, List.map_cons, List.mem_cons, exists_eq_or_imp]
    rw [← h1, ← ih]
    cases getIoNodeAccessor T surface layout n.2 with
    | error e => simp
    | ok v =>
      cases automationAccessors T surface layout rest with
      | error e => simp
      | ok vs => simp

/-- The outcome of `addRuntime` is the first failure among the accessor of
the input, those of the automation nodes and that of the output. -/
theorem addRuntime_outcome {R : Type} (T : Target) (ops : RuntimeOps R) (module : Module)
    (runtime : R) (exportName : String) :
    (∃ e, (Exporter.addRuntime T ops module runtime exportName).outcome = .error e) ↔
      ((∃ e, getIoNodeAccessor T
          (ops.mainSurface (ops.compile (ops.scheduleChildUpdate runtime)).1)
          (ops.getStructLayout (ops.compile (ops.scheduleChildUpdate runtime)).1
            (ops.compile (ops.scheduleChildUpdate runtime)).2.1.storageType)
          (ops.mainSurface (ops.compile (ops.scheduleChildUpdate runtime)).1).input
            = .error e) ∨
       (∃ e, automationAccessors T
          (ops.mainSurface (ops.compile (ops.scheduleChildUpdate runtime)).1)
          (ops.getStructLayout (ops.compile (ops.scheduleChildUpdate runtime)).1
            (ops.compile (ops.scheduleChildUpdate runtime)).2.1.storageType)
          (ops.mainSurface (ops.compile (ops.scheduleChildUpdate runtime)).1).automationNodes
            = .error e) ∨
       (∃ e, getIoNodeAccessor T
          (ops.mainSurface (ops.compile (ops.scheduleChildUpdate runtime)).1)
          (ops.getStructLayout (ops.compile (ops.scheduleChildUpdate runtime)).1
            (ops.compile (ops.scheduleChildUpdate runtime)).2.1.storageType)
          (ops.mainSurface (ops.compile (ops.scheduleChildUpdate runtime)).1).output
            = .error e)) := by
  unfold Exporter.addRuntime
  simp only [Exporter.buildInstrumentFunc]
  generalize ops.compile (ops.scheduleChildUpdate runtime) = compiled
  obtain ⟨rt, cls, frags⟩ := compiled
  simp only
  generalize module.linkInModule frags = pre
  generalize pre.add _ = p0
  obtain ⟨i0, M0⟩ := p0
  simp only
  generalize M0.add _ = p1
  obtain ⟨i1, M1⟩ := p1
  simp only
  generalize M1.add _ = p2
  obtain ⟨i2, M2⟩ := p2
  simp only
  generalize M2.add _ = p3
  obtain ⟨i3, M3⟩ := p3
  simp only
  cases getIoNodeAccessor T (ops.mainSurface rt) (ops.getStructLayout rt cls.storageType)
      (ops.mainSurface rt).input with
  | error e => simp
  | ok inputFirst =>
    cases automationAccessors T (ops.mainSurface rt)
        (ops.getStructLayout rt cls.storageType) (ops.mainSurface rt).automationNodes with
    | error e => simp
    | ok inputRest =>
      simp only
      generalize M3.add _ = p4
      obtain ⟨i4, M4⟩ := p4
      simp only
      cases getIoNodeAccessor T (ops.mainSurface rt)
          (ops.getStructLayout rt cls.storageType) (ops.mainSurface rt).output with
      | error e => simp
      | ok outputFirst =>
        simp only
        generalize M4.add _ = p5
        obtain ⟨i5, M5⟩ := p5
        simp only
        generalize M5.add _ = p6
        obtain ⟨i6, M6⟩ := p6
        simp

/-- A global value that is private and is no `ExportDefinition`. -/
theorem private_not_definition (name : String) (body : GlobalBody)
    (h : (∃ f, body = .func f) ∨ (∃ bytes, body = .var true (.byteArray bytes)) ∨
      (∃ ints, body = .var true (.intArray ints))) :
    ¬ GlobalValue.isExportDefinition ⟨name, Linkage.PrivateLinkage, body⟩ := by
  rintro ⟨f0, f1, f2, f3, f4, f5, f6, hb⟩
  simp only at hb
  rcases h with ⟨f, hf⟩ | ⟨b, hf⟩ | ⟨b, hf⟩ <;> rw [hf] at hb <;> cases hb

/-- What an aborted `addRuntime` has added to the module after the compile:
the trampolines, the snapshot and possibly the input table. -/
theorem addRuntime_aborted {R : Type} (T : Target) (ops : RuntimeOps R) (module : Module)
    (runtime : R) (exportName : String) (e : Abort)
    (h : (Exporter.addRuntime T ops module runtime exportName).outcome = .error e) :
    ∃ added, (Exporter.addRuntime T ops module runtime exportName).module.globals =
        (module.linkInModule (ops.compile (ops.scheduleChildUpdate runtime)).2.2).globals ++
          added ∧
      ∀ g ∈ added, g.linkage = Linkage.PrivateLinkage ∧ ¬ g.isExportDefinition := by
  unfold Exporter.addRuntime at h ⊢
  simp only [Exporter.buildInstrumentFunc] at h ⊢
  generalize ops.compile (ops.scheduleChildUpdate runtime) = compiled at h ⊢
  obtain ⟨rt, cls, frags⟩ := compiled
  simp only at h ⊢
  generalize module.linkInModule frags = pre at h ⊢
  generalize hA0 : pre.add _ = p0 at h ⊢
  obtain ⟨i0, M0⟩ := p0
  simp only at h ⊢
  generalize hA1 : M0.add _ = p1 at h ⊢
  obtain ⟨i1, M1⟩ := p1
  simp only at h ⊢
  generalize hA2 : M1.add _ = p2 at h ⊢
  obtain ⟨i2, M2⟩ := p2
  simp only at h ⊢
  generalize hA3 : M2.add _ = p3 at h ⊢
  obtain ⟨i3, M3⟩ := p3
  simp only at h ⊢
  obtain ⟨-, hM0⟩ := add_eq _ _ _ _ hA0
  obtain ⟨-, hM1⟩ := add_eq _ _ _ _ hA1
  obtain ⟨-, hM2⟩ := add_eq _ _ _ _ hA2
  obtain ⟨-, hM3⟩ := add_eq _ _ _ _ hA3
  simp only at hM0 hM1 hM2 hM3
  have h3 : ∃ added, M3.globals = pre.globals ++ added ∧
      ∀ g ∈ added, g.linkage = Linkage.PrivateLinkage ∧ ¬ g.isExportDefinition := by
    refine ⟨_, by rw [hM3, hM2, hM1, hM0, List.append_assoc, List.append_assoc,
      List.append_assoc], ?_⟩
    intro g hg
    simp only [List.singleton_append, List.mem_cons, List.mem_singleton, List.not_mem_nil,
      or_false] at hg
    rcases hg with rfl | rfl | rfl | rfl
    · exact ⟨rfl, private_not_definition _ _ (Or.inl ⟨_, rfl⟩)⟩
    · exact ⟨rfl, private_not_definition _ _ (Or.inl ⟨_, rfl⟩)⟩
    · exact ⟨rfl, private_not_definition _ _ (Or.inl ⟨_, rfl⟩)⟩
    · exact ⟨rfl, private_not_definition _ _ (Or.inr (Or.inl ⟨_, rfl⟩))⟩
  cases h1 : getIoNodeAccessor T (ops.mainSurface rt) (ops.getStructLayout rt cls.storageType)
      (ops.mainSurface rt).input with
  | error e1 => exact h3
  | ok inputFirst =>
    cases h2 : automationAccessors T (ops.mainSurface rt)
        (ops.getStructLayout rt cls.storageType) (ops.mainSurface rt).automationNodes with
    | error e2 => exact h3
    | ok inputRest =>
      rw [h1, h2] at h
      simp only at h ⊢
      generalize hA4 : M3.add _ = p4 at h ⊢
      obtain ⟨i4, M4⟩ := p4
      simp only at h ⊢
      obtain ⟨-, hM4⟩ := add_eq _ _ _ _ hA4
      simp only at hM4
      cases h5 : getIoNodeAccessor T (ops.mainSurface rt)
          (ops.getStructLayout rt cls.storageType) (ops.mainSurface rt).output with
      | error e3 =>
        obtain ⟨added, hadd, hall⟩ := h3
        refine ⟨added ++ [_], by rw [hM4, hadd, List.append_assoc], ?_⟩
        intro g hg
        rcases List.mem_append.1 hg with hg | hg
        · exact hall g hg
        · rw [List.mem_singleton] at hg
          subst hg
          exact ⟨rfl, private_not_definition _ _ (Or.inr (Or.inr ⟨_, rfl⟩))⟩
      | ok outputFirst =>
        rw [h5] at h
        simp only at h
        generalize M4.add _ = p5 at h
        obtain ⟨i5, M5⟩ := p5
        simp only at h
        generalize M5.add _ = p6 at h
        obtain ⟨i6, M6⟩ := p6
        simp only at h
        cases h

/-- C11, as stated, fails: with the group of the main output at index 7 of a
storage struct of three fields, `addRuntime` aborts (in
`StructLayout::getElementOffset`), though every referenced IO node has a
control with a connection group that `groupPtrIndexes` has. -/
theorem addRuntime_aborts_counterexample :
    (Exporter.addRuntime target64 demoMisplacedOps (Exporter.new target64 demoCommon) ()
      "synth").outcome = .error Abort.noElement ∧
    ¬ ∃ node ∈ referencedNodes demoMisplacedSurface, Unresolved demoMisplacedSurface node := by
  decide

/-- C11, amended: `addRuntime` aborts if and only if one of the IO nodes it asks
an accessor for (the main input, the main output, an automation node) has a
control without a connection group, with a group that `groupPtrIndexes` does
not have, or with a group whose index in `groupPtrIndexes` is no element of
the storage struct; and when it aborts, what it has added to the module after
the compile is private and holds no `ExportDefinition`. -/
theorem addRuntime_aborts_iff {R : Type} (T : Target) (ops : RuntimeOps R) (module : Module)
    (runtime : R) (exportName : String) :
    ((∃ e, (Exporter.addRuntime T ops module runtime exportName).outcome = .error e) ↔
      ∃ node ∈ referencedNodes
          (ops.mainSurface (ops.compile (ops.scheduleChildUpdate runtime)).1),
        Unresolved (ops.mainSurface (ops.compile (ops.scheduleChildUpdate runtime)).1) node ∨
        OutOfLayout (ops.mainSurface (ops.compile (ops.scheduleChildUpdate runtime)).1)
          (ops.getStructLayout (ops.compile (ops.scheduleChildUpdate runtime)).1
            (ops.compile (ops.scheduleChildUpdate runtime)).2.1.storageType) node) ∧
    (∀ e, (Exporter.addRuntime T ops module runtime exportName).outcome = .error e →
      ∃ added, (Exporter.addRuntime T ops module runtime exportName).module.globals =
          (module.linkInModule (ops.compile (ops.scheduleChildUpdate runtime)).2.2).globals ++
            added ∧
        ∀ g ∈ added, g.linkage = Linkage.PrivateLinkage ∧ ¬ g.isExportDefinition) := by
  refine ⟨?_, fun e h => addRuntime_aborted T ops module runtime exportName e h⟩
  rw [addRuntime_outcome, getIoNodeAccessor_error_iff, getIoNodeAccessor_error_iff,
    automationAccessors_error_iff]
  simp only [referencedNodes, List.mem_cons, exists_eq_or_imp]
  constructor
  · rintro (h | h | h)
    · exact Or.inl h
    · exact Or.inr (Or.inr h)
    · exact Or.inr (Or.inl h)
  · rintro (h | h | h)
    · exact Or.inl h
    · exact Or.inr (Or.inr h)
    · exact Or.inr (Or.inl h)

/-! ## A host of the exported code -/

theorem sizeOf_instrument_lt (T : Target) : sizeOf T exportInstrumentTy < T.modulus := by
  have h := Nat.lt_two_pow (8 * T.ptrBytes)
  unfold Target.modulus
  rw [sizeOf_instrument]
  omega

theorem callPtr_inv (E : Env) (f arg : Val) (w w1 : World) (h : callPtr E f arg w = some w1) :
    ∃ fb, w1 = { mem := E.call fb arg w.mem, trace := w.trace ++ [Event.call fb arg] } := by
  unfold callPtr at h
  split at h
  · split at h
    · split at h
      · exact ⟨_, (Option.some.inj h).symm⟩
      · cases h
    · cases h
  · cases h

theorem storeWord_inv (T : Target) (v : Val) (p : Ptr) (w w1 : World)
    (h : storeWord T v p w = some w1) :
    ∃ m, writeCells w.mem p (frags v T.ptrBytes) = some m ∧
      w1 = { mem := m, trace := w.trace } := by
  unfold storeWord at h
  cases hm : writeCells w.mem p (frags v T.ptrBytes) with
  | none => rw [hm] at h; cases h
  | some m =>
    rw [hm] at h
    exact ⟨m, rfl, (Option.some.inj h).symm⟩

theorem memcpy_inv (dst src : Ptr) (len : Nat) (w w1 : World)
    (h : memcpy dst src len w = some w1) :
    ∃ cs m, writeCells w.mem dst cs = some m ∧
      w1 = { mem := m, trace := w.trace ++ [Event.memcpy dst src len] } := by
  unfold memcpy at h
  cases hcs : readCells w.mem src len with
  | none => rw [hcs] at h; cases h
  | some cs =>
    rw [hcs] at h
    dsimp only at h
    cases hm : writeCells w.mem dst cs with
    | none => rw [hm] at h; cases h
    | some m =>
      rw [hm] at h
      exact ⟨cs, m, hm, (Option.some.inj h).symm⟩

theorem free_inv (p : Ptr) (w w1 : World) (h : free p w = some w1) :
    ∃ blk : Block, w1 = { mem := w.mem.set p.block { blk with live := false },
                          trace := w.trace ++ [Event.free p] } := by
  unfold free at h
  cases hb : w.mem[p.block]? with
  | none => rw [hb] at h; cases h
  | some blk =>
    rw [hb] at h
    dsimp only at h
    by_cases hc : blk.kind = BlockKind.heap ∧ blk.live = true ∧ p.off = 0
    · rw [if_pos hc] at h
      exact ⟨blk, (Option.some.inj h).symm⟩
    · rw [if_neg hc] at h; cases h

theorem loadWord_of_agree (T : Target) (m1 m2 : Mem) (q : Ptr)
    (h : m1[q.block]? = m2[q.block]?) : loadWord T m1 q = loadWord T m2 q :=
  loadWord_congr T m1 m2 q (readCells_of_agree m1 m2 q _ h)

theorem instrumentAt_of_agree (T : Target) (m1 m2 : Mem) (i dataPtr d : Ptr)
    (h : m1[i.block]? = m2[i.block]?) (hi : InstrumentAt T m2 i dataPtr d) :
    InstrumentAt T m1 i dataPtr d :=
  ⟨(loadWord_of_agree T m1 m2 (structGEP T exportInstrumentTy i 0) h).trans hi.1,
   (loadWord_of_agree T m1 m2 (structGEP T exportInstrumentTy i 1) h).trans hi.2⟩

/-- A confined call on the storage of some instrument leaves the header of
every instrument as it is. -/
theorem instrumentAt_call (T : Target) (E : Env) (hE : E.Confined) (f b : Nat) (m : Mem)
    (i d : Ptr) (hoff : i.off = 0)
    (hi : InstrumentAt T m i ⟨i.block, sizeOf T exportInstrumentTy⟩ d) :
    InstrumentAt T (E.call f (Val.ptr ⟨b, sizeOf T exportInstrumentTy⟩) m) i
      ⟨i.block, sizeOf T exportInstrumentTy⟩ d := by
  have hsz := sizeOf_instrument T
  refine ⟨?_, ?_⟩
  · rw [loadWord_call_frame T E hE f _ m _ (Or.inr (by simp only [structGEP]; omega))]
    exact hi.1
  · rw [loadWord_call_frame T E hE f _ m _ (Or.inr (by simp only [structGEP]; omega))]
    exact hi.2

/-- What a run of `axiom_create_instrument` that returns has done, whatever
the definition. -/
theorem create_instrument_inv (T : Target) (E : Env) (hE : E.Confined) (d i : Ptr)
    (w w1 : World) (h : axiom_create_instrument T E d w = some (i, w1)) :
    i = ⟨w.mem.length, 0⟩ ∧ w1.mem.length = w.mem.length + 1 ∧
    (∀ b, b < w.mem.length → w1.mem[b]? = w.mem[b]?) ∧
    InstrumentAt T w1.mem ⟨w.mem.length, 0⟩ ⟨w.mem.length, sizeOf T exportInstrumentTy⟩ d ∧
    ∃ size src len callee, w1.trace = w.trace ++
      [Event.malloc size ⟨w.mem.length, 0⟩,
       Event.memcpy ⟨w.mem.length, sizeOf T exportInstrumentTy⟩ src len,
       Event.call callee (Val.ptr ⟨w.mem.length, sizeOf T exportInstrumentTy⟩)] := by
  have hk := T.ptrBytes_pos
  have hsz := sizeOf_instrument T
  have hgep : gepBytes T ⟨w.mem.length, 0⟩ (sizeOf T exportInstrumentTy) =
      ⟨w.mem.length, sizeOf T exportInstrumentTy⟩ := by
    unfold gepBytes
    simp only [Nat.zero_add]
    rw [Nat.mod_eq_of_lt (sizeOf_instrument_lt T)]
  have hg0 : structGEP T exportInstrumentTy ⟨w.mem.length, 0⟩ 0 = ⟨w.mem.length, 0⟩ := by
    simp [structGEP]
  have hg1 : structGEP T exportInstrumentTy ⟨w.mem.length, 0⟩ 1 =
      ⟨w.mem.length, T.ptrBytes⟩ := by
    simp [structGEP]
  simp only [axiom_create_instrument, Option.bind_eq_bind, Option.bind_eq_some,
    Option.pure_def, Option.some.injEq, malloc, Prod.mk.injEq, hgep, hg0, hg1] at h
  obtain ⟨size, -, w2, hs2, w3, hs3, src, -, w4, hcp, f, -, w5, hcall, hi, hw5⟩ := h
  subst hw5
  obtain ⟨m2, hw2, rfl⟩ := storeWord_inv T _ _ _ _ hs2
  obtain ⟨m3, hw3, rfl⟩ := storeWord_inv T _ _ _ _ hs3
  obtain ⟨cs, m4, hw4, rfl⟩ := memcpy_inv _ _ _ _ _ hcp
  obtain ⟨fb, rfl⟩ := callPtr_inv E _ _ _ _ hcall
  simp only at hw2 hw3 hw4 ⊢
  have hlen4 : m4.length = w.mem.length + 1 := by
    rw [writeCells_length _ _ _ _ hw4, writeCells_length _ _ _ _ hw3,
      writeCells_length _ _ _ _ hw2]; simp
  have hold : ∀ b, b < w.mem.length → m4[b]? = w.mem[b]? := by
    intro b hb
    rw [writeCells_other _ _ _ _ hw4 b (by simp only; omega),
      writeCells_other _ _ _ _ hw3 b (by simp only; omega),
      writeCells_other _ _ _ _ hw2 b (by simp only; omega),
      List.getElem?_append_left hb]
  have hh0 : loadWord T m4 ⟨w.mem.length, 0⟩ =
      some (Val.ptr ⟨w.mem.length, sizeOf T exportInstrumentTy⟩) := by
    rw [loadWord_writeCells_frame T _ _ _ _ hw4 _ (by right; left; simp only; omega),
      loadWord_writeCells_frame T _ _ _ _ hw3 _ (by right; left; simp only; omega)]
    exact loadWord_writeCells_same T _ _ _ _ hw2
  have hh1 : loadWord T m4 ⟨w.mem.length, T.ptrBytes⟩ = some (Val.ptr d) := by
    rw [loadWord_writeCells_frame T _ _ _ _ hw4 _ (by right; left; simp only; omega)]
    exact loadWord_writeCells_same T _ _ _ _ hw3
  refine ⟨hi.symm, ?_, ?_, ?_, (size + sizeOf T exportInstrumentTy) % T.modulus, src, size,
    fb, ?_⟩
  · rw [(hE fb _ m4).1, hlen4]
  · intro b hb
    rw [getElem?_call_frame E hE fb _ m4 b (by simp only; omega)]
    exact hold b hb
  · have h4 : InstrumentAt T m4 ⟨w.mem.length, 0⟩
        ⟨w.mem.length, sizeOf T exportInstrumentTy⟩ d := ⟨by rw [hg0]; exact hh0,
      by rw [hg1]; exact hh1⟩
    exact instrumentAt_call T E hE fb w.mem.length m4 ⟨w.mem.length, 0⟩ d rfl h4
  · simp

theorem get_input_inv (T : Target) (i : Ptr) (n : Nat) (w w1 : World) (p : Ptr)
    (h : axiom_get_input T i n w = some (p, w1)) : w1 = w := by
  simp only [axiom_get_input, Option.bind_eq_bind, Option.bind_eq_some, Option.pure_def,
    Option.some.injEq, Prod.mk.injEq] at h
  obtain ⟨_, -, _, -, _, -, _, -, -, h⟩ := h
  exact h.symm

theorem get_output_inv (T : Target) (i : Ptr) (n : Nat) (w w1 : World) (p : Ptr)
    (h : axiom_get_output T i n w = some (p, w1)) : w1 = w := by
  simp only [axiom_get_output, Option.bind_eq_bind, Option.bind_eq_some, Option.pure_def,
    Option.some.injEq, Prod.mk.injEq] at h
  obtain ⟨_, -, _, -, _, -, _, -, -, h⟩ := h
  exact h.symm

theorem generate_inv (T : Target) (E : Env) (i : Ptr) (w w1 : World)
    (h : axiom_generate T E i w = some w1) :
    ∃ dataPtr fb, loadWord T w.mem (structGEP T exportInstrumentTy i 0) = some dataPtr ∧
      w1 = { mem := E.call fb dataPtr w.mem, trace := w.trace ++ [Event.call fb dataPtr] } := by
  simp only [axiom_generate, Option.bind_eq_bind, Option.bind_eq_some, Option.pure_def,
    Option.some.injEq] at h
  obtain ⟨dataPtr, hd, _, -, f, -, w2, hcall, hw⟩ := h
  subst hw
  obtain ⟨fb, hfb⟩ := callPtr_inv E _ _ _ _ hcall
  exact ⟨dataPtr, fb, hd, hfb⟩

theorem destroy_instrument_inv (T : Target) (E : Env) (i : Ptr) (w w1 : World)
    (h : axiom_destroy_instrument T E i w = some w1) :
    ∃ (dataPtr : Val) (fb : Nat) (blk : Block),
      loadWord T w.mem (structGEP T exportInstrumentTy i 0) = some dataPtr ∧
      w1 = { mem := (E.call fb dataPtr w.mem).set i.block { blk with live := false },
             trace := w.trace ++ [Event.call fb dataPtr, Event.free i] } := by
  simp only [axiom_destroy_instrument, Option.bind_eq_bind, Option.bind_eq_some,
    Option.pure_def, Option.some.injEq] at h
  obtain ⟨dataPtr, hd, _, -, f, -, w2, hcall, w3, hfree, hw⟩ := h
  subst hw
  obtain ⟨fb, rfl⟩ := callPtr_inv E _ _ _ _ hcall
  obtain ⟨blk, rfl⟩ := free_inv _ _ _ hfree
  exact ⟨dataPtr, fb, blk, hd, by simp⟩

theorem ptr_eq_of_block (i j : Ptr) (hi : i.off = 0) (hj : j.off = 0)
    (h : i.block = j.block) : i = j := by
  obtain ⟨ib, io⟩ := i
  obtain ⟨jb, jo⟩ := j
  simp only at hi hj h
  subst hi hj h
  rfl

/-- A call by a sound host leaves it sound, and leaves every block but that
of the instrument it is made on as it was. -/
theorem host_call_sound (T : Target) (E : Env) (hE : E.Confined) (w0 : World) (h h1 : Host)
    (c : AbiCall) (hs : Host.Sound T w0 h) (hc : h.call T E c = some h1) :
    Host.Sound T w0 h1 ∧
    ∀ b, b < h.world.mem.length → c.instrument.map Ptr.block ≠ some b →
      h1.world.mem[b]? = h.world.mem[b]? := by
  obtain ⟨hlen, hold, hinst, added, htr, hev⟩ := hs
  cases c with
  | createInstrument d =>
    simp only [Host.call] at hc
    cases hcr : axiom_create_instrument T E d h.world with
    | none => rw [hcr] at hc; cases hc
    | some r =>
      obtain ⟨i, w1⟩ := r
      rw [hcr] at hc
      simp only [Option.some.injEq] at hc
      subst hc
      obtain ⟨hi, hl1, hf1, hi1, size, src, len, callee, ht1⟩ :=
        create_instrument_inv T E hE d i h.world w1 hcr
      subst hi
      refine ⟨⟨by simp only; omega, ?_, ?_, added ++ _, by
        simp only; rw [ht1, htr, List.append_assoc], ?_⟩, fun b hb _ => hf1 b hb⟩
      · intro b hb
        simp only
        rw [hf1 b (by omega)]
        exact hold b hb
      · intro j hj
        simp only at hj ⊢
        rcases List.mem_cons.1 hj with rfl | hj
        · exact ⟨rfl, hlen, d, hi1⟩
        · obtain ⟨hj0, hjb, dj, hjd⟩ := hinst j hj
          have hjlt : j.block < h.world.mem.length :=
            loadWord_isSome_lt T h.world.mem (structGEP T exportInstrumentTy j 0) _ hjd.1
          exact ⟨hj0, hjb, dj, instrumentAt_of_agree T _ _ j _ dj (hf1 j.block hjlt) hjd⟩
      · intro ev hev1
        rcases List.mem_append.1 hev1 with hev1 | hev1
        · exact hev ev hev1
        · simp only [List.mem_cons, List.mem_singleton, List.not_mem_nil, or_false] at hev1
          refine ⟨h.world.mem.length, hlen, ?_⟩
          rcases hev1 with rfl | rfl | rfl
          · exact Or.inl ⟨_, rfl⟩
          · exact Or.inr (Or.inl ⟨_, _, rfl⟩)
          · exact Or.inr (Or.inr (Or.inl ⟨_, rfl⟩))
  | getInput i n =>
    simp only [Host.call] at hc
    by_cases hmem : i ∈ h.instruments
    · rw [if_pos hmem] at hc
      cases hr : axiom_get_input T i n h.world with
      | none => rw [hr] at hc; cases hc
      | some r =>
        obtain ⟨p, w1⟩ := r
        rw [hr] at hc
        simp only [Option.some.injEq] at hc
        subst hc
        have hw := get_input_inv T i n h.world w1 p hr
        subst hw
        exact ⟨⟨hlen, hold, hinst, added, htr, hev⟩, fun _ _ _ => rfl⟩
    · rw [if_neg hmem] at hc; cases hc
  | getOutput i n =>
    simp only [Host.call] at hc
    by_cases hmem : i ∈ h.instruments
    · rw [if_pos hmem] at hc
      cases hr : axiom_get_output T i n h.world with
      | none => rw [hr] at hc; cases hc
      | some r =>
        obtain ⟨p, w1⟩ := r
        rw [hr] at hc
        simp only [Option.some.injEq] at hc
        subst hc
        have hw := get_output_inv T i n h.world w1 p hr
        subst hw
        exact ⟨⟨hlen, hold, hinst, added, htr, hev⟩, fun _ _ _ => rfl⟩
    · rw [if_neg hmem] at hc; cases hc
  | generate i =>
    simp only [Host.call] at hc
    by_cases hmem : i ∈ h.instruments
    · rw [if_pos hmem] at hc
      cases hr : axiom_generate T E i h.world with
      | none => rw [hr] at hc; cases hc
      | some w1 =>
        rw [hr] at hc
        simp only [Option.some.injEq] at hc
        subst hc
        obtain ⟨hi0, hib, di, hid⟩ := hinst i hmem
        obtain ⟨dataPtr, fb, hd, hw1⟩ := generate_inv T E i h.world w1 hr
        have hdp : dataPtr = Val.ptr ⟨i.block, sizeOf T exportInstrumentTy⟩ :=
          Option.some.inj (hd.symm.trans hid.1)
        subst hdp hw1
        refine ⟨⟨by simp only; rw [(hE fb _ _).1]; exact hlen, ?_, ?_, added ++ _, by
          simp only; rw [htr, List.append_assoc], ?_⟩, ?_⟩
        · intro b hb
          simp only
          rw [getElem?_call_frame E hE fb _ _ b (by simp only; omega)]
          exact hold b hb
        · intro j hj
          obtain ⟨hj0, hjb, dj, hjd⟩ := hinst j hj
          exact ⟨hj0, hjb, dj, instrumentAt_call T E hE fb i.block _ j dj hj0 hjd⟩
        · intro ev hev1
          rcases List.mem_append.1 hev1 with hev1 | hev1
          · exact hev ev hev1
          · rw [List.mem_singleton] at hev1
            subst hev1
            exact ⟨i.block, hib, Or.inr (Or.inr (Or.inl ⟨_, rfl⟩))⟩
        · intro b _ hne
          simp only [AbiCall.instrument, Option.map_some', ne_eq, Option.some.injEq] at hne
          simp only
          exact getElem?_call_frame E hE fb _ _ b (fun hb => hne hb.symm)
    · rw [if_neg hmem] at hc; cases hc
  | destroyInstrument i =>
    simp only [Host.call] at hc
    by_cases hmem : i ∈ h.instruments
    · rw [if_pos hmem] at hc
      cases hr : axiom_destroy_instrument T E i h.world with
      | none => rw [hr] at hc; cases hc
      | some w1 =>
        rw [hr] at hc
        simp only [Option.some.injEq] at hc
        subst hc
        obtain ⟨hi0, hib, di, hid⟩ := hinst i hmem
        obtain ⟨dataPtr, fb, blk, hd, hw1⟩ := destroy_instrument_inv T E i h.world w1 hr
        have hdp : dataPtr = Val.ptr ⟨i.block, sizeOf T exportInstrumentTy⟩ :=
          Option.some.inj (hd.symm.trans hid.1)
        subst hdp hw1
        have hfr : ∀ b, b ≠ i.block →
            ((E.call fb (Val.ptr ⟨i.block, sizeOf T exportInstrumentTy⟩) h.world.mem).set
              i.block { blk with live := false })[b]? = h.world.mem[b]? := by
          intro b hb
          rw [List.getElem?_set_ne (Ne.symm hb)]
          exact getElem?_call_frame E hE fb _ _ b hb
        refine ⟨⟨by simp only [List.length_set]; rw [(hE fb _ _).1]; exact hlen, ?_, ?_,
          added ++ _, by simp only; rw [htr, List.append_assoc], ?_⟩, ?_⟩
        · intro b hb
          simp only
          rw [hfr b (by omega)]
          exact hold b hb
        · intro j hj
          simp only [List.mem_filter, decide_eq_true_eq] at hj
          obtain ⟨hj0, hjb, dj, hjd⟩ := hinst j hj.1
          have hne : j.block ≠ i.block := fun hb => hj.2 (ptr_eq_of_block j i hj0 hi0 hb)
          refine ⟨hj0, hjb, dj, ?_⟩
          simp only
          exact instrumentAt_of_agree T _ _ j _ dj (hfr j.block hne) hjd
        · intro ev hev1
          rcases List.mem_append.1 hev1 with hev1 | hev1
          · exact hev ev hev1
          · simp only [List.mem_cons, List.mem_singleton, List.not_mem_nil, or_false] at hev1
            refine ⟨i.block, hib, ?_⟩
            rcases hev1 with rfl | rfl
            · exact Or.inr (Or.inr (Or.inl ⟨_, rfl⟩))
            · right; right; right
              congr 1
              exact ptr_eq_of_block i ⟨i.block, 0⟩ hi0 rfl rfl
        · intro b _ hne
          simp only [AbiCall.instrument, Option.map_some', ne_eq, Option.some.injEq] at hne
          simp only
          exact hfr b (fun hb => hne hb.symm)
    · rw [if_neg hmem] at hc; cases hc

theorem host_run_sound (T : Target) (E : Env) (hE : E.Confined) (w0 : World)
    (calls : List AbiCall) (h h1 : Host) (hs : Host.Sound T w0 h)
    (hr : Host.run T E h calls = some h1) : Host.Sound T w0 h1 := by
  induction calls generalizing h with
  | nil =>
    simp only [Host.run, Option.some.injEq] at hr
    subst hr
    exact hs
  | cons c rest ih =>
    simp only [Host.run] at hr
    cases hc : h.call T E c with
    | none => rw [hc] at hr; cases hr
    | some h2 =>
      rw [hc] at hr
      exact ih h2 (host_call_sound T E hE w0 h h2 c hs hc).1 hr

theorem host_sound_start (T : Target) (w0 : World) : Host.Sound T w0 ⟨w0, []⟩ :=
  ⟨le_refl _, fun _ _ => rfl, fun _ hi => absurd hi (List.not_mem_nil _), [], by simp,
    fun _ hev => absurd hev (List.not_mem_nil _)⟩

/-- C12: let `addRuntime` succeed and a host load the module (its memory is
the image and any blocks `extra` of its own), the class methods staying
within the storage they are handed.  The snapshot, the two offset tables and
the definition struct are constant global variables.  After any sequence
`calls` of calls of the five ABI functions and one more call `c`, on
instruments the host created and did not destroy: the blocks of these four
globals are those of their initializers; every block the host started with
is as it was; the call `c` has left every block but that of its instrument
as it was; and every event was the allocation or release of an instrument
block, a copy to the storage of one, or a call handed the pointer to the
storage of one. -/
theorem definition_never_mutated {R : Type} (T : Target) (ops : RuntimeOps R) (module : Module)
    (runtime : R) (exportName : String) (definition : Nat) (E : Env) (hE : E.Confined)
    (hok : (Exporter.addRuntime T ops module runtime exportName).outcome = .ok definition)
    (extra : Mem) (tr : List Event) (calls : List AbiCall) (c : AbiCall) (h h1 : Host)
    (hrun : Host.run T E
      ⟨⟨(Exporter.addRuntime T ops module runtime exportName).module.image T ++ extra, tr⟩, []⟩
      calls = some h)
    (hcall : h.call T E c = some h1) :
    (∀ i, definition - 3 ≤ i → i ≤ definition →
      ∃ g init,
        (Exporter.addRuntime T ops module runtime exportName).module.globals[i]? = some g ∧
        g.body = .var true init ∧
        h1.world.mem[i]? = some ⟨BlockKind.constant, true, init.cells T⟩) ∧
    (∀ b, b <
        ((Exporter.addRuntime T ops module runtime exportName).module.image T ++ extra).length →
      h1.world.mem[b]? =
        ((Exporter.addRuntime T ops module runtime exportName).module.image T ++ extra)[b]?) ∧
    (∀ b, b < h.world.mem.length → c.instrument.map Ptr.block ≠ some b →
      h1.world.mem[b]? = h.world.mem[b]?) ∧
    ∃ added, h1.world.trace = tr ++ added ∧
      ∀ ev ∈ added, Event.OnInstrument T
        ((Exporter.addRuntime T ops module runtime exportName).module.image T ++ extra).length
        ev := by
  have hs := host_run_sound T E hE _ calls _ h (host_sound_start T _) hrun
  obtain ⟨hs1, hframe⟩ := host_call_sound T E hE _ h h1 c hs hcall
  obtain ⟨-, hold, -, hev⟩ := hs1
  simp only at hold hev
  refine ⟨?_, hold, hframe, hev⟩
  obtain ⟨inputFirst, outputFirst, inputRest, n0, n1, n2, n3, n4, n5, n6, -, -, -, hdef, -,
    hglob, -⟩ := addRuntime_ok T ops module runtime exportName definition hok
  generalize (Exporter.addRuntime T ops module runtime exportName).module = M at hold hglob ⊢
  generalize (module.linkInModule (ops.compile (ops.scheduleChildUpdate runtime)).2.2).globals
    = pre at hdef hglob
  intro i hi1 hi2
  have hlen : i < (M.image T ++ extra).length := by
    rw [List.length_append, image_length, hglob]
    simp only [List.length_append, emitted, List.length_cons, List.length_nil]
    omega
  have himg : ∀ g, M.globals[i]? = some g → h1.world.mem[i]? = some (g.block T) := by
    intro g hg
    rw [hold i hlen, List.getElem?_append_left (by
      rw [image_length, hglob]
      simp only [List.length_append, emitted, List.length_cons, List.length_nil]
      omega), image_getElem?, hg]
    rfl
  have hcase : i = pre.length + 3 ∨ i = pre.length + 4 ∨ i = pre.length + 5 ∨
      i = pre.length + 6 := by omega
  rcases hcase with rfl | rfl | rfl | rfl
  · have hg := getElem?_append_emitted pre (emitted T pre.length
      (ops.compile (ops.scheduleChildUpdate runtime)).2.1
      (ops.getStructLayout (ops.compile (ops.scheduleChildUpdate runtime)).1
        (ops.compile (ops.scheduleChildUpdate runtime)).2.1.storageType)
      (ops.mainSurface (ops.compile (ops.scheduleChildUpdate runtime)).1)
      (inputFirst :: inputRest) [outputFirst] n0 n1 n2 n3 n4 n5 n6) 3
    rw [← hglob] at hg
    simp only [emitted, List.getElem?_cons_succ, List.getElem?_cons_zero] at hg
    exact ⟨_, _, hg, rfl, himg _ hg⟩
  · have hg := getElem?_append_emitted pre (emitted T pre.length
      (ops.compile (ops.scheduleChildUpdate runtime)).2.1
      (ops.getStructLayout (ops.compile (ops.scheduleChildUpdate runtime)).1
        (ops.compile (ops.scheduleChildUpdate runtime)).2.1.storageType)
      (ops.mainSurface (ops.compile (ops.scheduleChildUpdate runtime)).1)
      (inputFirst :: inputRest) [outputFirst] n0 n1 n2 n3 n4 n5 n6) 4
    rw [← hglob] at hg
    simp only [emitted, List.getElem?_cons_succ, List.getElem?_cons_zero] at hg
    exact ⟨_, _, hg, rfl, himg _ hg⟩
  · have hg := getElem?_append_emitted pre (emitted T pre.length
      (ops.compile (ops.scheduleChildUpdate runtime)).2.1
      (ops.getStructLayout (ops.compile (ops.scheduleChildUpdate runtime)).1
        (ops.compile (ops.scheduleChildUpdate runtime)).2.1.storageType)
      (ops.mainSurface (ops.compile (ops.scheduleChildUpdate runtime)).1)
      (inputFirst :: inputRest) [outputFirst] n0 n1 n2 n3 n4 n5 n6) 5
    rw [← hglob] at hg
    simp only [emitted, List.getElem?_cons_succ, List.getElem?_cons_zero] at hg
    exact ⟨_, _, hg, rfl, himg _ hg⟩
  · have hg := getElem?_append_emitted pre (emitted T pre.length
      (ops.compile (ops.scheduleChildUpdate runtime)).2.1
      (ops.getStructLayout (ops.compile (ops.scheduleChildUpdate runtime)).1
        (ops.compile (ops.scheduleChildUpdate runtime)).2.1.storageType)
      (ops.mainSurface (ops.compile (ops.scheduleChildUpdate runtime)).1)
      (inputFirst :: inputRest) [outputFirst] n0 n1 n2 n3 n4 n5 n6) 6
    rw [← hglob] at hg
    simp only [emitted, List.getElem?_cons_succ, List.getElem?_cons_zero] at hg
    exact ⟨_, _, hg, rfl, himg _ hg⟩

theorem definition_never_mutated_witness :
    demoEnv.Confined ∧
    (Exporter.addRuntime target64 demoOps (Exporter.new target64 demoCommon) ()
      "synth").outcome = .ok 20 ∧
    Host.run target64 demoEnv ⟨⟨demoImage ++ [], []⟩, []⟩
      [.createInstrument ⟨20, 0⟩, .getInput ⟨21, 0⟩ 0, .generate ⟨21, 0⟩] = some demoHost ∧
    demoHost.call target64 demoEnv (.destroyInstrument ⟨21, 0⟩) = some demoHostEnd ∧
    (∀ i, 20 - 3 ≤ i → i ≤ 20 →
      ∃ g init,
        (Exporter.addRuntime target64 demoOps (Exporter.new target64 demoCommon) ()
          "synth").module.globals[i]? = some g ∧
        g.body = .var true init ∧
        demoHostEnd.world.mem[i]? = some ⟨BlockKind.constant, true, init.cells target64⟩) ∧
    (∀ b, b < (demoImage ++ []).length →
      demoHostEnd.world.mem[b]? = (demoImage ++ [])[b]?) ∧
    (∀ b, b < demoHost.world.mem.length →
      (AbiCall.destroyInstrument ⟨21, 0⟩).instrument.map Ptr.block ≠ some b →
      demoHostEnd.world.mem[b]? = demoHost.world.mem[b]?) ∧
    ∃ added, demoHostEnd.world.trace = [] ++ added ∧
      ∀ ev ∈ added, Event.OnInstrument target64 (demoImage ++ []).length ev :=
  ⟨demoEnv_confined, by decide, by decide, by decide,
    definition_never_mutated target64 demoOps (Exporter.new target64 demoCommon) () "synth" 20
      demoEnv demoEnv_confined (by decide) [] []
      [.createInstrument ⟨20, 0⟩, .getInput ⟨21, 0⟩ 0, .generate ⟨21, 0⟩]
      (.destroyInstrument ⟨21, 0⟩) demoHost demoHostEnd (by decide) (by decide)⟩

/-! ## The layout of an instrument -/

/-- C16: on a definition `D` whose storage size `s` plus the header size
does not wrap, `axiom_create_instrument` asks `malloc` for exactly `s` plus
the header size bytes and gets a block of that size; the instrument is the
start of the block, where the header is, and the data pointer is the header
size into the same block; the header and the `s` bytes at the data pointer
have no byte in common and both lie within the block; the copy is of `s`
bytes, from the snapshot to the data pointer, and `s` cells are read and
written.  For a definition `addRuntime` emitted (storage layout of a size
that does not wrap either), `s` is the number of bytes of the snapshot
global, whose block has exactly `s` cells, all of which the copy reads. -/
theorem create_instrument_bounds {R : Type} (T : Target) (E : Env) (w : World) (d : Ptr)
    (D : ExportDefinition) (snap : List Cell)
    (ops : RuntimeOps R) (module : Module) (runtime : R) (exportName : String)
    (definition : Nat) (rt : R) (mainClass : ModuleClass) (fragments : List GlobalValue)
    (layout : StructLayout)
    (hdef : DefinitionAt T w.mem d D)
    (hsnap : readCells w.mem D.snapshot D.storageSize = some snap)
    (hctor : IsFunction w.mem D.constructor)
    (hfit : D.storageSize + sizeOf T exportInstrumentTy < T.modulus)
    (hc : ops.compile (ops.scheduleChildUpdate runtime) = (rt, mainClass, fragments))
    (hl : ops.getStructLayout rt mainClass.storageType = layout)
    (hok : (Exporter.addRuntime T ops module runtime exportName).outcome = .ok definition)
    (hsize : layout.sizeInBytes + sizeOf T exportInstrumentTy < T.modulus) :
    (∃ (m1 : Mem) (instrument dataPtr : Ptr),
      axiom_create_instrument T E d w =
        some (instrument,
          { mem := E.call D.constructor.block (Val.ptr dataPtr) m1,
            trace := w.trace ++
              [Event.malloc (D.storageSize + sizeOf T exportInstrumentTy) instrument,
               Event.memcpy dataPtr D.snapshot D.storageSize,
               Event.call D.constructor.block (Val.ptr dataPtr)] }) ∧
      HasBlock m1 instrument.block BlockKind.heap true
        (D.storageSize + sizeOf T exportInstrumentTy) ∧
      instrument.off = 0 ∧
      dataPtr = ⟨instrument.block, sizeOf T exportInstrumentTy⟩ ∧
      InstrumentAt T m1 instrument dataPtr d ∧
      RangesDisjoint instrument (sizeOf T exportInstrumentTy) dataPtr D.storageSize ∧
      RangeInBlock m1 instrument (sizeOf T exportInstrumentTy) ∧
      RangeInBlock m1 dataPtr D.storageSize ∧
      snap.length = D.storageSize ∧
      readCells m1 dataPtr D.storageSize = some snap) ∧
    (∃ (n3 : String) (bytes : List Byte) (D1 : ExportDefinition),
      DefinitionAt T ((Exporter.addRuntime T ops module runtime exportName).module.image T)
        ⟨definition, 0⟩ D1 ∧
      D1.snapshot = ⟨definition - 3, 0⟩ ∧
      (Exporter.addRuntime T ops module runtime exportName).module.globals[definition - 3]? =
        some ⟨n3, Linkage.PrivateLinkage, .var true (.byteArray bytes)⟩ ∧
      D1.storageSize = bytes.length ∧
      HasBlock ((Exporter.addRuntime T ops module runtime exportName).module.image T)
        D1.snapshot.block BlockKind.constant true D1.storageSize ∧
      readCells ((Exporter.addRuntime T ops module runtime exportName).module.image T)
        D1.snapshot D1.storageSize = some (bytes.map Cell.byte) ∧
      IsFunction ((Exporter.addRuntime T ops module runtime exportName).module.image T)
        D1.constructor ∧
      D1.storageSize + sizeOf T exportInstrumentTy < T.modulus) := by
  constructor
  · obtain ⟨m1, hrun, ⟨hinst, hread, hblk, -, -⟩, -⟩ :=
      create_instrument_run T E w d D snap hdef hsnap hctor hfit
    obtain ⟨blk, hb, hkind, hlive, hlen⟩ := hblk
    refine ⟨m1, ⟨w.mem.length, 0⟩, ⟨w.mem.length, sizeOf T exportInstrumentTy⟩, hrun,
      ⟨blk, hb, hkind, hlive, hlen⟩, rfl, rfl, hinst, ?_, ?_, ?_,
      readCells_length _ _ _ _ hsnap, hread⟩
    · right; left; simp only; omega
    · exact ⟨blk, hb, by simp only; omega⟩
    · exact ⟨blk, hb, by simp only; omega⟩
  · obtain ⟨inputFirst, outputFirst, inputRest, n0, n1, n2, n3, n4, n5, n6, -, -, -,
      hdefn, -, hglobals, -⟩ := addRuntime_ok T ops module runtime exportName definition hok
    rw [hc] at hdefn hglobals
    simp only [hl] at hdefn hglobals
    generalize (Exporter.addRuntime T ops module runtime exportName).module = M at hglobals ⊢
    generalize (module.linkInModule fragments).globals = pre at hdefn hglobals
    subst hdefn
    obtain ⟨hD, hread, hf0, -, -, -, -⟩ := image_emitted T M pre mainClass layout
      (ops.mainSurface rt) (inputFirst :: inputRest) [outputFirst] n0 n1 n2 n3 n4 n5 n6 hglobals
    have hmod : layout.sizeInBytes % T.modulus = layout.sizeInBytes :=
      Nat.mod_eq_of_lt (by omega)
    have h3 : pre.length + 6 - 3 = pre.length + 3 := by omega
    have hg := getElem?_append_emitted pre (emitted T pre.length mainClass layout
      (ops.mainSurface rt) (inputFirst :: inputRest) [outputFirst] n0 n1 n2 n3 n4 n5 n6) 3
    rw [← hglobals] at hg
    simp only [emitted, List.getElem?_cons_succ, List.getElem?_cons_zero] at hg
    refine ⟨n3, (List.range layout.sizeInBytes).map (ops.mainSurface rt).currentPtr,
      emittedDefinition T pre.length layout, hD, ?_, ?_, ?_, ?_, ?_, hf0, ?_⟩
    · rw [h3]; rfl
    · rw [h3]; exact hg
    · simp [emittedDefinition, hmod]
    · refine ⟨GlobalValue.block T ⟨n3, Linkage.PrivateLinkage, .var true (.byteArray
        ((List.range layout.sizeInBytes).map (ops.mainSurface rt).currentPtr))⟩,
        ?_, rfl, rfl, ?_⟩
      · show (M.image T)[pre.length + 3]? = some _
        rw [image_getElem?, hg]
        rfl
      · simp [emittedDefinition, hmod, Constant.cells, GlobalValue.block]
    · simp only [emittedDefinition, hmod]
      exact hread
    · simp only [emittedDefinition, hmod]
      exact hsize

theorem create_instrument_bounds_witness :
    demoOps.compile (demoOps.scheduleChildUpdate ()) =
      ((), demoClass, [⟨"maxim.node", Linkage.ExternalLinkage, .func (.foreign 1)⟩]) ∧
    demoOps.getStructLayout () demoClass.storageType = demoLayout ∧
    DefinitionAt target64 demoImage ⟨20, 0⟩ (emittedDefinition target64 14 demoLayout) ∧
    readCells demoImage (emittedDefinition target64 14 demoLayout).snapshot
      (emittedDefinition target64 14 demoLayout).storageSize =
      some (([7, 7, 7, 7, 7, 7, 0, 0, 0, 0, 0, 0] : List Byte).map Cell.byte) ∧
    IsFunction demoImage (emittedDefinition target64 14 demoLayout).constructor ∧
    (emittedDefinition target64 14 demoLayout).storageSize + sizeOf target64 exportInstrumentTy
      < target64.modulus ∧
    (Exporter.addRuntime target64 demoOps (Exporter.new target64 demoCommon) ()
      "synth").outcome = .ok 20 ∧
    demoLayout.sizeInBytes + sizeOf target64 exportInstrumentTy < target64.modulus ∧
    (∃ (m1 : Mem) (instrument dataPtr : Ptr),
      axiom_create_instrument target64 demoEnv ⟨20, 0⟩ ⟨demoImage, []⟩ =
        some (instrument,
          { mem := demoEnv.call (emittedDefinition target64 14 demoLayout).constructor.block
              (Val.ptr dataPtr) m1,
            trace := [] ++
              [Event.malloc
                 ((emittedDefinition target64 14 demoLayout).storageSize +
                   sizeOf target64 exportInstrumentTy) instrument,
               Event.memcpy dataPtr (emittedDefinition target64 14 demoLayout).snapshot
                 (emittedDefinition target64 14 demoLayout).storageSize,
               Event.call (emittedDefinition target64 14 demoLayout).constructor.block
                 (Val.ptr dataPtr)] }) ∧
      HasBlock m1 instrument.block BlockKind.heap true
        ((emittedDefinition target64 14 demoLayout).storageSize +
          sizeOf target64 exportInstrumentTy) ∧
      instrument.off = 0 ∧
      dataPtr = ⟨instrument.block, sizeOf target64 exportInstrumentTy⟩ ∧
      InstrumentAt target64 m1 instrument dataPtr ⟨20, 0⟩ ∧
      RangesDisjoint instrument (sizeOf target64 exportInstrumentTy) dataPtr
        (emittedDefinition target64 14 demoLayout).storageSize ∧
      RangeInBlock m1 instrument (sizeOf target64 exportInstrumentTy) ∧
      RangeInBlock m1 dataPtr (emittedDefinition target64 14 demoLayout).storageSize ∧
      (([7, 7, 7, 7, 7, 7, 0, 0, 0, 0, 0, 0] : List Byte).map Cell.byte).length =
        (emittedDefinition target64 14 demoLayout).storageSize ∧
      readCells m1 dataPtr (emittedDefinition target64 14 demoLayout).storageSize =
        some (([7, 7, 7, 7, 7, 7, 0, 0, 0, 0, 0, 0] : List Byte).map Cell.byte)) ∧
    (∃ (n3 : String) (bytes : List Byte) (D1 : ExportDefinition),
      DefinitionAt target64
        ((Exporter.addRuntime target64 demoOps (Exporter.new target64 demoCommon) ()
          "synth").module.image target64) ⟨20, 0⟩ D1 ∧
      D1.snapshot = ⟨20 - 3, 0⟩ ∧
      (Exporter.addRuntime target64 demoOps (Exporter.new target64 demoCommon) ()
        "synth").module.globals[20 - 3]? =
        some ⟨n3, Linkage.PrivateLinkage, .var true (.byteArray bytes)⟩ ∧
      D1.storageSize = bytes.length ∧
      HasBlock ((Exporter.addRuntime target64 demoOps (Exporter.new target64 demoCommon) ()
        "synth").module.image target64) D1.snapshot.block BlockKind.constant true
        D1.storageSize ∧
      readCells ((Exporter.addRuntime target64 demoOps (Exporter.new target64 demoCommon) ()
        "synth").module.image target64) D1.snapshot D1.storageSize =
        some (bytes.map Cell.byte) ∧
      IsFunction ((Exporter.addRuntime target64 demoOps (Exporter.new target64 demoCommon) ()
        "synth").module.image target64) D1.constructor ∧
      D1.storageSize + sizeOf target64 exportInstrumentTy < target64.modulus) :=
  ⟨rfl, rfl, by decide, by decide, by decide, by decide, by decide, by decide,
    create_instrument_bounds target64 demoEnv ⟨demoImage, []⟩ ⟨20, 0⟩
      (emittedDefinition target64 14 demoLayout)
      (([7, 7, 7, 7, 7, 7, 0, 0, 0, 0, 0, 0] : List Byte).map Cell.byte)
      demoOps (Exporter.new target64 demoCommon) () "synth" 20 () demoClass
      [⟨"maxim.node", Linkage.ExternalLinkage, .func (.foreign 1)⟩] demoLayout
      (by decide) (by decide) (by decide) (by decide) rfl rfl (by decide) (by decide)⟩

/-! ## Nodes -/

theorem scheduleCompile_of {S U : Type} (ops : SurfaceOps S) (this : Nat) (g : NodeGraph S U)
    (node : Node U) (s : S) (hn : g.nodes this = some node)
    (hs : g.surfaces node._surface = some s) :
    Node.scheduleCompile ops this g =
      some { nodes := Function.update g.nodes this (some { node with _needsCompile := true })
             surfaces := Function.update g.surfaces node._surface
               (some (ops.scheduleGraphUpdate s))
             calls := g.calls ++ [(node._surface, .scheduleGraphUpdate)] } := by
  unfold Node.scheduleCompile
  rw [hn]
  simp only [NodeGraph.callSurface, hs, SurfaceOps.apply]

theorem remove_of {S U : Type} (ops : SurfaceOps S) (this : Nat) (g : NodeGraph S U)
    (node : Node U) (s : S) (hn : g.nodes this = some node)
    (hs : g.surfaces node._surface = some s) :
    Node.remove ops this g =
      some { nodes := g.nodes
             surfaces := Function.update g.surfaces node._surface
               (some (ops.removeNode s this))
             calls := g.calls ++ [(node._surface, .removeNode this)] } := by
  unfold Node.remove
  rw [hn]
  simp only [NodeGraph.callSurface, hs, SurfaceOps.apply]

/-- C13: for a surface that exists, the constructor of `Node` returns; it has
called `addNode` with the new node and then `scheduleGraphUpdate`, both on
that surface and nothing else on any surface; the new node has that surface as
its owner and its flag `_needsCompile` set, whatever the flag started as; and
no other node and no other surface has changed. -/
theorem node_constructed_dirty {S U : Type} (ops : SurfaceOps S) (g : NodeGraph S U)
    (this surface : Nat) (unit : U) (needsCompile : Bool) (s : S)
    (hs : g.surfaces surface = some s) :
    ∃ g1, Node.new ops this surface unit needsCompile g = some g1 ∧
      g1.calls = g.calls ++ [(surface, .addNode this), (surface, .scheduleGraphUpdate)] ∧
      g1.surfaces surface = some (ops.scheduleGraphUpdate (ops.addNode s this)) ∧
      g1.nodes this = some ⟨surface, true, unit⟩ ∧
      (∀ a, a ≠ this → g1.nodes a = g.nodes a) ∧
      (∀ a, a ≠ surface → g1.surfaces a = g.surfaces a) := by
  have h1 : Node.new ops this surface unit needsCompile g =
      some { nodes := Function.update g.nodes this (some ⟨surface, true, unit⟩)
             surfaces := Function.update g.surfaces surface
               (some (ops.scheduleGraphUpdate (ops.addNode s this)))
             calls := g.calls ++ [(surface, .addNode this), (surface, .scheduleGraphUpdate)] } := by
    unfold Node.new
    simp only [NodeGraph.callSurface, hs, SurfaceOps.apply]
    rw [scheduleCompile_of ops this
      { nodes := Function.update g.nodes this (some ⟨surface, needsCompile, unit⟩)
        surfaces := Function.update g.surfaces surface (some (ops.addNode s this))
        calls := g.calls ++ [(surface, .addNode this)] }
      ⟨surface, needsCompile, unit⟩ (ops.addNode s this) (by simp) (by simp)]
    simp
  refine ⟨_, h1, rfl, by simp, by simp, ?_, ?_⟩
  · intro a ha
    simp [Function.update_noteq ha]
  · intro a ha
    simp [Function.update_noteq ha]

theorem node_constructed_dirty_witness :
    demoNodeGraph.surfaces 1 = some ([5], 0) ∧
    ∃ g1, Node.new demoSurfaceOps 6 1 () false demoNodeGraph = some g1 ∧
      g1.calls = demoNodeGraph.calls ++
        [(1, SurfaceCall.addNode 6), (1, SurfaceCall.scheduleGraphUpdate)] ∧
      g1.surfaces 1 =
        some (demoSurfaceOps.scheduleGraphUpdate (demoSurfaceOps.addNode ([5], 0) 6)) ∧
      g1.nodes 6 = some ⟨1, true, ()⟩ ∧
      (∀ a, a ≠ 6 → g1.nodes a = demoNodeGraph.nodes a) ∧
      (∀ a, a ≠ 1 → g1.surfaces a = demoNodeGraph.surfaces a) :=
  ⟨rfl, node_constructed_dirty demoSurfaceOps demoNodeGraph 6 1 () false ([5], 0) rfl⟩

/-- C14: on a node in any state (its surface existing), `scheduleCompile`
returns; afterwards the node has its flag `_needsCompile` set and is otherwise
as before, the one call made on any surface is one `scheduleGraphUpdate` on
the owning surface, and no other node or surface has changed; a second
`scheduleCompile` returns too and leaves every node as the first did. -/
theorem scheduleCompile_marks_dirty {S U : Type} (ops : SurfaceOps S) (g : NodeGraph S U)
    (this : Nat) (node : Node U) (s : S) (hn : g.nodes this = some node)
    (hs : g.surfaces node._surface = some s) :
    ∃ g1, Node.scheduleCompile ops this g = some g1 ∧
      g1.nodes this = some ⟨node._surface, true, node.unit⟩ ∧
      g1.calls = g.calls ++ [(node._surface, .scheduleGraphUpdate)] ∧
      g1.surfaces node._surface = some (ops.scheduleGraphUpdate s) ∧
      (∀ a, a ≠ this → g1.nodes a = g.nodes a) ∧
      (∀ a, a ≠ node._surface → g1.surfaces a = g.surfaces a) ∧
      ∃ g2, Node.scheduleCompile ops this g1 = some g2 ∧ g2.nodes = g1.nodes ∧
        g2.calls = g1.calls ++ [(node._surface, .scheduleGraphUpdate)] := by
  refine ⟨_, scheduleCompile_of ops this g node s hn hs, by simp, rfl, by simp, ?_, ?_, ?_⟩
  · intro a ha
    simp [Function.update_noteq ha]
  · intro a ha
    simp [Function.update_noteq ha]
  · refine ⟨_, scheduleCompile_of ops this
      { nodes := Function.update g.nodes this
          (some { _surface := node._surface, _needsCompile := true, unit := node.unit })
        surfaces := Function.update g.surfaces node._surface
          (some (ops.scheduleGraphUpdate s))
        calls := g.calls ++ [(node._surface, .scheduleGraphUpdate)] }
      ⟨node._surface, true, node.unit⟩
      (ops.scheduleGraphUpdate s) (by simp) (by simp), ?_, rfl⟩
    simp

theorem scheduleCompile_marks_dirty_witness :
    demoNodeGraph.nodes 5 = some ⟨1, false, ()⟩ ∧
    demoNodeGraph.surfaces 1 = some ([5], 0) ∧
    ∃ g1, Node.scheduleCompile demoSurfaceOps 5 demoNodeGraph = some g1 ∧
      g1.nodes 5 = some ⟨1, true, ()⟩ ∧
      g1.calls = demoNodeGraph.calls ++ [(1, SurfaceCall.scheduleGraphUpdate)] ∧
      g1.surfaces 1 = some (demoSurfaceOps.scheduleGraphUpdate ([5], 0)) ∧
      (∀ a, a ≠ 5 → g1.nodes a = demoNodeGraph.nodes a) ∧
      (∀ a, a ≠ 1 → g1.surfaces a = demoNodeGraph.surfaces a) ∧
      ∃ g2, Node.scheduleCompile demoSurfaceOps 5 g1 = some g2 ∧ g2.nodes = g1.nodes ∧
        g2.calls = g1.calls ++ [(1, SurfaceCall.scheduleGraphUpdate)] :=
  ⟨rfl, rfl,
    scheduleCompile_marks_dirty demoSurfaceOps demoNodeGraph 5 ⟨1, false, ()⟩ ([5], 0) rfl rfl⟩

/-- After any operations of the node at `this`, the node has its owner and
base object, the surface exists, and the calls made were `removeNode` of
this node or `scheduleGraphUpdate`, on the owner. -/
theorem node_run_calls {S U : Type} (ops : SurfaceOps S) (this : Nat) (later : List NodeOp)
    (g : NodeGraph S U) (node : Node U) (s : S) (hn : g.nodes this = some node)
    (hs : g.surfaces node._surface = some s) :
    ∃ g2 added, Node.run ops this later g = some g2 ∧ g2.calls = g.calls ++ added ∧
      ∀ c ∈ added, c = (node._surface, SurfaceCall.removeNode this) ∨
        c = (node._surface, SurfaceCall.scheduleGraphUpdate) := by
  induction later generalizing g node s with
  | nil => exact ⟨g, [], rfl, by simp, fun c hc => absurd hc (List.not_mem_nil _)⟩
  | cons op rest ih =>
    cases op with
    | scheduleCompile =>
      have h1 := scheduleCompile_of ops this g node s hn hs
      obtain ⟨g2, added, hrun, hcalls, hall⟩ := ih
        { nodes := Function.update g.nodes this
            (some { _surface := node._surface, _needsCompile := true, unit := node.unit })
          surfaces := Function.update g.surfaces node._surface
            (some (ops.scheduleGraphUpdate s))
          calls := g.calls ++ [(node._surface, .scheduleGraphUpdate)] }
        ⟨node._surface, true, node.unit⟩ (ops.scheduleGraphUpdate s) (by simp) (by simp)
      refine ⟨g2, (node._surface, .scheduleGraphUpdate) :: added, ?_, ?_, ?_⟩
      · simp only [Node.run, h1]
        exact hrun
      · rw [hcalls]; simp
      · intro c hc
        rcases List.mem_cons.1 hc with rfl | hc
        · exact Or.inr rfl
        · exact hall c hc
    | remove =>
      have h1 := remove_of ops this g node s hn hs
      obtain ⟨g2, added, hrun, hcalls, hall⟩ := ih
        { nodes := g.nodes
          surfaces := Function.update g.surfaces node._surface (some (ops.removeNode s this))
          calls := g.calls ++ [(node._surface, .removeNode this)] }
        node (ops.removeNode s this) hn (by simp)
      refine ⟨g2, (node._surface, .removeNode this) :: added, ?_, ?_, ?_⟩
      · simp only [Node.run, h1]
        exact hrun
      · rw [hcalls]; simp
      · intro c hc
        rcases List.mem_cons.1 hc with rfl | hc
        · exact Or.inl rfl
        · exact hall c hc

/-- C15: on a node with the flag set or not (its surface existing), `remove`
returns; it has made one call, `removeNode` with the node on the owning
surface, and has left every node, the flag of this one included, as it was.
Whatever operations of the node follow (`scheduleCompile`, `remove`), they
return and no call they make on any surface is an `addNode`: each is a
`removeNode` of the node or a `scheduleGraphUpdate`, on the former owner. -/
theorem remove_is_terminal {S U : Type} (ops : SurfaceOps S) (g : NodeGraph S U)
    (this : Nat) (node : Node U) (s : S) (later : List NodeOp)
    (hn : g.nodes this = some node) (hs : g.surfaces node._surface = some s) :
    ∃ g1, Node.remove ops this g = some g1 ∧
      g1.calls = g.calls ++ [(node._surface, .removeNode this)] ∧
      g1.surfaces node._surface = some (ops.removeNode s this) ∧
      g1.nodes = g.nodes ∧
      (∀ a, a ≠ node._surface → g1.surfaces a = g.surfaces a) ∧
      ∃ g2 added, Node.run ops this later g1 = some g2 ∧ g2.calls = g1.calls ++ added ∧
        (∀ c ∈ added, c = (node._surface, SurfaceCall.removeNode this) ∨
          c = (node._surface, SurfaceCall.scheduleGraphUpdate)) ∧
        ∀ surface node1, (surface, SurfaceCall.addNode node1) ∉ added := by
  refine ⟨_, remove_of ops this g node s hn hs, rfl, by simp, rfl, ?_, ?_⟩
  · intro a ha
    simp [Function.update_noteq ha]
  · obtain ⟨g2, added, hrun, hcalls, hall⟩ := node_run_calls ops this later
      { nodes := g.nodes
        surfaces := Function.update g.surfaces node._surface (some (ops.removeNode s this))
        calls := g.calls ++ [(node._surface, .removeNode this)] } node (ops.removeNode s this)
      hn (by simp)
    refine ⟨g2, added, hrun, hcalls, hall, ?_⟩
    intro surface node1 hmem
    rcases hall _ hmem with h | h <;> cases h

theorem remove_is_terminal_witness :
    demoNodeGraph.nodes 5 = some ⟨1, false, ()⟩ ∧
    demoNodeGraph.surfaces 1 = some ([5], 0) ∧
    ∃ g1, Node.remove demoSurfaceOps 5 demoNodeGraph = some g1 ∧
      g1.calls = demoNodeGraph.calls ++ [(1, SurfaceCall.removeNode 5)] ∧
      g1.surfaces 1 = some (demoSurfaceOps.removeNode ([5], 0) 5) ∧
      g1.nodes = demoNodeGraph.nodes ∧
      (∀ a, a ≠ 1 → g1.surfaces a = demoNodeGraph.surfaces a) ∧
      ∃ g2 added,
        Node.run demoSurfaceOps 5 [NodeOp.scheduleCompile, NodeOp.remove] g1 = some g2 ∧
        g2.calls = g1.calls ++ added ∧
        (∀ c ∈ added, c = (1, SurfaceCall.removeNode 5) ∨
          c = (1, SurfaceCall.scheduleGraphUpdate)) ∧
        ∀ surface node1, (surface, SurfaceCall.addNode node1) ∉ added :=
  ⟨rfl, rfl,
    remove_is_terminal demoSurfaceOps demoNodeGraph 5 ⟨1, false, ()⟩ ([5], 0)
      [NodeOp.scheduleCompile, NodeOp.remove] rfl rfl⟩

/-! ## Lasso selection -/

theorem ssd_nil_right (xs : List Nat) : set_symmetric_difference xs [] = xs := by
  cases xs with
  | nil => rfl
  | cons x xs => rfl

theorem ssd_cons_cons (x y : Nat) (xs ys : List Nat) :
    set_symmetric_difference (x :: xs) (y :: ys) =
      if x < y then x :: set_symmetric_difference xs (y :: ys)
      else if y < x then y :: set_symmetric_difference (x :: xs) ys
      else set_symmetric_difference xs ys := rfl

/-- On ascending ranges without duplicates `std::set_symmetric_difference` yields,
ascending and without duplicates, the elements of exactly one of them. -/
theorem ssd_spec (xs ys : List Nat) (hx : xs.Sorted (· < ·)) (hy : ys.Sorted (· < ·)) :
    (set_symmetric_difference xs ys).Sorted (· < ·) ∧
    ∀ a, a ∈ set_symmetric_difference xs ys ↔ (a ∈ xs ∧ a ∉ ys) ∨ (a ∈ ys ∧ a ∉ xs) := by
  induction xs generalizing ys with
  | nil => exact ⟨hy, fun a => by simp [set_symmetric_difference]⟩
  | cons x xs ihx =>
    induction ys with
    | nil =>
      rw [ssd_nil_right]
      exact ⟨hx, fun a => by simp⟩
    | cons y ys ihy =>
      have hx1 := List.sorted_cons.1 hx
      have hy1 := List.sorted_cons.1 hy
      have hxx : x ∉ xs := fun h => lt_irrefl x (hx1.1 x h)
      have hyy : y ∉ ys := fun h => lt_irrefl y (hy1.1 y h)
      rw [ssd_cons_cons]
      by_cases h1 : x < y
      · rw [if_pos h1]
        obtain ⟨hs, hm⟩ := ihx (y :: ys) hx1.2 hy
        have hxy : x ∉ y :: ys := by
          intro h
          rcases List.mem_cons.1 h with h | h
          · omega
          · have := hy1.1 x h; omega
        refine ⟨List.sorted_cons.2 ⟨?_, hs⟩, ?_⟩
        · intro b hb
          rcases (hm b).1 hb with ⟨hbx, _⟩ | ⟨hby, _⟩
          · exact hx1.1 b hbx
          · rcases List.mem_cons.1 hby with rfl | hby
            · exact h1
            · exact lt_trans h1 (hy1.1 b hby)
        · intro a
          rw [List.mem_cons, hm a]
          by_cases hax : a = x
          · subst hax
            simp [hxy, hxx]
          · simp [hax]
      · rw [if_neg h1]
        by_cases h2 : y < x
        · rw [if_pos h2]
          obtain ⟨hs, hm⟩ := ihy hy1.2
          have hyx : y ∉ x :: xs := by
            intro h
            rcases List.mem_cons.1 h with h | h
            · omega
            · have := hx1.1 y h; omega
          refine ⟨List.sorted_cons.2 ⟨?_, hs⟩, ?_⟩
          · intro b hb
            rcases (hm b).1 hb with ⟨hbx, _⟩ | ⟨hby, _⟩
            · rcases List.mem_cons.1 hbx with rfl | hbx
              · exact h2
              · exact lt_trans h2 (hx1.1 b hbx)
            · exact hy1.1 b hby
          · intro a
            rw [List.mem_cons, hm a]
            by_cases hay : a = y
            · subst hay
              simp [hyx, hyy]
            · simp [hay]
        · rw [if_neg h2]
          have hxy : x = y := by omega
          subst hxy
          obtain ⟨hs, hm⟩ := ihx ys hx1.2 hy1.2
          refine ⟨hs, ?_⟩
          intro a
          rw [hm a]
          by_cases hax : a = x
          · subst hax
            simp [hxx, hyy]
          · simp [hax]

theorem emplace_spec (s : List Nat) (x : Nat) (hs : s.Sorted (· < ·)) :
    (emplace s x).Sorted (· < ·) ∧ ∀ a, a ∈ emplace s x ↔ a = x ∨ a ∈ s := by
  induction s with
  | nil => exact ⟨by simp [emplace], fun a => by simp [emplace]⟩
  | cons y ys ih =>
    have hs1 := List.sorted_cons.1 hs
    obtain ⟨ihs, ihm⟩ := ih hs1.2
    simp only [emplace]
    by_cases h1 : x < y
    · rw [if_pos h1]
      refine ⟨List.sorted_cons.2 ⟨?_, hs⟩, fun a => by simp⟩
      intro b hb
      rcases List.mem_cons.1 hb with rfl | hb
      · exact h1
      · exact lt_trans h1 (hs1.1 b hb)
    · rw [if_neg h1]
      by_cases h2 : x = y
      · rw [if_pos h2]
        subst h2
        exact ⟨hs, fun a => by simp⟩
      · rw [if_neg h2]
        refine ⟨List.sorted_cons.2 ⟨?_, ihs⟩, ?_⟩
        · intro b hb
          rcases (ihm b).1 hb with rfl | hb
          · omega
          · exact hs1.1 b hb
        · intro a
          rw [List.mem_cons, ihm a, List.mem_cons]
          tauto

theorem newSelectedItems_fold (selectItems : List SceneItem) (s : List Nat)
    (hs : s.Sorted (· < ·)) :
    (selectItems.foldl
      (fun set item =>
        match item with
        | .nodeItem node => emplace set node
        | .other => set) s).Sorted (· < ·) ∧
    ∀ a, a ∈ selectItems.foldl
        (fun set item =>
          match item with
          | .nodeItem node => emplace set node
          | .other => set) s ↔ a ∈ s ∨ SceneItem.nodeItem a ∈ selectItems := by
  induction selectItems generalizing s with
  | nil => exact ⟨hs, fun a => by simp⟩
  | cons item rest ih =>
    cases item with
    | nodeItem node =>
      obtain ⟨h1, h2⟩ := emplace_spec s node hs
      obtain ⟨h3, h4⟩ := ih (emplace s node) h1
      refine ⟨h3, fun a => ?_⟩
      simp only [List.foldl_cons, List.mem_cons, SceneItem.nodeItem.injEq]
      rw [h4 a, h2 a]
      tauto
    | other =>
      obtain ⟨h3, h4⟩ := ih s hs
      refine ⟨h3, fun a => ?_⟩
      simp only [List.foldl_cons, List.mem_cons]
      rw [h4 a]
      simp

/-- The set `mouseMoveEvent` builds is ascending and holds the nodes of the
node items under the path. -/
theorem newSelectedItems_spec (selectItems : List SceneItem) :
    (newSelectedItems selectItems).Sorted (· < ·) ∧
    ∀ a, a ∈ newSelectedItems selectItems ↔ SceneItem.nodeItem a ∈ selectItems := by
  obtain ⟨h1, h2⟩ := newSelectedItems_fold selectItems [] List.sorted_nil
  exact ⟨h1, fun a => by rw [newSelectedItems, h2 a]; simp⟩

theorem toggleItem_selected {G : Type} (ops : GridItemOps G) (g : G)
    (calls : List (Nat × ItemCall)) (x : Nat) (h : ops.isSelected g x = true) :
    toggleItem ops (g, calls) x = (ops.deselect g x, calls ++ [(x, .deselect)]) := by
  simp [toggleItem, h]

theorem toggleItem_unselected {G : Type} (ops : GridItemOps G) (g : G)
    (calls : List (Nat × ItemCall)) (x : Nat) (h : ¬ ops.isSelected g x = true) :
    toggleItem ops (g, calls) x = (ops.select g x false, calls ++ [(x, .select false)]) := by
  simp [toggleItem, h]

/-- The calls the toggle loop makes: one on each item, in order, a `deselect`
or a `select(false)`. -/
theorem toggle_calls {G : Type} (ops : GridItemOps G) (edgeItems : List Nat) (g : G)
    (calls : List (Nat × ItemCall)) :
    ∃ added, (edgeItems.foldl (toggleItem ops) (g, calls)).2 = calls ++ added ∧
      added.map Prod.fst = edgeItems ∧
      ∀ c ∈ added, c.2 = ItemCall.deselect ∨ c.2 = ItemCall.select false := by
  induction edgeItems generalizing g calls with
  | nil => exact ⟨[], by simp, rfl, fun c hc => absurd hc (List.not_mem_nil _)⟩
  | cons x rest ih =>
    simp only [List.foldl_cons]
    by_cases hsel : ops.isSelected g x = true
    · obtain ⟨added, h1, h2, h3⟩ := ih (ops.deselect g x) (calls ++ [(x, .deselect)])
      refine ⟨(x, .deselect) :: added, ?_, by simp [h2], ?_⟩
      · rw [toggleItem_selected ops g calls x hsel, h1]; simp
      · intro c hc
        rcases List.mem_cons.1 hc with rfl | hc
        · exact Or.inl rfl
        · exact h3 c hc
    · obtain ⟨added, h1, h2, h3⟩ := ih (ops.select g x false) (calls ++ [(x, .select false)])
      refine ⟨(x, .select false) :: added, ?_, by simp [h2], ?_⟩
      · rw [toggleItem_unselected ops g calls x hsel, h1]; simp
      · intro c hc
        rcases List.mem_cons.1 hc with rfl | hc
        · exact Or.inr rfl
        · exact h3 c hc

/-- When `select(false)` and `deselect` set and clear the flag of their item
and no other, the toggle loop over distinct items inverts the flag of each
and leaves the others. -/
theorem toggle_selected {G : Type} (ops : GridItemOps G)
    (hselect : ∀ g x y, ops.isSelected (ops.select g x false) y =
      if y = x then true else ops.isSelected g y)
    (hdeselect : ∀ g x y, ops.isSelected (ops.deselect g x) y =
      if y = x then false else ops.isSelected g y)
    (edgeItems : List Nat) (hnd : edgeItems.Nodup) (g : G) (calls : List (Nat × ItemCall))
    (y : Nat) :
    ops.isSelected (edgeItems.foldl (toggleItem ops) (g, calls)).1 y =
      if y ∈ edgeItems then !ops.isSelected g y else ops.isSelected g y := by
  induction edgeItems generalizing g calls with
  | nil => simp
  | cons x rest ih =>
    obtain ⟨hx, hrest⟩ := List.nodup_cons.1 hnd
    simp only [List.foldl_cons]
    by_cases hsel : ops.isSelected g x = true
    · rw [toggleItem_selected ops g calls x hsel, ih hrest, hdeselect]
      by_cases hyx : y = x
      · subst hyx
        simp [hx, hsel]
      · simp [hyx]
    · rw [toggleItem_unselected ops g calls x hsel, ih hrest, hselect]
      by_cases hyx : y = x
      · subst hyx
        simp [hx, hsel]
      · simp [hyx]

theorem mouseMoveEvent_selecting {G P : Type} (ops : GridItemOps G)
    (sceneItems : List P → List SceneItem) (c : SchematicCanvas G P) (event : MouseMove P)
    (hselecting : c.isSelecting = true)
    (hpass : (event.isAccepted && !event.itemAtIsSelectionPath) = false) :
    SchematicCanvas.mouseMoveEvent ops sceneItems c event =
      ({ isSelecting := c.isSelecting
         selectionPoints := c.selectionPoints ++ [event.scenePos]
         lastSelectedItems := newSelectedItems (sceneItems (c.selectionPoints ++ [event.scenePos]))
         selectionPath := c.selectionPoints ++ [event.scenePos]
         selectionPathVisible := true
         items := ((set_symmetric_difference c.lastSelectedItems
           (newSelectedItems (sceneItems (c.selectionPoints ++ [event.scenePos])))).foldl
             (toggleItem ops) (c.items, c.calls)).1
         calls := ((set_symmetric_difference c.lastSelectedItems
           (newSelectedItems (sceneItems (c.selectionPoints ++ [event.scenePos])))).foldl
             (toggleItem ops) (c.items, c.calls)).2 }, true) := by
  unfold SchematicCanvas.mouseMoveEvent
  rw [hpass]
  simp [hselecting]

/-- C17: in a lasso selection (`isSelecting` set, the event not taken by an
item other than the selection path), with `lastSelectedItems` a set `L` and
`N` the set of the nodes of the node items under the path, `mouseMoveEvent`
accepts the event and calls `deselect` or `select(false)` once on each item
that is in exactly one of `L` and `N`, in ascending order, and on no other
item; it ends with `lastSelectedItems` equal to `N`.  When `select(false)` and
`deselect` set and clear the flag of their item and no other, the flag of each
of these items is inverted and every other flag is as before; hence, if
before the call each item of `L` or `N` was selected exactly when in `L`, then
after it each is selected exactly when in `N`. -/
theorem lasso_toggles_symmetric_difference {G P : Type} (ops : GridItemOps G)
    (sceneItems : List P → List SceneItem) (c : SchematicCanvas G P) (event : MouseMove P)
    (hselecting : c.isSelecting = true)
    (hpass : (event.isAccepted && !event.itemAtIsSelectionPath) = false)
    (hset : c.lastSelectedItems.Sorted (· < ·))
    (hselect : ∀ g x y, ops.isSelected (ops.select g x false) y =
      if y = x then true else ops.isSelected g y)
    (hdeselect : ∀ g x y, ops.isSelected (ops.deselect g x) y =
      if y = x then false else ops.isSelected g y) :
    ∃ (edgeItems : List Nat) (added : List (Nat × ItemCall)),
      (SchematicCanvas.mouseMoveEvent ops sceneItems c event).2 = true ∧
      (∀ x, x ∈ newSelectedItems (sceneItems (c.selectionPoints ++ [event.scenePos])) ↔
        SceneItem.nodeItem x ∈ sceneItems (c.selectionPoints ++ [event.scenePos])) ∧
      edgeItems.Sorted (· < ·) ∧ edgeItems.Nodup ∧
      (∀ x, x ∈ edgeItems ↔
        (x ∈ c.lastSelectedItems ∧
          x ∉ newSelectedItems (sceneItems (c.selectionPoints ++ [event.scenePos]))) ∨
        (x ∈ newSelectedItems (sceneItems (c.selectionPoints ++ [event.scenePos])) ∧
          x ∉ c.lastSelectedItems)) ∧
      (SchematicCanvas.mouseMoveEvent ops sceneItems c event).1.calls = c.calls ++ added ∧
      added.map Prod.fst = edgeItems ∧
      (∀ call ∈ added, call.2 = ItemCall.deselect ∨ call.2 = ItemCall.select false) ∧
      (∀ x, ops.isSelected (SchematicCanvas.mouseMoveEvent ops sceneItems c event).1.items x =
        if x ∈ edgeItems then !ops.isSelected c.items x else ops.isSelected c.items x) ∧
      (SchematicCanvas.mouseMoveEvent ops sceneItems c event).1.lastSelectedItems =
        newSelectedItems (sceneItems (c.selectionPoints ++ [event.scenePos])) ∧
      ((∀ x, x ∈ c.lastSelectedItems ∨
            x ∈ newSelectedItems (sceneItems (c.selectionPoints ++ [event.scenePos])) →
          (ops.isSelected c.items x = true ↔ x ∈ c.lastSelectedItems)) →
        ∀ x, x ∈ c.lastSelectedItems ∨
            x ∈ newSelectedItems (sceneItems (c.selectionPoints ++ [event.scenePos])) →
          (ops.isSelected (SchematicCanvas.mouseMoveEvent ops sceneItems c event).1.items x
              = true ↔
            x ∈ newSelectedItems (sceneItems (c.selectionPoints ++ [event.scenePos])))) := by
  obtain ⟨hNs, hNm⟩ :=
    newSelectedItems_spec (sceneItems (c.selectionPoints ++ [event.scenePos]))
  obtain ⟨hEs, hEm⟩ := ssd_spec c.lastSelectedItems _ hset hNs
  have hnd := hEs.nodup
  obtain ⟨added, ha1, ha2, ha3⟩ := toggle_calls ops
    (set_symmetric_difference c.lastSelectedItems
      (newSelectedItems (sceneItems (c.selectionPoints ++ [event.scenePos])))) c.items c.calls
  have hsel := toggle_selected ops hselect hdeselect _ hnd c.items c.calls
  rw [mouseMoveEvent_selecting ops sceneItems c event hselecting hpass]
  refine ⟨_, added, rfl, hNm, hEs, hnd, hEm, ha1, ha2, ha3, hsel, rfl, ?_⟩
  intro hpre x hx
  simp only
  rw [hsel x]
  have hp := hpre x hx
  have hm := hEm x
  by_cases hL : x ∈ c.lastSelectedItems
  · by_cases hN : x ∈ newSelectedItems (sceneItems (c.selectionPoints ++ [event.scenePos]))
    · have hne : x ∉ set_symmetric_difference c.lastSelectedItems
          (newSelectedItems (sceneItems (c.selectionPoints ++ [event.scenePos]))) := by
        rw [hm]; tauto
      rw [if_neg hne]
      exact ⟨fun _ => hN, fun _ => hp.2 hL⟩
    · have hin : x ∈ set_symmetric_difference c.lastSelectedItems
          (newSelectedItems (sceneItems (c.selectionPoints ++ [event.scenePos]))) := by
        rw [hm]; tauto
      rw [if_pos hin, hp.2 hL]
      simp [hN]
  · have hN : x ∈ newSelectedItems (sceneItems (c.selectionPoints ++ [event.scenePos])) := by
      tauto
    have hin : x ∈ set_symmetric_difference c.lastSelectedItems
        (newSelectedItems (sceneItems (c.selectionPoints ++ [event.scenePos]))) := by
      rw [hm]; tauto
    have hns : ops.isSelected c.items x = false := by
      rw [← Bool.not_eq_true]
      exact fun h => hL (hp.1 h)
    rw [if_pos hin, hns]
    simp [hN]

theorem demoItemOps_select (g : List Nat) (x y : Nat) :
    demoItemOps.isSelected (demoItemOps.select g x false) y =
      if y = x then true else demoItemOps.isSelected g y := by
  by_cases h : y = x <;> simp [demoItemOps, h]

theorem demoItemOps_deselect (g : List Nat) (x y : Nat) :
    demoItemOps.isSelected (demoItemOps.deselect g x) y =
      if y = x then false else demoItemOps.isSelected g y := by
  by_cases h : y = x <;> simp [demoItemOps, h]

theorem lasso_toggles_symmetric_difference_witness :
    demoCanvas.isSelecting = true ∧
    ((⟨2, false, false⟩ : MouseMove Nat).isAccepted &&
      !(⟨2, false, false⟩ : MouseMove Nat).itemAtIsSelectionPath) = false ∧
    demoCanvas.lastSelectedItems.Sorted (· < ·) ∧
    newSelectedItems (demoSceneItems (demoCanvas.selectionPoints ++ [2])) = [3, 5] ∧
    (SchematicCanvas.mouseMoveEvent demoItemOps demoSceneItems demoCanvas
      ⟨2, false, false⟩).1.items = [5, 3] ∧
    ∃ (edgeItems : List Nat) (added : List (Nat × ItemCall)),
      (SchematicCanvas.mouseMoveEvent demoItemOps demoSceneItems demoCanvas
        ⟨2, false, false⟩).2 = true ∧
      (∀ x, x ∈ newSelectedItems (demoSceneItems (demoCanvas.selectionPoints ++ [2])) ↔
        SceneItem.nodeItem x ∈ demoSceneItems (demoCanvas.selectionPoints ++ [2])) ∧
      edgeItems.Sorted (· < ·) ∧ edgeItems.Nodup ∧
      (∀ x, x ∈ edgeItems ↔
        (x ∈ demoCanvas.lastSelectedItems ∧
          x ∉ newSelectedItems (demoSceneItems (demoCanvas.selectionPoints ++ [2]))) ∨
        (x ∈ newSelectedItems (demoSceneItems (demoCanvas.selectionPoints ++ [2])) ∧
          x ∉ demoCanvas.lastSelectedItems)) ∧
      (SchematicCanvas.mouseMoveEvent demoItemOps demoSceneItems demoCanvas
        ⟨2, false, false⟩).1.calls = demoCanvas.calls ++ added ∧
      added.map Prod.fst = edgeItems ∧
      (∀ call ∈ added, call.2 = ItemCall.deselect ∨ call.2 = ItemCall.select false) ∧
      (∀ x, demoItemOps.isSelected (SchematicCanvas.mouseMoveEvent demoItemOps demoSceneItems
          demoCanvas ⟨2, false, false⟩).1.items x =
        if x ∈ edgeItems then !demoItemOps.isSelected demoCanvas.items x
        else demoItemOps.isSelected demoCanvas.items x) ∧
      (SchematicCanvas.mouseMoveEvent demoItemOps demoSceneItems demoCanvas
        ⟨2, false, false⟩).1.lastSelectedItems =
        newSelectedItems (demoSceneItems (demoCanvas.selectionPoints ++ [2])) ∧
      ((∀ x, x ∈ demoCanvas.lastSelectedItems ∨
            x ∈ newSelectedItems (demoSceneItems (demoCanvas.selectionPoints ++ [2])) →
          (demoItemOps.isSelected demoCanvas.items x = true ↔
            x ∈ demoCanvas.lastSelectedItems)) →
        ∀ x, x ∈ demoCanvas.lastSelectedItems ∨
            x ∈ newSelectedItems (demoSceneItems (demoCanvas.selectionPoints ++ [2])) →
          (demoItemOps.isSelected (SchematicCanvas.mouseMoveEvent demoItemOps demoSceneItems
              demoCanvas ⟨2, false, false⟩).1.items x = true ↔
            x ∈ newSelectedItems (demoSceneItems (demoCanvas.selectionPoints ++ [2])))) :=
  ⟨rfl, rfl, by decide, by decide, by decide,
    lasso_toggles_symmetric_difference demoItemOps demoSceneItems demoCanvas ⟨2, false, false⟩
      rfl rfl (by decide) demoItemOps_select demoItemOps_deselect⟩

end MaximRuntime
